import Mathlib

/-! Final_calc: the expression scheduling engine of the orchestrator.

A shallow embedding of `internal/orchestrator/orchestrator.go` and of the part of
`internal/database/database.go` it writes to, followed by theorems about the
scheduler (`ScheduleTasks`), the work distributor (`GetTaskHandler`) and the
completion sink (`PostTaskHandler`), and about `ConfigFromEnv`, `RegisterHandler`
and `LoginHandler` (with `internal/auth/auth.go`).

Modelling conventions.

* Go pointers to `calculation.Node` are positions in the tree of the expression
  that owns the node: a `Path` from the root.  The trees are built by the parser
  and never re-linked, so a position names a node for as long as the expression
  lives.
* `float64` values are never computed with by the orchestrator, they are only
  copied.  The development is parametric in the type `V` of values.
* Go maps are association lists with unique keys (`Store`).
* Go `int` values (user and expression identifiers, times) are integers; the
  orchestrator does no arithmetic on them.
* `taskCounter` is an `int64` that is incremented once for every emitted task.
  Every emitted task marks a distinct node that stays in memory, so the counter
  cannot reach `2^63`; it is a natural number here.
* The HTTP framing (method check, JSON decoding) is outside the model: a handler
  takes the decoded request fields and returns the new state and a `Response`.
  The mutex `mu` serialises the handlers; the model runs them one at a time.
* `calculation.ParseAST` and the worker are not among the sources: the parser is a
  parameter `ParseAST` of `CalculateHandler`, and the results of workers are the
  values of `deliver` actions.

The file has the definitions first (data model, scheduler, handlers, runs,
invariants), then the lemmas and the theorems on the scheduler contract.
-/

namespace FinalCalc

/-! ## Data model -/

/-- Side of a child below a node. -/
inductive Dir where
  | L : Dir
  | R : Dir
deriving DecidableEq, Repr

/-- Position of a node in a tree: the sides to take from the root. -/
abbrev Path := List Dir

/-- Modelled from the spec: `calculation.Node` of `pkg/calculation`, which is not among the
sources; the fields are the ones `orchestrator.go` and the tests read and write
(`IsLeaf`, `Value`, `Operator`, `Left`, `Right`, `TaskScheduled`).  The type is the type of
`*calculation.Node`: `null` is the nil pointer. -/
inductive Node (V : Type) where
  | null : Node V
  | mk (IsLeaf : Bool) (Value : V) (Operator : String) (Left Right : Node V)
      (TaskScheduled : Bool) : Node V
deriving DecidableEq, Repr

/-- Configuration `Config` of the orchestrator. -/
structure Config where
  Addr : String
  TimeAddition : Int
  TimeSubtraction : Int
  TimeMultiplications : Int
  TimeDivisions : Int
deriving DecidableEq, Repr

/-- Target of `Expression.Result`, a `*float64`: nil, or the address `&expr.AST.Value` of the
value field of the root node (the only address the code ever stores there). -/
inductive ResultPtr where
  | nil : ResultPtr
  | rootValue : ResultPtr
deriving DecidableEq, Repr

/-- In-memory `Expression` of the orchestrator. -/
structure Expression (V : Type) where
  ID : String
  Expr : String
  UserID : String
  Status : String
  Result : ResultPtr
  AST : Node V
deriving DecidableEq, Repr

/-- In-memory `Task`; `Node` is the pointer to the node the task was emitted for, a
position in the tree of the expression `ExprID`. -/
structure Task (V : Type) where
  ID : String
  ExprID : String
  UserID : String
  Arg1 : V
  Arg2 : V
  Operation : String
  OperationTime : Int
  Node : Path
deriving DecidableEq, Repr

/-- Row of the table `expressions` (`database.Expression`). -/
structure DBExpression (V : Type) where
  UserID : Int
  ID : Int
  Expression : String
  Status : String
  Result : Option V
deriving DecidableEq, Repr

/-- The part of the sqlite database the scheduling engine uses: the rows of `expressions`
and the last identifier handed out by `AUTOINCREMENT`. -/
structure DataBase (V : Type) where
  expressions : List (DBExpression V)
  lastExprID : Nat
deriving DecidableEq, Repr

/-- Go map with string keys, as an association list. -/
abbrev Store (α : Type) := List (String × α)

/-- Map read `m[k]` with the comma-ok result. -/
def Store.get {α : Type} (k : String) : Store α → Option α
  | [] => none
  | (k1, v1) :: m => if k1 = k then some v1 else Store.get k m

/-- Map write `m[k] = v`: replaces the entry of `k`, or adds one. -/
def Store.set {α : Type} (k : String) (v : α) : Store α → Store α
  | [] => [(k, v)]
  | (k1, v1) :: m => if k1 = k then (k, v) :: m else (k1, v1) :: Store.set k v m

/-- State of the `Orchestrator`. -/
structure Orchestrator (V : Type) where
  Config : Config
  exprStore : Store (Expression V)
  taskStore : Store (Task V)
  TaskQueue : List (Task V)
  taskCounter : Nat
  Database : DataBase V
deriving DecidableEq, Repr

/-- What a handler writes to the `http.ResponseWriter`. -/
inductive Response (V : Type) where
  | error (code : Nat) (body : String) : Response V
  | created (id : String) : Response V
  | task (t : Task V) : Response V
  | accepted : Response V
  | nilDereference : Response V
deriving DecidableEq, Repr

variable {V : Type}

/-! ## Nodes -/

/-- The pointer is not nil. -/
def Node.notNil : Node V → Bool
  | .null => false
  | .mk _ _ _ _ _ _ => true

/-- Field `IsLeaf` (read only behind a nil check). -/
def Node.IsLeaf : Node V → Bool
  | .null => false
  | .mk isLeaf _ _ _ _ _ => isLeaf

/-- Field `TaskScheduled`. -/
def Node.TaskScheduled : Node V → Bool
  | .null => false
  | .mk _ _ _ _ _ sched => sched

/-- Field `Value`, when the pointer is not nil. -/
def Node.Value? : Node V → Option V
  | .null => none
  | .mk _ v _ _ _ _ => some v

/-- Field `Operator`. -/
def Node.Operator : Node V → String
  | .null => ""
  | .mk _ _ op _ _ _ => op

/-- The value of a node that is not nil and has `IsLeaf` set: the test
`n != nil && n.IsLeaf` together with the read of `n.Value`. -/
def Node.leafValue? : Node V → Option V
  | .mk true v _ _ _ _ => some v
  | _ => none

/-- Child pointer on the given side. -/
def Node.child : Node V → Dir → Node V
  | .null, _ => .null
  | .mk _ _ _ l _ _, .L => l
  | .mk _ _ _ _ r _, .R => r

/-- The node a pointer refers to: follows child pointers whatever the flags are. -/
def Node.get : Node V → Path → Node V
  | n, [] => n
  | n, d :: p => (n.child d).get p

/-- The assignments `task.Node.IsLeaf = true; task.Node.Value = v` at a position. -/
def Node.setLeaf (v : V) : Node V → Path → Node V
  | .null, _ => .null
  | .mk _ _ op l r sched, [] => .mk true v op l r sched
  | .mk isLeaf v1 op l r sched, .L :: p => .mk isLeaf v1 op (Node.setLeaf v l p) r sched
  | .mk isLeaf v1 op l r sched, .R :: p => .mk isLeaf v1 op l (Node.setLeaf v r p) sched

/-! ## Scheduler -/

/-- The `switch node.Operator` of `ScheduleTasks`. -/
def opTime (c : Config) (op : String) : Int :=
  if op = "+" then c.TimeAddition
  else if op = "-" then c.TimeSubtraction
  else if op = "*" then c.TimeMultiplications
  else if op = "/" then c.TimeDivisions
  else 100

/-- The body of `if !node.TaskScheduled`: one task for the node at `path`, whose children
are the leaves `l` and `r`. -/
def emitTask (expr : Expression V) (path : Path) (op : String) (a1 a2 : V)
    (o : Orchestrator V) : Orchestrator V :=
  let c := o.taskCounter + 1
  let taskID := toString c
  let task : Task V :=
    { ID := taskID, ExprID := expr.ID, UserID := expr.UserID, Arg1 := a1, Arg2 := a2,
      Operation := op, OperationTime := opTime o.Config op, Node := path }
  { o with taskCounter := c, taskStore := o.taskStore.set taskID task,
           TaskQueue := o.TaskQueue ++ [task] }

/-- The closure `traverse` of `ScheduleTasks`; `path` is the position of `node`. Returns the
node after the writes to `TaskScheduled` and the orchestrator after the emissions. -/
def traverse (expr : Expression V) : Path → Node V → Orchestrator V → Node V × Orchestrator V
  | _, .null, o => (.null, o)
  | path, .mk isLeaf v op l r sched, o =>
    if isLeaf then (.mk isLeaf v op l r sched, o)
    else
      let tl := traverse expr (path ++ [Dir.L]) l o
      let tr := traverse expr (path ++ [Dir.R]) r tl.2
      match tl.1.leafValue?, tr.1.leafValue? with
      | some a1, some a2 =>
        if !sched then
          (.mk isLeaf v op tl.1 tr.1 true, emitTask expr path op a1 a2 tr.2)
        else (.mk isLeaf v op tl.1 tr.1 sched, tr.2)
      | _, _ => (.mk isLeaf v op tl.1 tr.1 sched, tr.2)

/-- The method `ScheduleTasks`: the orchestrator and the expression after the pass. -/
def ScheduleTasks (o : Orchestrator V) (expr : Expression V) :
    Orchestrator V × Expression V :=
  let t := traverse expr [] expr.AST o
  (t.2, { expr with AST := t.1 })

/-! ## Identifiers -/

/-- Go `strconv.Itoa`. -/
def Itoa (i : Int) : String := toString i

/-- Value of a list of decimal digit characters, after the value `a` already read. -/
def digitsValue (a : Nat) (cs : List Char) : Nat :=
  cs.foldl (fun a c => 10 * a + (c.toNat - 48)) a

/-- Go `strconv.Atoi` on a 64-bit platform: an optional sign, then one or more decimal
digits, with a value in the range of `int`; otherwise the error text. -/
def Atoi (s : String) : Except String Int :=
  let cs := s.toList
  let neg := cs.head? = some '-'
  let ds := if cs.head? = some '-' ∨ cs.head? = some '+' then cs.tail else cs
  if ds.isEmpty || !ds.all Char.isDigit then
    .error ("strconv.Atoi: parsing " ++ s.quote ++ ": invalid syntax")
  else
    let v : Int := if neg then -(digitsValue 0 ds : Int) else (digitsValue 0 ds : Int)
    if v < -(2 : Int) ^ 63 ∨ (2 : Int) ^ 63 - 1 < v then
      .error ("strconv.Atoi: parsing " ++ s.quote ++ ": value out of range")
    else .ok v

/-! ## Storage port (`database.go`)

The sqlite file is taken to answer every statement; a failing statement is outside the
model. -/

/-- The method `CreateExpression`: `INSERT INTO expressions ... RETURNING id`. -/
def DataBase.CreateExpression (d : DataBase V) (userID : Int) (expr : String) :
    DataBase V × DBExpression V :=
  let e : DBExpression V :=
    { UserID := userID, ID := ((d.lastExprID + 1 : Nat) : Int), Expression := expr,
      Status := "pending", Result := none }
  ({ expressions := d.expressions ++ [e], lastExprID := d.lastExprID + 1 }, e)

/-- The method `UpdateExpression`:
`UPDATE expressions SET status = ?, result = ? WHERE id = ? AND user_id = ?`. -/
def DataBase.UpdateExpression (d : DataBase V) (e : DBExpression V) : DataBase V :=
  { d with expressions := d.expressions.map fun row =>
      if row.ID = e.ID ∧ row.UserID = e.UserID then
        { row with Status := e.Status, Result := e.Result }
      else row }

/-- The row `SELECT ... FROM expressions WHERE id = ? AND user_id = ?` finds
(`GetExpressionByID`). -/
def DataBase.GetExpressionByID (d : DataBase V) (id userID : Int) : Option (DBExpression V) :=
  d.expressions.find? fun row => decide (row.ID = id ∧ row.UserID = userID)

/-! ## Handlers -/

/-- What `*expr.Result` reads: nothing for nil, the current value of the root otherwise. -/
def Expression.resultValue (e : Expression V) : Option V :=
  match e.Result with
  | .nil => none
  | .rootValue => e.AST.Value?

/-- The state `NewOrchestrator` returns, for the configuration read from the environment
and the database file found on disk. -/
def NewOrchestrator (cfg : Config) (db : DataBase V) : Orchestrator V :=
  { Config := cfg, exprStore := [], taskStore := [], TaskQueue := [], taskCounter := 0,
    Database := db }

/-- The handler `CalculateHandler` for an authenticated user `userID` and the decoded field
`expression`.  `ParseAST` is `calculation.ParseAST`, which is not among the sources. -/
def CalculateHandler (ParseAST : String → Except String (Node V)) (o : Orchestrator V)
    (userID : Int) (expression : String) : Orchestrator V × Response V :=
  if expression = "" then (o, .error 422 "\x7b\"error\":\"Invalid Body\"\x7d")
  else
    let c := o.Database.CreateExpression userID expression
    let o1 : Orchestrator V := { o with Database := c.1 }
    let dbExpr := c.2
    let expr : Expression V :=
      { ID := Itoa dbExpr.ID, Expr := expression, Status := "pending", UserID := Itoa userID,
        Result := .nil, AST := .null }
    match ParseAST expression with
    | .error err =>
      let e : DBExpression V :=
        { UserID := 0, ID := dbExpr.ID, Expression := "", Status := "error", Result := none }
      ({ o1 with Database := o1.Database.UpdateExpression e },
        .error 422 ("\x7b\"error\":\"" ++ err ++ "\"\x7d"))
    | .ok ast =>
      let expr1 : Expression V := { expr with AST := ast }
      let o2 : Orchestrator V := { o1 with exprStore := o1.exprStore.set expr1.ID expr1 }
      let s := ScheduleTasks o2 expr1
      ({ s.1 with exprStore := s.1.exprStore.set expr1.ID s.2 }, .created expr1.ID)

/-- The handler `GetTaskHandler`. -/
def GetTaskHandler (o : Orchestrator V) : Orchestrator V × Response V :=
  match o.TaskQueue with
  | [] => (o, .error 404 "\x7b\"error\":\"No task available\"\x7d")
  | task :: rest =>
    let o1 : Orchestrator V := { o with TaskQueue := rest }
    match o1.exprStore.get task.ExprID with
    | some expr =>
      ({ o1 with exprStore := o1.exprStore.set task.ExprID { expr with Status := "completed" } },
        .task task)
    | none => (o1, .task task)

/-- The handler `PostTaskHandler` for the decoded fields `id` and `result`.  The writes to
`task.Node` land in the tree of the expression `task.ExprID`; when no such expression is
stored the node is one the orchestrator does not reach and the state is unchanged.  A read
of `expr.AST.IsLeaf` through a nil root is the answer `nilDereference`.  On the two 500
answers the Go handler returns without unlocking `mu`; the model has no mutex. -/
def PostTaskHandler (o : Orchestrator V) (id : String) (result : V) :
    Orchestrator V × Response V :=
  if id = "" then (o, .error 422 "\x7b\"error\":\"Invalid Body\"\x7d")
  else
    match o.taskStore.get id with
    | none => (o, .error 404 "\x7b\"error\":\"Task not found\"\x7d")
    | some task =>
      match o.exprStore.get task.ExprID with
      | none => (o, .accepted)
      | some expr0 =>
        let expr : Expression V := { expr0 with AST := expr0.AST.setLeaf result task.Node }
        let o1 : Orchestrator V := { o with exprStore := o.exprStore.set task.ExprID expr }
        let s := ScheduleTasks o1 expr
        match s.2.AST with
        | .null => ({ s.1 with exprStore := s.1.exprStore.set task.ExprID s.2 }, .nilDereference)
        | .mk isLeaf _ _ _ _ _ =>
          let expr2 : Expression V :=
            if isLeaf then { s.2 with Status := "completed", Result := .rootValue } else s.2
          let o2 : Orchestrator V := { s.1 with exprStore := s.1.exprStore.set task.ExprID expr2 }
          match Atoi expr2.UserID with
          | .error err => (o2, .error 500 err)
          | .ok user_id =>
            match Atoi expr2.ID with
            | .error err => (o2, .error 500 err)
            | .ok eid =>
              let e : DBExpression V :=
                { UserID := user_id, ID := eid, Expression := expr2.Expr,
                  Status := expr2.Status, Result := expr2.resultValue }
              ({ o2 with Database := o2.Database.UpdateExpression e }, .accepted)

/-- A call `o.ScheduleTasks(expr)` on the expression stored under `x`. -/
def scheduleStored (o : Orchestrator V) (x : String) : Orchestrator V :=
  match o.exprStore.get x with
  | none => o
  | some expr =>
    let s := ScheduleTasks o expr
    { s.1 with exprStore := s.1.exprStore.set x s.2 }

/-! ## Reading a scheduling pass -/

/-- A node of the operation tree is Internal and both its children are Leaf. -/
def Node.ready : Node V → Bool
  | .mk false _ _ l r _ => l.leafValue?.isSome && r.leafValue?.isSome
  | _ => false

/-- A node qualifies for emission: Internal, both children Leaf, marker unset. -/
def Node.qualifies (n : Node V) : Bool := n.ready && !n.TaskScheduled

/-- The position `p` is a node of the operation tree: it is not nil and every node strictly
above it is Internal (a node with `IsLeaf` set is a Leaf: what hangs below it is not part
of the operation tree). -/
def Node.inTree : Node V → Path → Bool
  | n, [] => n.notNil
  | .mk false _ _ l _ _, .L :: p => l.inTree p
  | .mk false _ _ _ r _, .R :: p => r.inTree p
  | _, _ :: _ => false

/-- What one emission needs: position, operator and the two operands. -/
structure Emission (V : Type) where
  path : Path
  op : String
  a1 : V
  a2 : V

/-- The emissions of a pass over `n`, whose position is `pre`, in the order of the pass. -/
def emissions (pre : Path) : Node V → List (Emission V)
  | .null => []
  | .mk true _ _ _ _ _ => []
  | .mk false _ op l r sched =>
    emissions (pre ++ [Dir.L]) l ++ emissions (pre ++ [Dir.R]) r ++
      (match l.leafValue?, r.leafValue? with
       | some a1, some a2 => if sched then [] else [⟨pre, op, a1, a2⟩]
       | _, _ => [])

/-- The tree after a pass: the marker of every qualifying node is set. -/
def markAll : Node V → Node V
  | .null => .null
  | .mk true v op l r sched => .mk true v op l r sched
  | .mk false v op l r sched =>
    .mk false v op (markAll l) (markAll r)
      (sched || (l.leafValue?.isSome && r.leafValue?.isSome))

/-- The orchestrator after a list of emissions. -/
def emitAll (expr : Expression V) (es : List (Emission V)) (o : Orchestrator V) :
    Orchestrator V :=
  es.foldl (fun o1 e => emitTask expr e.path e.op e.a1 e.a2 o1) o

/-- The task with number `c` for an emission, for the expression `exprID` of `userID`. -/
def taskOf (cfg : Config) (exprID userID : String) (c : Nat) (e : Emission V) : Task V :=
  { ID := toString c, ExprID := exprID, UserID := userID, Arg1 := e.a1, Arg2 := e.a2,
    Operation := e.op, OperationTime := opTime cfg e.op, Node := e.path }

/-- The tasks of a list of emissions, numbered from `c + 1`. -/
def tasksOf (cfg : Config) (exprID userID : String) :
    Nat → List (Emission V) → List (Task V)
  | _, [] => []
  | c, e :: es => taskOf cfg exprID userID (c + 1) e :: tasksOf cfg exprID userID (c + 1) es

/-! ## Sample inputs -/

/-- The configuration of `TestConfigFromEnv` with the default values. -/
def sampleConfig : Config :=
  { Addr := "8080", TimeAddition := 10, TimeSubtraction := 10, TimeMultiplications := 10,
    TimeDivisions := 10 }

/-- The literal `&calculation.Node{IsLeaf: true, Value: v}` of the tests. -/
def numLeaf (v : Int) : Node Int := .mk true v "" .null .null false

/-- The literal `&calculation.Node{Operator: op, Left: l, Right: r}` of the tests. -/
def opNode (op : String) (l r : Node Int) : Node Int := .mk false 0 op l r false

/-- The tree of `2+3*4` in `TestParseAST` and `TestScheduleTasks`. -/
def tree_2_plus_3_times_4 : Node Int :=
  opNode "+" (numLeaf 2) (opNode "*" (numLeaf 3) (numLeaf 4))

/-- The tree of `(2+3)*(4+5)`: two nodes are ready at once. -/
def tree_two_ready : Node Int :=
  opNode "*" (opNode "+" (numLeaf 2) (numLeaf 3)) (opNode "+" (numLeaf 4) (numLeaf 5))

/-- Modelled from the spec: `calculation.ParseAST` is not among the sources; this is the
table of `TestParseAST` for the integer inputs the scenarios use, a parse error on every
other text. -/
def sampleParse (s : String) : Except String (Node Int) :=
  if s = "42" then .ok (numLeaf 42)
  else if s = "2+3" then .ok (opNode "+" (numLeaf 2) (numLeaf 3))
  else if s = "2+3*4" then .ok tree_2_plus_3_times_4
  else if s = "(2+3)*(4+5)" then .ok tree_two_ready
  else .error "invalid expression"

/-- Modelled from the spec: the computation of a worker (`internal/agent` is not among the
sources): the four binary operators on the operands of the task. -/
def sampleEval (op : String) (a b : Int) : Int :=
  if op = "+" then a + b
  else if op = "-" then a - b
  else if op = "*" then a * b
  else a / b

/-- A fresh orchestrator on an empty database. -/
def sampleStart : Orchestrator Int := NewOrchestrator sampleConfig ⟨[], 0⟩

/-- Scenario A after the submission of `2+3*4` by user 1. -/
def scenarioA1 : Orchestrator Int := (CalculateHandler sampleParse sampleStart 1 "2+3*4").1

/-- Scenario A after the result 12 for the task of `*`. -/
def scenarioA2 : Orchestrator Int := (PostTaskHandler scenarioA1 "1" 12).1

/-- Scenario A after the result 14 for the task of `+`. -/
def scenarioA3 : Orchestrator Int := (PostTaskHandler scenarioA2 "2" 14).1

/-- The state after the submission of `(2+3)*(4+5)` by user 1: the tasks `1` and `2` of the
two `+` nodes are pending. -/
def scenarioTwoReady : Orchestrator Int :=
  (CalculateHandler sampleParse sampleStart 1 "(2+3)*(4+5)").1

/-- The task a fresh orchestrator emits with number `id` for the expression `1`. -/
def sampleTask (id : String) (op : String) (a1 a2 : Int) (node : Path) : Task Int :=
  { ID := id, ExprID := "1", UserID := "1", Arg1 := a1, Arg2 := a2, Operation := op,
    OperationTime := 10, Node := node }

/-- An emission of a subtree, seen from the position `pre` of the subtree. -/
def Emission.shift (pre : Path) (e : Emission V) : Emission V :=
  { e with path := pre ++ e.path }

/-! ## Runs of the orchestrator -/

/-- A request the orchestrator serves, or a direct call of the scheduler. -/
inductive Action (V : Type) where
  | submit (userID : Int) (expression : String) : Action V
  | schedule (x : String) : Action V
  | pull : Action V
  | deliver (id : String) (result : V) : Action V
deriving DecidableEq, Repr

/-- The state after one action. -/
def step (ParseAST : String → Except String (Node V)) (o : Orchestrator V) :
    Action V → Orchestrator V
  | .submit userID expression => (CalculateHandler ParseAST o userID expression).1
  | .schedule x => scheduleStored o x
  | .pull => (GetTaskHandler o).1
  | .deliver id result => (PostTaskHandler o id result).1

/-- The state after a list of actions. -/
def run (ParseAST : String → Except String (Node V)) (o : Orchestrator V)
    (acts : List (Action V)) : Orchestrator V :=
  acts.foldl (step ParseAST) o

/-- Modelled from the spec: the trees `calculation.ParseAST` returns (`pkg/calculation` is
not among the sources).  A number is a Leaf without children; an operator is an Internal
node that owns a left and a right tree; no task-emitted marker is set. -/
def Node.parsed : Node V → Bool
  | .null => false
  | .mk true _ _ l r sched => !l.notNil && !r.notNil && !sched
  | .mk false _ _ l r sched => l.parsed && r.parsed && !sched

/-- No task-emitted marker is set in the tree. -/
def Node.noMarker : Node V → Bool
  | .null => true
  | .mk _ _ _ l r sched => !sched && l.noMarker && r.noMarker

/-- Number of entries of the lookup table whose task refers to the node at `p` of the
expression stored under `x`. -/
def taskRefs (o : Orchestrator V) (x : String) (p : Path) : Nat :=
  o.taskStore.countP (fun kt => decide (kt.2.ExprID = x ∧ kt.2.Node = p))

/-- Number of Internal nodes of the operation tree. -/
def Node.internalCount : Node V → Nat
  | .null => 0
  | .mk true _ _ _ _ _ => 0
  | .mk false _ _ l r _ => 1 + l.internalCount + r.internalCount

/-- The value of the operation tree when every operation is computed by `f`. -/
def Node.eval (f : String → V → V → V) : Node V → Option V
  | .null => none
  | .mk true v _ _ _ _ => some v
  | .mk false _ op l r _ =>
    match l.eval f, r.eval f with
    | some a, some b => some (f op a b)
    | _, _ => none

/-- Shape of the trees of stored expressions: a node is a number (a Leaf without children),
or it owns two such trees; in that case, when it is a Leaf or has its marker set both
children are Leaves, and when it is a Leaf its marker is set. -/
def Node.good : Node V → Bool
  | .null => false
  | .mk isLeaf _ _ l r sched =>
    (isLeaf && !l.notNil && !r.notNil) ||
      (l.good && r.good && ((!isLeaf && !sched) || (l.IsLeaf && r.IsLeaf)) &&
        (!isLeaf || sched))

/-- The root of the expression stored under `x` is a Leaf. -/
def rootIsLeaf (o : Orchestrator V) (x : String) : Bool :=
  match o.exprStore.get x with
  | some e => e.AST.IsLeaf
  | none => false

/-- The value of the root of the expression stored under `x`. -/
def rootValue (o : Orchestrator V) (x : String) : Option V :=
  match o.exprStore.get x with
  | some e => e.AST.Value?
  | none => none

/-- The task `id` is pending for the expression stored under `x`: it is in the lookup
table, it belongs to `x`, and its node is still Internal (no result was applied to it). -/
def pending (o : Orchestrator V) (x : String) (id : String) : Bool :=
  match o.taskStore.get id, o.exprStore.get x with
  | some task, some e =>
    decide (id ≠ "") && decide (task.ExprID = x) && !(e.AST.get task.Node).IsLeaf
  | _, _ => false

/-- Number of results delivered for pending tasks of `x` along a list of actions. -/
def pendingDeliveries (ParseAST : String → Except String (Node V)) (x : String) :
    Orchestrator V → List (Action V) → Nat
  | _, [] => 0
  | o, .deliver id v :: acts =>
    (if pending o x id then 1 else 0) +
      pendingDeliveries ParseAST x (step ParseAST o (.deliver id v)) acts
  | o, a :: acts => pendingDeliveries ParseAST x (step ParseAST o a) acts

/-- Every result delivered along a list of actions for a task of `x` is the value `f`
computes from the operator and the two operands of the task. -/
def honest (ParseAST : String → Except String (Node V)) (f : String → V → V → V)
    (x : String) : Orchestrator V → List (Action V) → Prop
  | _, [] => True
  | o, .deliver id v :: acts =>
    (∀ task, o.taskStore.get id = some task → task.ExprID = x →
        v = f task.Operation task.Arg1 task.Arg2) ∧
      honest ParseAST f x (step ParseAST o (.deliver id v)) acts
  | o, a :: acts => honest ParseAST f x (step ParseAST o a) acts

/-- The state after a scheduling pass over the tree `t` for the expression `e` stored
under `x`, with the status, result pointer and database the handler leaves. -/
def passOver (o : Orchestrator V) (x : String) (e : Expression V) (t : Node V)
    (st : String) (res : ResultPtr) (db : DataBase V) : Orchestrator V :=
  { emitAll e (emissions [] t) o with
    exprStore := o.exprStore.set x { e with AST := markAll t, Status := st, Result := res }
    Database := db }

/-- The keys of a store. -/
def Store.keys {α : Type} (m : Store α) : List String := m.map Prod.fst

/-- Invariant of the lookup table and the markers: keys of the lookup table are numbers up
to the counter and distinct, stored expressions carry their key, which is a number up to
the last database identifier, every task belongs to a stored expression, and the number of
tasks that refer to a node is 1 when its marker is set and 0 otherwise. -/
structure Inv1 (o : Orchestrator V) : Prop where
  taskKeys : ∀ kt ∈ o.taskStore, ∃ n : Nat, n ≤ o.taskCounter ∧ kt.1 = toString n
  taskNodup : (Store.keys o.taskStore).Nodup
  exprKeys : ∀ ke ∈ o.exprStore,
    ke.2.ID = ke.1 ∧ ∃ n : Nat, n ≤ o.Database.lastExprID ∧ ke.1 = Itoa (n : Int)
  taskExpr : ∀ kt ∈ o.taskStore, ∃ e, o.exprStore.get kt.2.ExprID = some e
  refs : ∀ x e, o.exprStore.get x = some e → ∀ p,
    taskRefs o x p = if (e.AST.get p).TaskScheduled then 1 else 0

/-- Number of Internal nodes left in the tree of the expression stored under `x`. -/
def remaining (o : Orchestrator V) (x : String) : Nat :=
  match o.exprStore.get x with
  | some e => e.AST.internalCount
  | none => 0

/-- Invariant of the stored trees: they have the shape `good`, a scheduling pass finds
nothing to emit in them, and an expression whose root is a collapsed Leaf is completed
with the root value as result. -/
structure Inv2 (o : Orchestrator V) : Prop where
  good : ∀ x e, o.exprStore.get x = some e → e.AST.good = true
  closed : ∀ x e, o.exprStore.get x = some e → markAll e.AST = e.AST
  done : ∀ x e, o.exprStore.get x = some e → e.AST.IsLeaf = true →
    e.AST.TaskScheduled = true → e.Status = "completed" ∧ e.Result = .rootValue

/-- Both invariants together. -/
def Inv (o : Orchestrator V) : Prop := Inv1 o ∧ Inv2 o

/-- The task agrees with the tree `t`: while its node is Internal the operands and the
operator of the task are the values of the two children and the operator of the node, and
once the node is a Leaf its value is what `f` computes for the task. -/
def taskOK (f : String → V → V → V) (t : Node V) (task : Task V) : Prop :=
  ((t.get task.Node).IsLeaf = false →
    (t.get (task.Node ++ [Dir.L])).leafValue? = some task.Arg1 ∧
    (t.get (task.Node ++ [Dir.R])).leafValue? = some task.Arg2 ∧
    (t.get task.Node).Operator = task.Operation) ∧
  ((t.get task.Node).IsLeaf = true →
    (t.get task.Node).Value? = some (f task.Operation task.Arg1 task.Arg2))

/-- Invariant of a run with results computed by `f`, for the expression stored under `x`
that was submitted with the tree `t0`: the tree has the value of `t0` and every task of
`x` agrees with it. -/
def honestInv (f : String → V → V → V) (o : Orchestrator V) (x : String) (t0 : Node V) :
    Prop :=
  ∃ e, o.exprStore.get x = some e ∧ e.AST.eval f = t0.eval f ∧
    ∀ kt ∈ o.taskStore, kt.2.ExprID = x → taskOK f e.AST kt.2

/-! ## Work distributor: successive pulls -/

/-- The answers of `n` successive calls of `GetTaskHandler`. -/
def pulls : Nat → Orchestrator V → List (Response V)
  | 0, _ => []
  | n + 1, o => (GetTaskHandler o).2 :: pulls n (GetTaskHandler o).1

/-- The nodes of the tasks one call of `ScheduleTasks` appends to the queue, in the order of
the queue. -/
def emittedNodes (o : Orchestrator V) (expr : Expression V) : List Path :=
  ((ScheduleTasks o expr).1.TaskQueue.drop o.TaskQueue.length).map fun t => t.Node

/-! ## Configuration -/

/-- The first result of Go `strconv.Atoi` on a 64-bit platform, which `ConfigFromEnv` reads
without looking at the error: the value of the decimal text, 0 on a syntax error, and the
nearest bound of `int` when the value is out of range. -/
def AtoiValue (s : String) : Int :=
  let cs := s.toList
  let neg := cs.head? = some '-'
  let ds := if cs.head? = some '-' ∨ cs.head? = some '+' then cs.tail else cs
  if ds.isEmpty || !ds.all Char.isDigit then 0
  else
    let v : Int := if neg then -(digitsValue 0 ds : Int) else (digitsValue 0 ds : Int)
    if v < -(2 : Int) ^ 63 then -(2 : Int) ^ 63
    else if (2 : Int) ^ 63 - 1 < v then (2 : Int) ^ 63 - 1
    else v

/-- The function `ConfigFromEnv`; `Getenv` is `os.Getenv`, which is the empty string for a
variable that is not set. -/
def ConfigFromEnv (Getenv : String → String) : Config :=
  let port := if Getenv "PORT" = "" then "8080" else Getenv "PORT"
  let ta := if AtoiValue (Getenv "TIME_ADDITION_MS") = 0 then 10
    else AtoiValue (Getenv "TIME_ADDITION_MS")
  let ts := if AtoiValue (Getenv "TIME_SUBTRACTION_MS") = 0 then 10
    else AtoiValue (Getenv "TIME_SUBTRACTION_MS")
  let tm := if AtoiValue (Getenv "TIME_MULTIPLICATIONS_MS") = 0 then 10
    else AtoiValue (Getenv "TIME_MULTIPLICATIONS_MS")
  let td := if AtoiValue (Getenv "TIME_DIVISIONS_MS") = 0 then 10
    else AtoiValue (Getenv "TIME_DIVISIONS_MS")
  { Addr := port, TimeAddition := ta, TimeSubtraction := ts, TimeMultiplications := tm,
    TimeDivisions := td }

/-- The environment of the second case of `TestConfigFromEnv`. -/
def sampleEnv (name : String) : String :=
  if name = "PORT" then "9090"
  else if name = "TIME_ADDITION_MS" then "20"
  else if name = "TIME_SUBTRACTION_MS" then "30"
  else if name = "TIME_MULTIPLICATIONS_MS" then "40"
  else if name = "TIME_DIVISIONS_MS" then "50"
  else ""

/-- An environment that sets `TIME_ADDITION_MS` to `0` and nothing else. -/
def zeroEnv (name : String) : String :=
  if name = "TIME_ADDITION_MS" then "0" else ""

/-! ## Registration and login

The handlers `RegisterHandler` and `LoginHandler` use the table `users` only; it is a state
of its own here.  The bcrypt and JWT libraries are parameters. -/

/-- Row of the table `users` (`database.User`). -/
structure User where
  ID : Int
  Login : String
  Password : String
deriving DecidableEq, Repr

/-- The table `users` and the last identifier handed out by `AUTOINCREMENT`. -/
structure UserTable where
  users : List User
  lastUserID : Nat
deriving DecidableEq, Repr

/-- The two functions of `golang.org/x/crypto/bcrypt` the package `auth` calls:
`GenerateFromPassword` (with the random salt it draws as an argument) and whether
`CompareHashAndPassword hash password` returns nil. -/
structure Bcrypt where
  GenerateFromPassword : String → String → Except String String
  CompareHashAndPassword : String → String → Bool

/-- What `RegisterHandler` and `LoginHandler` write to the `http.ResponseWriter`. -/
inductive AuthResponse where
  | error (code : Nat) (body : String) : AuthResponse
  | registered (id : Int) (login : String) : AuthResponse
  | token (token : String) (id : Int) (login : String) : AuthResponse
deriving DecidableEq, Repr

/-- The function `auth.HashPass`, with the salt bcrypt draws. -/
def HashPass (b : Bcrypt) (pass salt : String) : Except String String :=
  b.GenerateFromPassword pass salt

/-- The function `auth.CheckCorPass`. -/
def CheckCorPass (b : Bcrypt) (pass hash : String) : Bool :=
  b.CompareHashAndPassword hash pass

/-- The method `SelectUser`: the row with the login, `none` for the error `not found`. -/
def UserTable.SelectUser (d : UserTable) (login : String) : Option User :=
  d.users.find? fun u => decide (u.Login = login)

/-- The method `InsertUser`: it hashes the text it is given as password and inserts the
row; the login is `UNIQUE`. -/
def UserTable.InsertUser (b : Bcrypt) (d : UserTable) (login password salt : String) :
    UserTable × Except String Int :=
  match HashPass b password salt with
  | .error err => (d, .error err)
  | .ok hash =>
    if d.users.any (fun u => decide (u.Login = login)) then (d, .error "already exists")
    else
      ({ users := d.users ++
            [{ ID := ((d.lastUserID + 1 : Nat) : Int), Login := login, Password := hash }],
         lastUserID := d.lastUserID + 1 },
        .ok ((d.lastUserID + 1 : Nat) : Int))

/-- The handler `RegisterHandler` for the decoded fields `login` and `password`; `salt1` is
the salt of the handler's call of `HashPass`, `salt2` the salt of the call in `InsertUser`.
The test `errors.Is(err, errors.New("already exists"))` compares with a new error value and
is false for every `err`, so every failure of `InsertUser` is answered with 500. -/
def RegisterHandler (b : Bcrypt) (d : UserTable) (login password salt1 salt2 : String) :
    UserTable × AuthResponse :=
  if login = "" ∨ password = "" then
    (d, .error 400 "\x7b\"error\":\"Login and password are required\"\x7d")
  else
    match HashPass b password salt1 with
    | .error _ => (d, .error 500 "\x7b\"error\":\"Internal server error\"\x7d")
    | .ok hashedPassword =>
      match UserTable.InsertUser b d login hashedPassword salt2 with
      | (d1, .error _) => (d1, .error 500 "\x7b\"error\":\"Internal server error\"\x7d")
      | (d1, .ok userID) => (d1, .registered userID login)

/-- The handler `LoginHandler` for the decoded fields `login` and `password`; `GenJWT` is
`auth.GenJWT`, which signs with the JWT library.  The test
`errors.Is(err, errors.New("not found"))` compares with a new error value and is false for
every `err`, so an unknown login is answered with 500. -/
def LoginHandler (b : Bcrypt) (GenJWT : Int → Except String String) (d : UserTable)
    (login password : String) : AuthResponse :=
  match d.SelectUser login with
  | none => .error 500 "\x7b\"error\":\"Internal server error\"\x7d"
  | some user =>
    if CheckCorPass b password user.Password then
      .error 401 "\x7b\"error\":\"Invalid credentials\"\x7d"
    else
      match GenJWT user.ID with
      | .error _ => .error 500 "\x7b\"error\":\"Internal server error\"\x7d"
      | .ok token => .token token user.ID user.Login

/-- A stand-in for bcrypt in the examples: the hash is the salt, a `$` and the password,
and a password matches a hash when it is what follows the first `$`. -/
def sampleBcrypt : Bcrypt :=
  { GenerateFromPassword := fun pass salt => .ok (salt ++ "$" ++ pass)
    CompareHashAndPassword := fun hash pass =>
      decide (hash.toList.dropWhile (fun c => c != '$') = '$' :: pass.toList) }

/-- A stand-in for the JWT library in the examples. -/
def sampleJWT (id : Int) : Except String String := .ok ("token-" ++ toString id)

/-- The table `users` after the registration of `alice` with the password `secret`. -/
def sampleUsers : UserTable :=
  (RegisterHandler sampleBcrypt ⟨[], 0⟩ "alice" "secret" "s1" "s2").1

/-! ## Lemmas on a scheduling pass -/

theorem leafValue?_markAll (n : Node V) : (markAll n).leafValue? = n.leafValue? := by
  cases n with
  | null => rfl
  | mk isLeaf v op l r sched => cases isLeaf <;> rfl

theorem emitAll_append (expr : Expression V) (es fs : List (Emission V)) (o : Orchestrator V) :
    emitAll expr (es ++ fs) o = emitAll expr fs (emitAll expr es o) := by
  simp [emitAll, List.foldl_append]

theorem traverse_eq (expr : Expression V) (n : Node V) :
    ∀ (pre : Path) (o : Orchestrator V),
      traverse expr pre n o = (markAll n, emitAll expr (emissions pre n) o) := by
  induction n with
  | null => intro pre o; rfl
  | mk isLeaf v op l r sched ihl ihr =>
    intro pre o
    cases isLeaf with
    | true => rfl
    | false =>
      simp only [traverse, ihl, ihr, leafValue?_markAll, emissions, markAll, emitAll_append]
      cases hl : l.leafValue? <;> cases hr : r.leafValue? <;> cases sched <;>
        simp [emitAll]

theorem emissions_shift (n : Node V) :
    ∀ pre : Path, emissions pre n = (emissions [] n).map (Emission.shift pre) := by
  induction n with
  | null => intro pre; rfl
  | mk isLeaf v op l r sched ihl ihr =>
    intro pre
    cases isLeaf with
    | true => rfl
    | false =>
      simp only [emissions, List.nil_append, List.map_append]
      rw [ihl (pre ++ [Dir.L]), ihr (pre ++ [Dir.R]), ihl [Dir.L], ihr [Dir.R]]
      simp only [List.map_map]
      congr 1
      · congr 1
        · apply List.map_congr_left
          intro e _
          simp [Emission.shift]
        · apply List.map_congr_left
          intro e _
          simp [Emission.shift]
      · cases l.leafValue? <;> cases r.leafValue? <;> cases sched <;> simp [Emission.shift]

theorem emissions_count (n : Node V) :
    ∀ q : Path, (emissions [] n).countP (fun e => decide (e.path = q)) =
      if n.inTree q ∧ (n.get q).qualifies then 1 else 0 := by
  induction n with
  | null => intro q; cases q <;> simp [emissions, Node.inTree, Node.notNil]
  | mk isLeaf v op l r sched ihl ihr =>
    intro q
    cases isLeaf with
    | true =>
      cases q with
      | nil => simp [emissions, Node.get, Node.qualifies, Node.ready]
      | cons d q => cases d <;> simp [emissions, Node.inTree]
    | false =>
      simp only [emissions, List.nil_append, List.countP_append]
      rw [emissions_shift l [Dir.L], emissions_shift r [Dir.R]]
      simp only [List.countP_map]
      cases q with
      | nil =>
        have h1 : ∀ d : Dir, ((fun e : Emission V => decide (e.path = [])) ∘
            Emission.shift [d]) = fun _ => false := by
          intro d; funext e; simp [Emission.shift]
        rw [h1, h1]
        cases hl : l.leafValue? <;> cases hr : r.leafValue? <;> cases sched <;>
          simp [Node.inTree, Node.notNil, Node.get, Node.qualifies, Node.ready, hl, hr,
            Node.TaskScheduled]
      | cons d q =>
        have hown : List.countP (fun e : Emission V => decide (e.path = d :: q))
            (match l.leafValue?, r.leafValue? with
              | some a1, some a2 => if sched = true then [] else [⟨[], op, a1, a2⟩]
              | _, _ => []) = 0 := by
          cases l.leafValue? <;> cases r.leafValue? <;> cases sched <;> simp
        rw [hown]
        cases d with
        | L =>
          have h1 : ((fun e : Emission V => decide (e.path = Dir.L :: q)) ∘
              Emission.shift [Dir.L]) = fun e => decide (e.path = q) := by
            funext e; simp [Emission.shift]
          have h2 : ((fun e : Emission V => decide (e.path = Dir.L :: q)) ∘
              Emission.shift [Dir.R]) = fun _ => false := by
            funext e; simp [Emission.shift]
          rw [h1, h2, ihl q]
          simp [Node.inTree, Node.get, Node.child]
        | R =>
          have h1 : ((fun e : Emission V => decide (e.path = Dir.R :: q)) ∘
              Emission.shift [Dir.R]) = fun e => decide (e.path = q) := by
            funext e; simp [Emission.shift]
          have h2 : ((fun e : Emission V => decide (e.path = Dir.R :: q)) ∘
              Emission.shift [Dir.L]) = fun _ => false := by
            funext e; simp [Emission.shift]
          rw [h1, h2, ihr q]
          simp [Node.inTree, Node.get, Node.child]

theorem emitAll_nil (expr : Expression V) (o : Orchestrator V) : emitAll expr [] o = o := rfl

theorem emitAll_cons (expr : Expression V) (e : Emission V) (es : List (Emission V))
    (o : Orchestrator V) :
    emitAll expr (e :: es) o = emitAll expr es (emitTask expr e.path e.op e.a1 e.a2 o) := rfl

theorem emitAll_TaskQueue (expr : Expression V) (es : List (Emission V)) :
    ∀ o : Orchestrator V, (emitAll expr es o).TaskQueue =
      o.TaskQueue ++ tasksOf o.Config expr.ID expr.UserID o.taskCounter es := by
  induction es with
  | nil => intro o; simp [emitAll_nil, tasksOf]
  | cons e es ih =>
    intro o
    rw [emitAll_cons, ih]
    simp [emitTask, tasksOf, taskOf]

theorem tasksOf_countP (cfg : Config) (eid uid : String) (p : Path)
    (es : List (Emission V)) : ∀ c : Nat,
    (tasksOf cfg eid uid c es).countP (fun t => decide (t.Node = p)) =
      es.countP (fun e => decide (e.path = p)) := by
  induction es with
  | nil => intro c; rfl
  | cons e es ih =>
    intro c
    simp only [tasksOf, List.countP_cons, ih (c + 1), taskOf]

theorem mem_tasksOf (cfg : Config) (eid uid : String) (t : Task V)
    (es : List (Emission V)) : ∀ c : Nat, t ∈ tasksOf cfg eid uid c es →
      ∃ e ∈ es, ∃ k, c < k ∧ k ≤ c + es.length ∧ t = taskOf cfg eid uid k e := by
  induction es with
  | nil => intro c h; simp [tasksOf] at h
  | cons e es ih =>
    intro c h
    simp only [tasksOf, List.mem_cons] at h
    rcases h with h | h
    · exact ⟨e, List.mem_cons_self _ _, c + 1, by omega, by simp, h⟩
    · obtain ⟨e1, he1, k, hk1, hk2, hk⟩ := ih (c + 1) h
      exact ⟨e1, List.mem_cons_of_mem _ he1, k, by omega, by simp; omega, hk⟩

theorem ScheduleTasks_eq (o : Orchestrator V) (expr : Expression V) :
    ScheduleTasks o expr =
      (emitAll expr (emissions [] expr.AST) o, { expr with AST := markAll expr.AST }) := by
  simp [ScheduleTasks, traverse_eq]

theorem ScheduleTasks_TaskQueue (o : Orchestrator V) (expr : Expression V) :
    (ScheduleTasks o expr).1.TaskQueue =
      o.TaskQueue ++ tasksOf o.Config expr.ID expr.UserID o.taskCounter (emissions [] expr.AST) := by
  rw [ScheduleTasks_eq, emitAll_TaskQueue]

theorem emissions_markAll (n : Node V) : ∀ pre : Path, emissions pre (markAll n) = [] := by
  induction n with
  | null => intro pre; rfl
  | mk isLeaf v op l r sched ihl ihr =>
    intro pre
    cases isLeaf with
    | true => rfl
    | false =>
      simp only [markAll, emissions, ihl, ihr, leafValue?_markAll, List.nil_append]
      cases l.leafValue? <;> cases r.leafValue? <;> cases sched <;> simp

theorem markAll_markAll (n : Node V) : markAll (markAll n) = markAll n := by
  induction n with
  | null => rfl
  | mk isLeaf v op l r sched ihl ihr =>
    cases isLeaf with
    | true => rfl
    | false =>
      simp only [markAll, ihl, ihr, leafValue?_markAll]
      cases l.leafValue? <;> cases r.leafValue? <;> cases sched <;> simp

theorem mem_emissions (n : Node V) : ∀ e ∈ emissions [] n,
    ((n.get e.path).child Dir.L).leafValue? = some e.a1 ∧
    ((n.get e.path).child Dir.R).leafValue? = some e.a2 ∧
    (n.get e.path).Operator = e.op ∧ n.inTree e.path = true ∧
    (n.get e.path).qualifies = true := by
  induction n with
  | null => intro e h; simp [emissions] at h
  | mk isLeaf v op l r sched ihl ihr =>
    intro e h
    cases isLeaf with
    | true => simp [emissions] at h
    | false =>
      simp only [emissions, List.nil_append, List.mem_append] at h
      rw [emissions_shift l [Dir.L], emissions_shift r [Dir.R]] at h
      rcases h with (h | h) | h
      · obtain ⟨e1, he1, rfl⟩ := List.mem_map.1 h
        simpa [Emission.shift, Node.get, Node.child, Node.inTree] using ihl e1 he1
      · obtain ⟨e1, he1, rfl⟩ := List.mem_map.1 h
        simpa [Emission.shift, Node.get, Node.child, Node.inTree] using ihr e1 he1
      · cases hl : l.leafValue? <;> cases hr : r.leafValue? <;> cases sched <;>
          simp [hl, hr] at h
        subst h
        simp [Node.get, Node.child, hl, hr, Node.Operator, Node.inTree, Node.notNil,
          Node.qualifies, Node.ready, Node.TaskScheduled]

theorem leafValue?_Value? (n : Node V) (v : V) (h : n.leafValue? = some v) :
    n.Value? = some v ∧ n.IsLeaf = true := by
  cases n with
  | null => simp [Node.leafValue?] at h
  | mk isLeaf v1 op l r sched =>
    cases isLeaf <;> simp_all [Node.leafValue?, Node.Value?, Node.IsLeaf]

/-- C1. Ready-set correctness: one call to `ScheduleTasks` keeps the queue it finds and
appends, for every position `p`, exactly one task whose `Node` is `p` when `p` is a node of
the operation tree that is Internal with both children Leaf and the marker unset, and no
task whose `Node` is `p` otherwise. -/
theorem ScheduleTasks_ready_set (o : Orchestrator V) (expr : Expression V) (p : Path) :
    (ScheduleTasks o expr).1.TaskQueue.take o.TaskQueue.length = o.TaskQueue ∧
    ((ScheduleTasks o expr).1.TaskQueue.drop o.TaskQueue.length).countP
        (fun t => decide (t.Node = p)) =
      if expr.AST.inTree p ∧ (expr.AST.get p).qualifies then 1 else 0 := by
  rw [ScheduleTasks_TaskQueue]
  refine ⟨by simp, ?_⟩
  rw [List.drop_left, tasksOf_countP, emissions_count]

/-- C2. Idempotent scheduling: a second call to `ScheduleTasks` right after a first one
changes nothing: the queue, the lookup table, the counter and the tree are those the first
call left. -/
theorem ScheduleTasks_idempotent (o : Orchestrator V) (expr : Expression V) :
    ScheduleTasks (ScheduleTasks o expr).1 (ScheduleTasks o expr).2 = ScheduleTasks o expr := by
  rw [ScheduleTasks_eq o expr, ScheduleTasks_eq]
  simp [emissions_markAll, markAll_markAll, emitAll_nil]

theorem Store.get_set_self {α : Type} (k : String) (v : α) (m : Store α) :
    Store.get k (Store.set k v m) = some v := by
  induction m with
  | nil => simp [Store.set, Store.get]
  | cons kv m ih =>
    obtain ⟨k1, v1⟩ := kv
    by_cases h : k1 = k
    · simp [Store.set, Store.get, h]
    · simp [Store.set, Store.get, h, ih]

theorem Store.get_set_ne {α : Type} (k k2 : String) (v : α) (m : Store α) (hk : k2 ≠ k) :
    Store.get k2 (Store.set k v m) = Store.get k2 m := by
  induction m with
  | nil => simp [Store.set, Store.get, hk.symm]
  | cons kv m ih =>
    obtain ⟨k1, v1⟩ := kv
    by_cases h : k1 = k
    · have : k1 ≠ k2 := by rw [h]; exact hk.symm
      simp [Store.set, Store.get, h, hk.symm]
    · simp [Store.set, Store.get, h, ih]

theorem Store.set_set {α : Type} (k : String) (v w : α) (m : Store α) :
    Store.set k w (Store.set k v m) = Store.set k w m := by
  induction m with
  | nil => simp [Store.set]
  | cons kv m ih =>
    obtain ⟨k1, v1⟩ := kv
    by_cases h : k1 = k
    · simp [Store.set, h]
    · simp [Store.set, h, ih]

/-- C4. Every task a call to `ScheduleTasks` appends for a node of expression `expr` carries
the values of the node's left and right child, the node's operator and the identifier of
`expr`; its `OperationTime` is the configured time of `+`, `-`, `*`, `/` and 100 for every
other operator. -/
theorem ScheduleTasks_task_fields (o : Orchestrator V) (expr : Expression V) (t : Task V)
    (ht : t ∈ (ScheduleTasks o expr).1.TaskQueue.drop o.TaskQueue.length) :
    ((expr.AST.get t.Node).child Dir.L).Value? = some t.Arg1 ∧
    ((expr.AST.get t.Node).child Dir.R).Value? = some t.Arg2 ∧
    t.Operation = (expr.AST.get t.Node).Operator ∧
    t.ExprID = expr.ID ∧
    (t.Operation = "+" → t.OperationTime = o.Config.TimeAddition) ∧
    (t.Operation = "-" → t.OperationTime = o.Config.TimeSubtraction) ∧
    (t.Operation = "*" → t.OperationTime = o.Config.TimeMultiplications) ∧
    (t.Operation = "/" → t.OperationTime = o.Config.TimeDivisions) ∧
    (t.Operation ≠ "+" → t.Operation ≠ "-" → t.Operation ≠ "*" → t.Operation ≠ "/" →
      t.OperationTime = 100) := by
  rw [ScheduleTasks_TaskQueue, List.drop_left] at ht
  obtain ⟨e, he, k, _, _, rfl⟩ := mem_tasksOf _ _ _ _ _ _ ht
  obtain ⟨h1, h2, h3, _, _⟩ := mem_emissions expr.AST e he
  refine ⟨(leafValue?_Value? _ _ h1).1, (leafValue?_Value? _ _ h2).1, h3.symm, rfl, ?_, ?_, ?_,
    ?_, ?_⟩
  · intro h; simp only [taskOf] at h; simp [taskOf, opTime, h]
  · intro h; simp only [taskOf] at h; simp [taskOf, opTime, h]
  · intro h; simp only [taskOf] at h; simp [taskOf, opTime, h]
  · intro h; simp only [taskOf] at h; simp [taskOf, opTime, h]
  · intro ha hb hc hd; simp only [taskOf] at ha hb hc hd; simp [taskOf, opTime, ha, hb, hc, hd]

/-- Witness of C4 on the tree of `TestScheduleTasks`: the task emitted for `*`. -/
theorem ScheduleTasks_task_fields_witness :
    let o := sampleStart
    let expr : Expression Int :=
      { ID := "test-expr", Expr := "2 + 3 * 4", UserID := "", Status := "", Result := .nil,
        AST := tree_2_plus_3_times_4 }
    let t : Task Int :=
      { ID := "1", ExprID := "test-expr", UserID := "", Arg1 := 3, Arg2 := 4, Operation := "*",
        OperationTime := 10, Node := [Dir.R] }
    t ∈ (ScheduleTasks o expr).1.TaskQueue.drop o.TaskQueue.length ∧
    ((expr.AST.get t.Node).child Dir.L).Value? = some t.Arg1 ∧
    ((expr.AST.get t.Node).child Dir.R).Value? = some t.Arg2 ∧
    t.Operation = (expr.AST.get t.Node).Operator ∧
    t.ExprID = expr.ID ∧
    (t.Operation = "+" → t.OperationTime = o.Config.TimeAddition) ∧
    (t.Operation = "-" → t.OperationTime = o.Config.TimeSubtraction) ∧
    (t.Operation = "*" → t.OperationTime = o.Config.TimeMultiplications) ∧
    (t.Operation = "/" → t.OperationTime = o.Config.TimeDivisions) ∧
    (t.Operation ≠ "+" → t.Operation ≠ "-" → t.Operation ≠ "*" → t.Operation ≠ "/" →
      t.OperationTime = 100) :=
  ⟨by decide, ScheduleTasks_task_fields _ _ _ (by decide)⟩

/-! ## Completion -/

/-- C5. Completion: when `PostTaskHandler` gets a result `v` for the task of the root of a
stored expression with numeric identifiers, the delivery is accepted, the root is a Leaf
with value `v`, the expression has status `completed` and result `v`, and that status and
result are written to the database.  On the tree of `2+3*4` the first pass emits the task
of `*` with operands 3 and 4, the result 12 makes the next pass emit exactly the task of `+`
with operands 2 and 12, and the result 14 completes the expression with result 14. -/
theorem PostTaskHandler_completion :
    (∀ (o : Orchestrator V) (id : String) (v : V) (task : Task V) (e : Expression V)
        (uid eid : Int),
      id ≠ "" → o.taskStore.get id = some task → task.Node = [] →
      o.exprStore.get task.ExprID = some e → e.AST.notNil = true →
      Atoi e.UserID = .ok uid → Atoi e.ID = .ok eid →
      (PostTaskHandler o id v).2 = .accepted ∧
      (∃ e1, (PostTaskHandler o id v).1.exprStore.get task.ExprID = some e1 ∧
        e1.AST.leafValue? = some v ∧ e1.Status = "completed" ∧ e1.resultValue = some v) ∧
      (PostTaskHandler o id v).1.Database =
        o.Database.UpdateExpression
          { UserID := uid, ID := eid, Expression := e.Expr, Status := "completed",
            Result := some v }) ∧
    (scenarioA1.TaskQueue.map (fun t => (t.ID, t.Operation, t.Arg1, t.Arg2)) =
        [("1", "*", 3, 4)] ∧
      (PostTaskHandler scenarioA1 "1" 12).2 = .accepted ∧
      (scenarioA2.TaskQueue.drop scenarioA1.TaskQueue.length).map
          (fun t => (t.ID, t.Operation, t.Arg1, t.Arg2)) = [("2", "+", 2, 12)] ∧
      (PostTaskHandler scenarioA2 "2" 14).2 = .accepted ∧
      (scenarioA3.exprStore.get "1").map (fun e => (e.Status, e.resultValue, e.AST.leafValue?)) =
        some ("completed", some 14, some 14) ∧
      (scenarioA3.Database.GetExpressionByID 1 1).map (fun r => (r.Status, r.Result)) =
        some ("completed", some 14)) := by
  refine ⟨?_, by decide⟩
  intro o id v task e uid eid hid htask hroot hexpr hnil huid heid
  cases hast : e.AST with
  | null => simp [hast, Node.notNil] at hnil
  | mk isLeaf v0 op l r sched =>
    simp [PostTaskHandler, hid, htask, hexpr, hroot, hast, Node.setLeaf, ScheduleTasks_eq,
      markAll, emissions, emitAll_nil, huid, heid, Store.get_set_self, Node.leafValue?,
      Expression.resultValue, Node.Value?]

/-- Witness of C5: the delivery of 14 for the task of the root of `2+3*4`. -/
theorem PostTaskHandler_completion_witness :
    (PostTaskHandler scenarioA2 "2" 14).2 = .accepted ∧
    (∃ e1, (PostTaskHandler scenarioA2 "2" 14).1.exprStore.get "1" = some e1 ∧
      e1.AST.leafValue? = some 14 ∧ e1.Status = "completed" ∧ e1.resultValue = some 14) ∧
    (PostTaskHandler scenarioA2 "2" 14).1.Database =
      scenarioA2.Database.UpdateExpression
        { UserID := 1, ID := 1, Expression := "2+3*4", Status := "completed",
          Result := some 14 } :=
  (PostTaskHandler_completion (V := Int)).1 scenarioA2 "2" 14
    { ID := "2", ExprID := "1", UserID := "1", Arg1 := 2, Arg2 := 12, Operation := "+",
      OperationTime := 10, Node := [] }
    { ID := "1", Expr := "2+3*4", UserID := "1", Status := "pending", Result := .nil,
      AST := .mk false 0 "+" (numLeaf 2)
        (.mk true 12 "*" (numLeaf 3) (numLeaf 4) true) true }
    1 1 (by decide) (by decide) rfl (by decide) (by decide) rfl rfl

/-! ## Submission -/

/-- C9. What `CalculateHandler` does with an expression whose parsed tree is a single Leaf
with value `v`: no task is emitted, and the expression is stored and persisted with status
`pending` and no result (the handler has no completion check after its scheduling pass). -/
theorem CalculateHandler_leaf_stays_pending (ParseAST : String → Except String (Node V))
    (o : Orchestrator V) (userID : Int) (text : String) (v : V) (op : String)
    (l r : Node V) (sched : Bool) (htext : text ≠ "")
    (hparse : ParseAST text = .ok (.mk true v op l r sched)) :
    (CalculateHandler ParseAST o userID text).2 =
      .created (Itoa ((o.Database.lastExprID + 1 : Nat) : Int)) ∧
    (CalculateHandler ParseAST o userID text).1.TaskQueue = o.TaskQueue ∧
    (CalculateHandler ParseAST o userID text).1.taskStore = o.taskStore ∧
    (CalculateHandler ParseAST o userID text).1.taskCounter = o.taskCounter ∧
    (CalculateHandler ParseAST o userID text).1.exprStore.get
        (Itoa ((o.Database.lastExprID + 1 : Nat) : Int)) =
      some { ID := Itoa ((o.Database.lastExprID + 1 : Nat) : Int), Expr := text,
             UserID := Itoa userID, Status := "pending", Result := .nil,
             AST := .mk true v op l r sched } ∧
    (CalculateHandler ParseAST o userID text).1.Database.expressions =
      o.Database.expressions ++
        [{ UserID := userID, ID := ((o.Database.lastExprID + 1 : Nat) : Int),
           Expression := text, Status := "pending", Result := none }] := by
  simp [CalculateHandler, htext, hparse, ScheduleTasks_eq, markAll, emissions, emitAll_nil,
    DataBase.CreateExpression, Store.get_set_self]

/-- Witness of C9: the submission of `42` by user 1 to a fresh orchestrator. -/
theorem CalculateHandler_leaf_stays_pending_witness :
    (CalculateHandler sampleParse sampleStart 1 "42").2 = .created "1" ∧
    (CalculateHandler sampleParse sampleStart 1 "42").1.TaskQueue = [] ∧
    (CalculateHandler sampleParse sampleStart 1 "42").1.taskStore = [] ∧
    (CalculateHandler sampleParse sampleStart 1 "42").1.taskCounter = 0 ∧
    (CalculateHandler sampleParse sampleStart 1 "42").1.exprStore.get "1" =
      some { ID := "1", Expr := "42", UserID := "1", Status := "pending", Result := .nil,
             AST := numLeaf 42 } ∧
    (CalculateHandler sampleParse sampleStart 1 "42").1.Database.expressions =
      [{ UserID := 1, ID := 1, Expression := "42", Status := "pending", Result := none }] :=
  CalculateHandler_leaf_stays_pending sampleParse sampleStart 1 "42" 42 "" .null .null false
    (by decide) rfl

/-- C10. What `CalculateHandler` does on a parse error for a user other than 0: the queue,
the lookup table and the expression store are unchanged, the answer is 422, and the record
created for the expression is still `pending`: the update to `error` is keyed by the
expression id and user id 0. -/
theorem CalculateHandler_parse_error_stays_pending
    (ParseAST : String → Except String (Node V)) (o : Orchestrator V) (userID : Int)
    (text err : String) (htext : text ≠ "") (hparse : ParseAST text = .error err)
    (huser : userID ≠ 0) :
    (CalculateHandler ParseAST o userID text).2 =
      .error 422 ("\x7b\"error\":\"" ++ err ++ "\"\x7d") ∧
    (CalculateHandler ParseAST o userID text).1.TaskQueue = o.TaskQueue ∧
    (CalculateHandler ParseAST o userID text).1.taskStore = o.taskStore ∧
    (CalculateHandler ParseAST o userID text).1.exprStore = o.exprStore ∧
    (CalculateHandler ParseAST o userID text).1.Database.expressions.getLast? =
      some { UserID := userID, ID := ((o.Database.lastExprID + 1 : Nat) : Int),
             Expression := text, Status := "pending", Result := none } := by
  simp [CalculateHandler, htext, hparse, DataBase.CreateExpression,
    DataBase.UpdateExpression, huser]

/-- Witness of C10: the submission of `2+` by user 1 to a fresh orchestrator. -/
theorem CalculateHandler_parse_error_stays_pending_witness :
    (CalculateHandler sampleParse sampleStart 1 "2+").2 =
      .error 422 ("\x7b\"error\":\"" ++ "invalid expression" ++ "\"\x7d") ∧
    (CalculateHandler sampleParse sampleStart 1 "2+").1.TaskQueue = [] ∧
    (CalculateHandler sampleParse sampleStart 1 "2+").1.taskStore = [] ∧
    (CalculateHandler sampleParse sampleStart 1 "2+").1.exprStore = [] ∧
    (CalculateHandler sampleParse sampleStart 1 "2+").1.Database.expressions.getLast? =
      some { UserID := 1, ID := 1, Expression := "2+", Status := "pending", Result := none } :=
  CalculateHandler_parse_error_stays_pending sampleParse sampleStart 1 "2+"
    "invalid expression" (by decide) rfl (by decide)

/-! ## The states the handlers return -/

theorem emitAll_eq (expr : Expression V) (es : List (Emission V)) :
    ∀ o : Orchestrator V, emitAll expr es o =
      { o with
        taskCounter := o.taskCounter + es.length
        taskStore := (tasksOf o.Config expr.ID expr.UserID o.taskCounter es).foldl
          (fun m t => Store.set t.ID t m) o.taskStore
        TaskQueue := o.TaskQueue ++ tasksOf o.Config expr.ID expr.UserID o.taskCounter es } := by
  induction es with
  | nil => intro o; simp [emitAll_nil, tasksOf]
  | cons e es ih =>
    intro o
    rw [emitAll_cons, ih]
    simp [emitTask, tasksOf, taskOf, Nat.add_assoc, Nat.add_comm 1]

theorem scheduleStored_eq (o : Orchestrator V) (x : String) (e : Expression V)
    (h : o.exprStore.get x = some e) :
    scheduleStored o x = passOver o x e e.AST e.Status e.Result o.Database := by
  simp [scheduleStored, h, ScheduleTasks_eq, passOver, emitAll_eq]

theorem CalculateHandler_ok (ParseAST : String → Except String (Node V))
    (o : Orchestrator V) (userID : Int) (text : String) (t : Node V) (htext : text ≠ "")
    (hparse : ParseAST text = .ok t) :
    (CalculateHandler ParseAST o userID text).1 =
      passOver o (Itoa ((o.Database.lastExprID + 1 : Nat) : Int))
        { ID := Itoa ((o.Database.lastExprID + 1 : Nat) : Int), Expr := text,
          UserID := Itoa userID, Status := "pending", Result := .nil, AST := .null }
        t "pending" .nil (o.Database.CreateExpression userID text).1 := by
  simp [CalculateHandler, htext, hparse, ScheduleTasks_eq, passOver, emitAll_eq,
    Store.set_set, DataBase.CreateExpression]

theorem CalculateHandler_error (ParseAST : String → Except String (Node V))
    (o : Orchestrator V) (userID : Int) (text err : String)
    (hparse : ParseAST text = .error err) :
    ∃ db : DataBase V, o.Database.lastExprID ≤ db.lastExprID ∧
      (CalculateHandler ParseAST o userID text).1 = { o with Database := db } := by
  by_cases htext : text = ""
  · exact ⟨o.Database, Nat.le_refl _, by simp [CalculateHandler, htext]⟩
  · refine ⟨(o.Database.CreateExpression userID text).1.UpdateExpression
        { UserID := 0, ID := (o.Database.CreateExpression userID text).2.ID, Expression := "",
          Status := "error", Result := none }, ?_, ?_⟩
    · simp [DataBase.UpdateExpression, DataBase.CreateExpression]
    · simp only [CalculateHandler, htext, hparse, if_false]

theorem PostTaskHandler_ok (o : Orchestrator V) (id : String) (v : V) (task : Task V)
    (e0 : Expression V) (hid : id ≠ "") (htask : o.taskStore.get id = some task)
    (hexpr : o.exprStore.get task.ExprID = some e0) :
    (PostTaskHandler o id v).1 =
      passOver o task.ExprID e0 (e0.AST.setLeaf v task.Node)
        (if (markAll (e0.AST.setLeaf v task.Node)).IsLeaf then "completed" else e0.Status)
        (if (markAll (e0.AST.setLeaf v task.Node)).IsLeaf then .rootValue else e0.Result)
        (PostTaskHandler o id v).1.Database := by
  simp only [PostTaskHandler, hid, htask, hexpr, if_false, ScheduleTasks_eq]
  cases hm : markAll (e0.AST.setLeaf v task.Node) with
  | null => simp [passOver, emitAll_eq, Store.set_set, hm, Node.IsLeaf]
  | mk isLeaf v1 op l r sched =>
    cases isLeaf <;> cases hu : Atoi e0.UserID <;> cases he : Atoi e0.ID <;>
      simp [passOver, emitAll_eq, Store.set_set, hm, Node.IsLeaf, hu, he]

theorem PostTaskHandler_unknown (o : Orchestrator V) (id : String) (v : V)
    (h : id = "" ∨ o.taskStore.get id = none ∨
      ∃ task, o.taskStore.get id = some task ∧ o.exprStore.get task.ExprID = none) :
    (PostTaskHandler o id v).1 = o := by
  unfold PostTaskHandler
  by_cases hid : id = ""
  · simp [hid]
  · rcases h with h | h | ⟨task, h1, h2⟩
    · exact absurd h hid
    · simp [hid, h]
    · simp [hid, h1, h2]

theorem PostTaskHandler_cases (o : Orchestrator V) (id : String) (v : V) :
    (PostTaskHandler o id v).1 = o ∨
    ∃ task e0, id ≠ "" ∧ o.taskStore.get id = some task ∧
      o.exprStore.get task.ExprID = some e0 := by
  by_cases hid : id = ""
  · exact Or.inl (PostTaskHandler_unknown o id v (Or.inl hid))
  · cases h1 : o.taskStore.get id with
    | none => exact Or.inl (PostTaskHandler_unknown o id v (Or.inr (Or.inl h1)))
    | some task =>
      cases h2 : o.exprStore.get task.ExprID with
      | none => exact Or.inl (PostTaskHandler_unknown o id v (Or.inr (Or.inr ⟨task, h1, h2⟩)))
      | some e0 => exact Or.inr ⟨task, e0, hid, rfl, h2⟩

theorem PostTaskHandler_lastExprID (o : Orchestrator V) (id : String) (v : V) :
    (PostTaskHandler o id v).1.Database.lastExprID = o.Database.lastExprID := by
  rcases PostTaskHandler_cases o id v with h | ⟨task, e0, hid, h1, h2⟩
  · rw [h]
  · simp only [PostTaskHandler, hid, h1, h2, if_false, ScheduleTasks_eq]
    cases hm : markAll (e0.AST.setLeaf v task.Node) with
    | null => simp [emitAll_eq]
    | mk isLeaf v1 op l r sched =>
      cases isLeaf <;> cases hu : Atoi e0.UserID <;> cases he : Atoi e0.ID <;>
        simp [emitAll_eq, hu, he, DataBase.UpdateExpression]

theorem GetTaskHandler_cases (o : Orchestrator V) :
    (GetTaskHandler o).1 = o ∨
    (∃ task rest, o.TaskQueue = task :: rest ∧ o.exprStore.get task.ExprID = none ∧
      (GetTaskHandler o).1 = { o with TaskQueue := rest }) ∨
    (∃ task rest e, o.TaskQueue = task :: rest ∧ o.exprStore.get task.ExprID = some e ∧
      (GetTaskHandler o).1 = { o with
        TaskQueue := rest
        exprStore := o.exprStore.set task.ExprID { e with Status := "completed" } }) := by
  unfold GetTaskHandler
  cases hq : o.TaskQueue with
  | nil => exact Or.inl rfl
  | cons task rest =>
    cases he : o.exprStore.get task.ExprID with
    | none => exact Or.inr (Or.inl ⟨task, rest, rfl, he, by simp [he]⟩)
    | some e => exact Or.inr (Or.inr ⟨task, rest, e, rfl, he, by simp [he]⟩)

/-! ## Decimal identifiers -/

theorem digitChar_value (k : Nat) (h : k < 10) : (Nat.digitChar k).toNat - 48 = k := by
  interval_cases k <;> rfl

theorem toDigitsCore_value : ∀ (fuel n : Nat) (ds : List Char), n < fuel →
    ∃ xs, Nat.toDigitsCore 10 fuel n ds = xs ++ ds ∧ xs ≠ [] ∧ digitsValue 0 xs = n := by
  intro fuel
  induction fuel with
  | zero => intro n ds h; omega
  | succ fuel ih =>
    intro n ds h
    have hd : n % 10 < 10 := Nat.mod_lt _ (by decide)
    by_cases h0 : n / 10 = 0
    · refine ⟨[Nat.digitChar (n % 10)], ?_, by simp, ?_⟩
      · simp [Nat.toDigitsCore, h0]
      · simp only [digitsValue, List.foldl, digitChar_value _ hd]
        omega
    · obtain ⟨xs, hx, _, hv⟩ := ih (n / 10) (Nat.digitChar (n % 10) :: ds) (by omega)
      refine ⟨xs ++ [Nat.digitChar (n % 10)], ?_, by simp, ?_⟩
      · simp [Nat.toDigitsCore, h0, hx]
      · have hv2 : List.foldl (fun a c => 10 * a + (c.toNat - 48)) 0 xs = n / 10 := hv
        simp only [digitsValue, List.foldl_append, List.foldl, digitChar_value _ hd, hv2]
        omega

theorem toString_nat_injective (a b : Nat) (h : toString a = toString b) : a = b := by
  have h1 : (Nat.toDigits 10 a).asString = (Nat.toDigits 10 b).asString := h
  have h2 : Nat.toDigits 10 a = Nat.toDigits 10 b := congrArg String.data h1
  obtain ⟨xa, ha, _, va⟩ := toDigitsCore_value (a + 1) a [] (by omega)
  obtain ⟨xb, hb, _, vb⟩ := toDigitsCore_value (b + 1) b [] (by omega)
  simp only [Nat.toDigits] at h2
  rw [ha, hb] at h2
  simp only [List.append_nil] at h2
  rw [← va, ← vb, h2]

theorem toString_nat_ne_empty (a : Nat) : toString a ≠ "" := by
  intro h
  have h1 : (Nat.toDigits 10 a).asString = "" := h
  have h2 : Nat.toDigits 10 a = [] := congrArg String.data h1
  obtain ⟨xa, ha, hne, _⟩ := toDigitsCore_value (a + 1) a [] (by omega)
  simp only [Nat.toDigits] at h2
  rw [ha, List.append_nil] at h2
  exact hne h2

theorem Itoa_nat_injective (a b : Nat) (h : Itoa (a : Int) = Itoa (b : Int)) : a = b :=
  toString_nat_injective a b h

/-! ## Stores -/

theorem Store.mem_of_get {α : Type} (k : String) (v : α) (m : Store α)
    (h : Store.get k m = some v) : (k, v) ∈ m := by
  induction m with
  | nil => simp [Store.get] at h
  | cons kv m ih =>
    obtain ⟨k1, v1⟩ := kv
    by_cases hk : k1 = k
    · simp [Store.get, hk] at h
      simp [hk, h]
    · simp [Store.get, hk] at h
      exact List.mem_cons_of_mem _ (ih h)

theorem Store.get_none_of_not_mem {α : Type} (k : String) (m : Store α)
    (h : k ∉ Store.keys m) : Store.get k m = none := by
  induction m with
  | nil => rfl
  | cons kv m ih =>
    obtain ⟨k1, v1⟩ := kv
    simp [Store.keys] at h
    have hk : k1 ≠ k := fun hh => h.1 hh.symm
    simp only [Store.get, hk, if_false]
    exact ih (by simpa [Store.keys] using h.2)

theorem Store.get_of_mem {α : Type} (k : String) (v : α) (m : Store α)
    (hn : (Store.keys m).Nodup) (h : (k, v) ∈ m) : Store.get k m = some v := by
  induction m with
  | nil => simp at h
  | cons kv m ih =>
    obtain ⟨k1, v1⟩ := kv
    simp only [Store.keys, List.map_cons, List.nodup_cons] at hn
    rcases List.mem_cons.1 h with h | h
    · simp only [Prod.mk.injEq] at h
      simp [Store.get, h.1, h.2]
    · have hk : k1 ≠ k := by
        intro hh
        exact hn.1 (hh ▸ List.mem_map.2 ⟨(k, v), h, rfl⟩)
      simp only [Store.get, hk, if_false]
      exact ih hn.2 h

theorem Store.mem_set {α : Type} (k : String) (v : α) (m : Store α) (kv : String × α)
    (h : kv ∈ Store.set k v m) : kv = (k, v) ∨ kv ∈ m := by
  induction m with
  | nil => simpa [Store.set] using h
  | cons kv1 m ih =>
    obtain ⟨k1, v1⟩ := kv1
    by_cases hk : k1 = k
    · simp only [Store.set, hk, if_true, List.mem_cons] at h
      rcases h with h | h
      · exact Or.inl h
      · exact Or.inr (List.mem_cons_of_mem _ h)
    · simp only [Store.set, hk, if_false, List.mem_cons] at h
      rcases h with h | h
      · exact Or.inr (h ▸ List.mem_cons_self _ _)
      · rcases ih h with h | h
        · exact Or.inl h
        · exact Or.inr (List.mem_cons_of_mem _ h)

theorem Store.set_fresh {α : Type} (k : String) (v : α) (m : Store α)
    (h : k ∉ Store.keys m) : Store.set k v m = m ++ [(k, v)] := by
  induction m with
  | nil => rfl
  | cons kv m ih =>
    obtain ⟨k1, v1⟩ := kv
    simp [Store.keys] at h
    have hk : k1 ≠ k := fun hh => h.1 hh.symm
    simp only [Store.set, hk, if_false, List.cons_append]
    rw [ih (by simpa [Store.keys] using h.2)]

theorem Store.keys_set {α : Type} (k : String) (v : α) (m : Store α) :
    Store.keys (Store.set k v m) =
      if k ∈ Store.keys m then Store.keys m else Store.keys m ++ [k] := by
  induction m with
  | nil => simp [Store.set, Store.keys]
  | cons kv m ih =>
    obtain ⟨k1, v1⟩ := kv
    by_cases hk : k1 = k
    · simp [Store.set, Store.keys, hk]
    · have hk2 : ¬ k = k1 := fun hh => hk hh.symm
      simp only [Store.set, hk, if_false]
      simp only [Store.keys] at ih
      simp only [Store.keys, List.map_cons, ih, List.mem_cons, hk2, false_or]
      split <;> simp

theorem Store.nodup_set {α : Type} (k : String) (v : α) (m : Store α)
    (h : (Store.keys m).Nodup) : (Store.keys (Store.set k v m)).Nodup := by
  rw [Store.keys_set]
  split
  · exact h
  · rename_i hk
    exact List.nodup_append.2 ⟨h, by simp, by simpa using hk⟩

/-! ## What a pass and a collapse change in a tree -/

theorem Node.get_null (p : Path) : (Node.null : Node V).get p = .null := by
  induction p with
  | nil => rfl
  | cons d p ih => simpa [Node.get, Node.child] using ih

theorem Node.get_append (n : Node V) (p q : Path) : n.get (p ++ q) = (n.get p).get q := by
  induction p generalizing n with
  | nil => rfl
  | cons d p ih => simp [Node.get, ih]

theorem Node.leafValue?_eq (n : Node V) :
    n.leafValue? = if n.IsLeaf then n.Value? else none := by
  cases n with
  | null => rfl
  | mk isLeaf v op l r sched => cases isLeaf <;> rfl

theorem Node.qualifies_not_scheduled (n : Node V) (h : n.qualifies = true) :
    n.TaskScheduled = false := by
  simp only [Node.qualifies, Bool.and_eq_true, Bool.not_eq_true'] at h
  exact h.2

/-- The markers after a pass: those set before, and those of the qualifying nodes. -/
theorem markAll_TaskScheduled (t : Node V) : ∀ p : Path,
    ((markAll t).get p).TaskScheduled =
      ((t.get p).TaskScheduled || (t.inTree p && (t.get p).qualifies)) := by
  induction t with
  | null => intro p; simp [markAll, Node.get_null, Node.TaskScheduled, Node.qualifies, Node.ready]
  | mk isLeaf v op l r sched ihl ihr =>
    intro p
    cases isLeaf with
    | true =>
      cases p with
      | nil => simp [markAll, Node.get, Node.qualifies, Node.ready]
      | cons d p => cases d <;> simp [markAll, Node.inTree]
    | false =>
      cases p with
      | nil =>
        cases sched <;>
          simp [markAll, Node.get, Node.TaskScheduled, Node.qualifies, Node.ready,
            Node.inTree, Node.notNil]
      | cons d p =>
        cases d with
        | L => simpa [markAll, Node.get, Node.child, Node.inTree] using ihl p
        | R => simpa [markAll, Node.get, Node.child, Node.inTree] using ihr p

/-- A pass leaves the leaf flag, the value and the operator of every node as they are. -/
theorem markAll_data (t : Node V) : ∀ p : Path,
    ((markAll t).get p).IsLeaf = (t.get p).IsLeaf ∧
    ((markAll t).get p).Value? = (t.get p).Value? ∧
    ((markAll t).get p).Operator = (t.get p).Operator ∧
    ((markAll t).get p).notNil = (t.get p).notNil := by
  induction t with
  | null => intro p; simp [markAll]
  | mk isLeaf v op l r sched ihl ihr =>
    intro p
    cases isLeaf with
    | true => simp [markAll]
    | false =>
      cases p with
      | nil => simp [markAll, Node.get, Node.IsLeaf, Node.Value?, Node.Operator, Node.notNil]
      | cons d p =>
        cases d with
        | L => simpa [markAll, Node.get, Node.child] using ihl p
        | R => simpa [markAll, Node.get, Node.child] using ihr p

/-- A collapse leaves the marker, the operator and the nil-ness of every node as they
are. -/
theorem setLeaf_frame (v : V) (t : Node V) : ∀ p q : Path,
    ((t.setLeaf v p).get q).TaskScheduled = (t.get q).TaskScheduled ∧
    ((t.setLeaf v p).get q).Operator = (t.get q).Operator ∧
    ((t.setLeaf v p).get q).notNil = (t.get q).notNil := by
  induction t with
  | null => intro p q; simp [Node.setLeaf]
  | mk isLeaf v1 op l r sched ihl ihr =>
    intro p q
    cases p with
    | nil =>
      cases q with
      | nil => simp [Node.setLeaf, Node.get, Node.TaskScheduled, Node.Operator, Node.notNil]
      | cons d q => cases d <;> simp [Node.setLeaf, Node.get, Node.child]
    | cons d p =>
      cases d with
      | L =>
        cases q with
        | nil => simp [Node.setLeaf, Node.get, Node.TaskScheduled, Node.Operator, Node.notNil]
        | cons d q =>
          cases d with
          | L => simpa [Node.setLeaf, Node.get, Node.child] using ihl p q
          | R => simp [Node.setLeaf, Node.get, Node.child]
      | R =>
        cases q with
        | nil => simp [Node.setLeaf, Node.get, Node.TaskScheduled, Node.Operator, Node.notNil]
        | cons d q =>
          cases d with
          | L => simp [Node.setLeaf, Node.get, Node.child]
          | R => simpa [Node.setLeaf, Node.get, Node.child] using ihr p q

/-- A collapse at `p` leaves the leaf flag and the value of every other node as they
are. -/
theorem setLeaf_other (v : V) (t : Node V) : ∀ p q : Path, q ≠ p →
    ((t.setLeaf v p).get q).IsLeaf = (t.get q).IsLeaf ∧
    ((t.setLeaf v p).get q).Value? = (t.get q).Value? := by
  induction t with
  | null => intro p q _; simp [Node.setLeaf]
  | mk isLeaf v1 op l r sched ihl ihr =>
    intro p q hne
    cases p with
    | nil =>
      cases q with
      | nil => exact absurd rfl hne
      | cons d q => cases d <;> simp [Node.setLeaf, Node.get, Node.child]
    | cons d p =>
      cases d with
      | L =>
        cases q with
        | nil => simp [Node.setLeaf, Node.get, Node.IsLeaf, Node.Value?]
        | cons d q =>
          cases d with
          | L =>
            have : q ≠ p := fun h => hne (by rw [h])
            simpa [Node.setLeaf, Node.get, Node.child] using ihl p q this
          | R => simp [Node.setLeaf, Node.get, Node.child]
      | R =>
        cases q with
        | nil => simp [Node.setLeaf, Node.get, Node.IsLeaf, Node.Value?]
        | cons d q =>
          cases d with
          | L => simp [Node.setLeaf, Node.get, Node.child]
          | R =>
            have : q ≠ p := fun h => hne (by rw [h])
            simpa [Node.setLeaf, Node.get, Node.child] using ihr p q this

/-- A collapse at `p` makes the node at `p` a Leaf with the delivered value. -/
theorem setLeaf_self (v : V) (t : Node V) : ∀ p : Path, (t.get p).notNil = true →
    ((t.setLeaf v p).get p).IsLeaf = true ∧ ((t.setLeaf v p).get p).Value? = some v := by
  induction t with
  | null => intro p h; simp [Node.get_null, Node.notNil] at h
  | mk isLeaf v1 op l r sched ihl ihr =>
    intro p h
    cases p with
    | nil => simp [Node.setLeaf, Node.get, Node.IsLeaf, Node.Value?]
    | cons d p =>
      cases d with
      | L => simpa [Node.setLeaf, Node.get, Node.child] using ihl p (by simpa [Node.get, Node.child] using h)
      | R => simpa [Node.setLeaf, Node.get, Node.child] using ihr p (by simpa [Node.get, Node.child] using h)

theorem Node.noMarker_get (t : Node V) (h : t.noMarker = true) :
    ∀ p : Path, (t.get p).TaskScheduled = false := by
  induction t with
  | null => intro p; simp [Node.get_null, Node.TaskScheduled]
  | mk isLeaf v op l r sched ihl ihr =>
    intro p
    simp only [Node.noMarker, Bool.and_eq_true, Bool.not_eq_true'] at h
    cases p with
    | nil => simpa [Node.get, Node.TaskScheduled] using h.1.1
    | cons d p =>
      cases d with
      | L => simpa [Node.get, Node.child] using ihl h.1.2 p
      | R => simpa [Node.get, Node.child] using ihr h.2 p

theorem Node.parsed_noMarker (t : Node V) (h : t.parsed = true) : t.noMarker = true := by
  induction t with
  | null => rfl
  | mk isLeaf v op l r sched ihl ihr =>
    cases isLeaf with
    | true =>
      cases l <;> cases r <;> simp_all [Node.parsed, Node.noMarker, Node.notNil]
    | false =>
      simp only [Node.parsed, Bool.and_eq_true, Bool.not_eq_true'] at h
      simp [Node.noMarker, h.2, ihl h.1.1, ihr h.1.2]

/-! ## The invariant of the lookup table and the markers -/

theorem foldl_set_fresh (cfg : Config) (eid uid : String) (es : List (Emission V)) :
    ∀ (c : Nat) (m : Store (Task V)), (∀ kt ∈ m, ∃ n : Nat, n ≤ c ∧ kt.1 = toString n) →
      (tasksOf cfg eid uid c es).foldl (fun m t => Store.set t.ID t m) m =
        m ++ (tasksOf cfg eid uid c es).map (fun t => (t.ID, t)) := by
  induction es with
  | nil => intro c m _; simp [tasksOf]
  | cons e es ih =>
    intro c m hm
    have hfresh : toString (c + 1) ∉ Store.keys m := by
      intro hmem
      obtain ⟨kt, hkt, hk⟩ := List.mem_map.1 hmem
      obtain ⟨n, hn, hkn⟩ := hm kt hkt
      have : c + 1 = n := toString_nat_injective _ _ (by rw [← hkn, hk])
      omega
    simp only [tasksOf, List.foldl_cons, List.map_cons]
    have hset : Store.set (taskOf cfg eid uid (c + 1) e).ID (taskOf cfg eid uid (c + 1) e) m =
        m ++ [((taskOf cfg eid uid (c + 1) e).ID, taskOf cfg eid uid (c + 1) e)] :=
      Store.set_fresh _ _ _ hfresh
    rw [hset, ih (c + 1)]
    · simp
    · intro kt hkt
      rcases List.mem_append.1 hkt with h | h
      · obtain ⟨n, hn, hkn⟩ := hm kt h
        exact ⟨n, by omega, hkn⟩
      · simp only [List.mem_singleton] at h
        exact ⟨c + 1, Nat.le_refl _, by rw [h]; rfl⟩

theorem foldl_set_nodup (ts : List (Task V)) : ∀ m : Store (Task V),
    (Store.keys m).Nodup →
      (Store.keys (ts.foldl (fun m t => Store.set t.ID t m) m)).Nodup := by
  induction ts with
  | nil => intro m h; exact h
  | cons t ts ih => intro m h; exact ih _ (Store.nodup_set _ _ _ h)

theorem passOver_taskStore (o : Orchestrator V) (x : String) (e : Expression V)
    (t : Node V) (st : String) (res : ResultPtr) (db : DataBase V)
    (hk : ∀ kt ∈ o.taskStore, ∃ n : Nat, n ≤ o.taskCounter ∧ kt.1 = toString n) :
    (passOver o x e t st res db).taskStore =
      o.taskStore ++ (tasksOf o.Config e.ID e.UserID o.taskCounter (emissions [] t)).map
        (fun t => (t.ID, t)) := by
  simp only [passOver, emitAll_eq]
  exact foldl_set_fresh _ _ _ _ _ _ hk

theorem passOver_exprStore (o : Orchestrator V) (x : String) (e : Expression V)
    (t : Node V) (st : String) (res : ResultPtr) (db : DataBase V) :
    (passOver o x e t st res db).exprStore =
      o.exprStore.set x { e with AST := markAll t, Status := st, Result := res } := rfl

theorem passOver_taskCounter (o : Orchestrator V) (x : String) (e : Expression V)
    (t : Node V) (st : String) (res : ResultPtr) (db : DataBase V) :
    (passOver o x e t st res db).taskCounter = o.taskCounter + (emissions [] t).length := by
  simp [passOver, emitAll_eq]

theorem passOver_Database (o : Orchestrator V) (x : String) (e : Expression V)
    (t : Node V) (st : String) (res : ResultPtr) (db : DataBase V) :
    (passOver o x e t st res db).Database = db := rfl

theorem passOver_get_self (o : Orchestrator V) (x : String) (e : Expression V)
    (t : Node V) (st : String) (res : ResultPtr) (db : DataBase V) :
    (passOver o x e t st res db).exprStore.get x =
      some { e with AST := markAll t, Status := st, Result := res } := by
  rw [passOver_exprStore, Store.get_set_self]

theorem passOver_get_other (o : Orchestrator V) (x y : String) (e : Expression V)
    (t : Node V) (st : String) (res : ResultPtr) (db : DataBase V) (h : y ≠ x) :
    (passOver o x e t st res db).exprStore.get y = o.exprStore.get y := by
  rw [passOver_exprStore, Store.get_set_ne _ _ _ _ h]

/-- The references to the node at `p` of `y` after a pass for the expression `x`. -/
theorem passOver_taskRefs (o : Orchestrator V) (x y : String) (e : Expression V)
    (t : Node V) (st : String) (res : ResultPtr) (db : DataBase V) (p : Path)
    (hk : ∀ kt ∈ o.taskStore, ∃ n : Nat, n ≤ o.taskCounter ∧ kt.1 = toString n)
    (hid : e.ID = x) :
    taskRefs (passOver o x e t st res db) y p =
      taskRefs o y p +
        if y = x ∧ t.inTree p ∧ (t.get p).qualifies then 1 else 0 := by
  simp only [taskRefs, passOver_taskStore o x e t st res db hk, List.countP_append,
    List.countP_map]
  congr 1
  by_cases hy : y = x
  · subst hy
    have hfun : ((fun kt : String × Task V => decide (kt.2.ExprID = y ∧ kt.2.Node = p)) ∘
        fun t => (t.ID, t)) = fun t => decide (t.ExprID = y ∧ t.Node = p) := rfl
    rw [hfun]
    have hc : ∀ (es : List (Emission V)) (c : Nat),
        (tasksOf o.Config e.ID e.UserID c es).countP
            (fun t => decide (t.ExprID = y ∧ t.Node = p)) =
          es.countP (fun e => decide (e.path = p)) := by
      intro es
      induction es with
      | nil => intro c; rfl
      | cons e1 es ih =>
        intro c
        simp only [tasksOf, List.countP_cons]
        rw [ih (c + 1)]
        simp [taskOf, hid]
    rw [hc, emissions_count]
    simp
  · have hz : ∀ (es : List (Emission V)) (c : Nat),
        (tasksOf o.Config e.ID e.UserID c es).countP
            ((fun kt : String × Task V => decide (kt.2.ExprID = y ∧ kt.2.Node = p)) ∘
              fun t => (t.ID, t)) = 0 := by
      intro es c
      rw [List.countP_eq_zero]
      intro t ht
      obtain ⟨e1, _, k, _, _, rfl⟩ := mem_tasksOf _ _ _ _ _ _ ht
      have : ¬ x = y := fun h => hy h.symm
      simp [taskOf, hid, this]
    rw [hz]
    simp [hy]

/-- The invariant after a pass for an expression that is stored (with the markers of its
tree) or new (under a key no task refers to, without markers). -/
theorem Inv1_passOver (o : Orchestrator V) (x : String) (e : Expression V)
    (t : Node V) (st : String) (res : ResultPtr) (db : DataBase V) (hinv : Inv1 o)
    (hid : e.ID = x) (hdb : o.Database.lastExprID ≤ db.lastExprID)
    (hcase : (∃ e0, o.exprStore.get x = some e0 ∧
          ∀ q, (t.get q).TaskScheduled = (e0.AST.get q).TaskScheduled) ∨
        (o.exprStore.get x = none ∧ t.noMarker = true ∧
          ∃ n : Nat, n ≤ db.lastExprID ∧ x = Itoa (n : Int))) :
    Inv1 (passOver o x e t st res db) := by
  have hstore := passOver_taskStore o x e t st res db hinv.taskKeys
  refine ⟨?_, ?_, ?_, ?_, ?_⟩
  · intro kt hkt
    rw [hstore] at hkt
    rw [passOver_taskCounter]
    rcases List.mem_append.1 hkt with h | h
    · obtain ⟨n, hn, hkn⟩ := hinv.taskKeys kt h
      exact ⟨n, by omega, hkn⟩
    · obtain ⟨t1, ht1, rfl⟩ := List.mem_map.1 h
      obtain ⟨e1, _, k, _, hk2, rfl⟩ := mem_tasksOf _ _ _ _ _ _ ht1
      exact ⟨k, hk2, rfl⟩
  · simp only [passOver, emitAll_eq]
    exact foldl_set_nodup _ _ hinv.taskNodup
  · intro ke hke
    rw [passOver_exprStore] at hke
    rw [passOver_Database]
    rcases Store.mem_set _ _ _ _ hke with h | h
    · subst h
      refine ⟨hid, ?_⟩
      rcases hcase with ⟨e0, he0, _⟩ | ⟨_, _, hn⟩
      · obtain ⟨_, n, hn, hkn⟩ := hinv.exprKeys _ (Store.mem_of_get _ _ _ he0)
        exact ⟨n, by omega, hkn⟩
      · exact hn
    · obtain ⟨h1, n, hn, hkn⟩ := hinv.exprKeys ke h
      exact ⟨h1, n, by omega, hkn⟩
  · intro kt hkt
    rw [hstore] at hkt
    have hown : ∃ e1, (passOver o x e t st res db).exprStore.get x = some e1 :=
      ⟨_, passOver_get_self o x e t st res db⟩
    rcases List.mem_append.1 hkt with h | h
    · by_cases hx : kt.2.ExprID = x
      · rw [hx]; exact hown
      · rw [passOver_get_other _ _ _ _ _ _ _ _ hx]
        exact hinv.taskExpr kt h
    · obtain ⟨t1, ht1, rfl⟩ := List.mem_map.1 h
      obtain ⟨e1, _, k, _, _, rfl⟩ := mem_tasksOf _ _ _ _ _ _ ht1
      simpa [taskOf, hid] using hown
  · intro y e1 hy p
    rw [passOver_taskRefs o x y e t st res db p hinv.taskKeys hid]
    by_cases hyx : y = x
    · subst hyx
      rw [passOver_get_self] at hy
      have he1 : e1.AST = markAll t := by
        have := Option.some.inj hy
        rw [← this]
      have hold : taskRefs o y p = if (t.get p).TaskScheduled then 1 else 0 := by
        rcases hcase with ⟨e0, he0, hq⟩ | ⟨hnone, hnm, _⟩
        · rw [hinv.refs y e0 he0 p, hq p]
        · rw [Node.noMarker_get t hnm p]
          simp only [taskRefs, Bool.false_eq_true, if_false, List.countP_eq_zero]
          intro kt hkt
          obtain ⟨e2, he2⟩ := hinv.taskExpr kt hkt
          have : kt.2.ExprID ≠ y := by
            intro h
            rw [h, hnone] at he2
            exact Option.noConfusion he2
          simp [this]
      rw [hold, he1, markAll_TaskScheduled]
      cases hs : (t.get p).TaskScheduled with
      | true =>
        have : (t.get p).qualifies = false := by
          cases hq : (t.get p).qualifies with
          | false => rfl
          | true => rw [Node.qualifies_not_scheduled _ hq] at hs; exact Bool.noConfusion hs
        simp [this]
      | false => by_cases h1 : t.inTree p = true <;> by_cases h2 : (t.get p).qualifies = true <;> simp [h1, h2]
    · rw [passOver_get_other _ _ _ _ _ _ _ _ hyx] at hy
      rw [hinv.refs y e1 hy p]
      simp [hyx]

theorem Inv1_start (cfg : Config) (db : DataBase V) : Inv1 (NewOrchestrator cfg db) := by
  refine ⟨?_, ?_, ?_, ?_, ?_⟩ <;> simp [NewOrchestrator, Store.keys, Store.get]

/-- The invariant survives a change that keeps the lookup table, the counter, and the trees
and identifiers of the stored expressions. -/
theorem Inv1_frame (o o1 : Orchestrator V) (hinv : Inv1 o)
    (hts : o1.taskStore = o.taskStore) (htc : o1.taskCounter = o.taskCounter)
    (hdb : o.Database.lastExprID ≤ o1.Database.lastExprID)
    (hmem : ∀ ke ∈ o1.exprStore, ∃ ke0 ∈ o.exprStore, ke0.1 = ke.1 ∧ ke0.2.ID = ke.2.ID)
    (hget : ∀ y e1, o1.exprStore.get y = some e1 →
      ∃ e0, o.exprStore.get y = some e0 ∧ e0.AST = e1.AST)
    (hget2 : ∀ y e0, o.exprStore.get y = some e0 → ∃ e1, o1.exprStore.get y = some e1) :
    Inv1 o1 := by
  refine ⟨?_, ?_, ?_, ?_, ?_⟩
  · intro kt hkt
    rw [hts] at hkt
    rw [htc]
    exact hinv.taskKeys kt hkt
  · rw [hts]; exact hinv.taskNodup
  · intro ke hke
    obtain ⟨ke0, hke0, h1, h2⟩ := hmem ke hke
    obtain ⟨h3, n, hn, hkn⟩ := hinv.exprKeys ke0 hke0
    exact ⟨by rw [← h2, h3, h1], n, by omega, by rw [← h1, hkn]⟩
  · intro kt hkt
    rw [hts] at hkt
    obtain ⟨e0, he0⟩ := hinv.taskExpr kt hkt
    exact hget2 _ e0 he0
  · intro y e1 hy p
    obtain ⟨e0, he0, hast⟩ := hget y e1 hy
    have := hinv.refs y e0 he0 p
    simp only [taskRefs] at this ⊢
    rw [hts, this, hast]

theorem Inv1_Database (o : Orchestrator V) (db : DataBase V) (hinv : Inv1 o)
    (hdb : o.Database.lastExprID ≤ db.lastExprID) : Inv1 { o with Database := db } :=
  Inv1_frame o _ hinv rfl rfl hdb (fun ke hke => ⟨ke, hke, rfl, rfl⟩)
    (fun _ e1 h => ⟨e1, h, rfl⟩) (fun _ e0 h => ⟨e0, h⟩)

theorem Inv1_GetTaskHandler (o : Orchestrator V) (hinv : Inv1 o) :
    Inv1 (GetTaskHandler o).1 := by
  rcases GetTaskHandler_cases o with h | ⟨task, rest, _, _, h⟩ | ⟨task, rest, e, _, he, h⟩
  · rw [h]; exact hinv
  · rw [h]
    exact Inv1_frame o _ hinv rfl rfl (Nat.le_refl _) (fun ke hke => ⟨ke, hke, rfl, rfl⟩)
      (fun _ e1 h => ⟨e1, h, rfl⟩) (fun _ e0 h => ⟨e0, h⟩)
  · rw [h]
    refine Inv1_frame o _ hinv rfl rfl (Nat.le_refl _) ?_ ?_ ?_
    · intro ke hke
      rcases Store.mem_set _ _ _ _ hke with h1 | h1
      · exact ⟨(task.ExprID, e), Store.mem_of_get _ _ _ he, by rw [h1], by rw [h1]⟩
      · exact ⟨ke, h1, rfl, rfl⟩
    · intro y e1 hy
      by_cases hyx : y = task.ExprID
      · subst hyx
        simp only [Store.get_set_self, Option.some.injEq] at hy
        exact ⟨e, he, by rw [← hy]⟩
      · simp only [Store.get_set_ne _ _ _ _ hyx] at hy
        exact ⟨e1, hy, rfl⟩
    · intro y e0 hy
      by_cases hyx : y = task.ExprID
      · subst hyx
        exact ⟨_, Store.get_set_self _ _ _⟩
      · exact ⟨e0, by simp only [Store.get_set_ne _ _ _ _ hyx]; exact hy⟩

theorem Inv1_key_fresh (o : Orchestrator V) (hinv : Inv1 o) :
    o.exprStore.get (Itoa ((o.Database.lastExprID + 1 : Nat) : Int)) = none := by
  apply Store.get_none_of_not_mem
  intro hmem
  obtain ⟨ke, hke, hk⟩ := List.mem_map.1 hmem
  obtain ⟨_, n, hn, hkn⟩ := hinv.exprKeys ke hke
  have : o.Database.lastExprID + 1 = n := Itoa_nat_injective _ _ (by rw [← hkn, hk])
  omega

theorem Inv1_stored_ID (o : Orchestrator V) (hinv : Inv1 o) (x : String)
    (e : Expression V) (h : o.exprStore.get x = some e) : e.ID = x :=
  (hinv.exprKeys _ (Store.mem_of_get _ _ _ h)).1

theorem Inv1_CalculateHandler (ParseAST : String → Except String (Node V))
    (hparse : ∀ s t, ParseAST s = .ok t → t.noMarker = true)
    (o : Orchestrator V) (hinv : Inv1 o) (userID : Int) (text : String) :
    Inv1 (CalculateHandler ParseAST o userID text).1 := by
  by_cases htext : text = ""
  · simpa [CalculateHandler, htext] using hinv
  · cases hp : ParseAST text with
    | error err =>
      obtain ⟨db, hdb, h⟩ := CalculateHandler_error ParseAST o userID text err hp
      rw [h]
      exact Inv1_Database o db hinv hdb
    | ok t =>
      rw [CalculateHandler_ok ParseAST o userID text t htext hp]
      refine Inv1_passOver o _ _ t _ _ _ hinv rfl ?_ (Or.inr ⟨Inv1_key_fresh o hinv,
        hparse _ _ hp, o.Database.lastExprID + 1, ?_, rfl⟩)
      · simp [DataBase.CreateExpression]
      · simp [DataBase.CreateExpression]

theorem Inv1_scheduleStored (o : Orchestrator V) (hinv : Inv1 o) (x : String) :
    Inv1 (scheduleStored o x) := by
  cases he : o.exprStore.get x with
  | none => simpa [scheduleStored, he] using hinv
  | some e =>
    rw [scheduleStored_eq o x e he]
    exact Inv1_passOver o x e e.AST _ _ _ hinv (Inv1_stored_ID o hinv x e he) (Nat.le_refl _)
      (Or.inl ⟨e, he, fun _ => rfl⟩)

theorem Inv1_PostTaskHandler (o : Orchestrator V) (hinv : Inv1 o) (id : String) (v : V) :
    Inv1 (PostTaskHandler o id v).1 := by
  rcases PostTaskHandler_cases o id v with h | ⟨task, e0, hid, h1, h2⟩
  · rw [h]; exact hinv
  · rw [PostTaskHandler_ok o id v task e0 hid h1 h2]
    refine Inv1_passOver o _ e0 _ _ _ _ hinv (Inv1_stored_ID o hinv _ e0 h2) ?_
      (Or.inl ⟨e0, h2, fun q => (setLeaf_frame v e0.AST task.Node q).1⟩)
    rw [PostTaskHandler_lastExprID]

theorem Inv1_step (ParseAST : String → Except String (Node V))
    (hparse : ∀ s t, ParseAST s = .ok t → t.noMarker = true)
    (o : Orchestrator V) (hinv : Inv1 o) (a : Action V) : Inv1 (step ParseAST o a) := by
  cases a with
  | submit userID text => exact Inv1_CalculateHandler ParseAST hparse o hinv userID text
  | schedule x => exact Inv1_scheduleStored o hinv x
  | pull => exact Inv1_GetTaskHandler o hinv
  | deliver id v => exact Inv1_PostTaskHandler o hinv id v

theorem Inv1_run (ParseAST : String → Except String (Node V))
    (hparse : ∀ s t, ParseAST s = .ok t → t.noMarker = true)
    (acts : List (Action V)) : ∀ o : Orchestrator V, Inv1 o → Inv1 (run ParseAST o acts) := by
  induction acts with
  | nil => intro o h; exact h
  | cons a acts ih => intro o h; exact ih _ (Inv1_step ParseAST hparse o h a)

theorem sampleParse_parsed (s : String) (t : Node Int) (h : sampleParse s = .ok t) :
    t.parsed = true := by
  unfold sampleParse at h
  split at h
  · cases h; rfl
  · split at h
    · cases h; rfl
    · split at h
      · cases h; rfl
      · split at h
        · cases h; rfl
        · cases h

/-- C3. Exactly-once emission: in every state the orchestrator reaches from its start by
submissions (of trees without marker), scheduler calls, task pulls and result deliveries, a
node of a stored expression has its marker set if and only if exactly one entry of the
lookup table refers to it, and no node is referred to by more than one entry. -/
theorem emission_exactly_once (ParseAST : String → Except String (Node V))
    (hparse : ∀ s t, ParseAST s = .ok t → t.noMarker = true)
    (cfg : Config) (db : DataBase V) (acts : List (Action V)) (x : String)
    (e : Expression V) (p : Path)
    (he : (run ParseAST (NewOrchestrator cfg db) acts).exprStore.get x = some e) :
    ((e.AST.get p).TaskScheduled = true ↔
      taskRefs (run ParseAST (NewOrchestrator cfg db) acts) x p = 1) ∧
    taskRefs (run ParseAST (NewOrchestrator cfg db) acts) x p ≤ 1 := by
  have hinv := Inv1_run ParseAST hparse acts _ (Inv1_start cfg db)
  rw [hinv.refs x e he p]
  cases (e.AST.get p).TaskScheduled <;> simp

/-- Witness of C3: the node of `*` in `2+3*4` after a submission, a pull and the delivery
of 12. -/
theorem emission_exactly_once_witness :
    (∀ s t, sampleParse s = .ok t → t.noMarker = true) ∧
    (run sampleParse sampleStart
        [.submit 1 "2+3*4", .pull, .deliver "1" 12]).exprStore.get "1" =
      some { ID := "1", Expr := "2+3*4", UserID := "1", Status := "completed", Result := .nil,
             AST := .mk false 0 "+" (numLeaf 2)
               (.mk true 12 "*" (numLeaf 3) (numLeaf 4) true) true } ∧
    (((Node.mk false 0 "+" (numLeaf 2)
          (.mk true 12 "*" (numLeaf 3) (numLeaf 4) true) true).get [Dir.R]).TaskScheduled = true ↔
      taskRefs (run sampleParse sampleStart
        [.submit 1 "2+3*4", .pull, .deliver "1" 12]) "1" [Dir.R] = 1) ∧
    taskRefs (run sampleParse sampleStart
      [.submit 1 "2+3*4", .pull, .deliver "1" 12]) "1" [Dir.R] ≤ 1 :=
  ⟨fun s t h => Node.parsed_noMarker t (sampleParse_parsed s t h), by decide,
    emission_exactly_once sampleParse
      (fun s t h => Node.parsed_noMarker t (sampleParse_parsed s t h))
      sampleConfig ⟨[], 0⟩ [.submit 1 "2+3*4", .pull, .deliver "1" 12] "1"
      { ID := "1", Expr := "2+3*4", UserID := "1", Status := "completed", Result := .nil,
        AST := .mk false 0 "+" (numLeaf 2) (.mk true 12 "*" (numLeaf 3) (numLeaf 4) true) true }
      [Dir.R] (by decide)⟩

/-! ## The shape of stored trees and the number of Internal nodes -/

theorem Node.leafValue?_isSome (n : Node V) : n.leafValue?.isSome = n.IsLeaf := by
  cases n with
  | null => rfl
  | mk isLeaf v op l r sched => cases isLeaf <;> rfl

theorem markAll_IsLeaf (t : Node V) : (markAll t).IsLeaf = t.IsLeaf :=
  (markAll_data t []).1

theorem Node.parsed_good (t : Node V) (h : t.parsed = true) : t.good = true := by
  induction t with
  | null => simp [Node.parsed] at h
  | mk isLeaf v op l r sched ihl ihr =>
    cases isLeaf with
    | true =>
      simp only [Node.parsed, Bool.and_eq_true, Bool.not_eq_true'] at h
      simp [Node.good, h.1.1, h.1.2]
    | false =>
      simp only [Node.parsed, Bool.and_eq_true, Bool.not_eq_true'] at h
      simp [Node.good, ihl h.1.1, ihr h.1.2, h.2]

theorem good_markAll (t : Node V) (h : t.good = true) : (markAll t).good = true := by
  induction t with
  | null => simp [Node.good] at h
  | mk isLeaf v op l r sched ihl ihr =>
    cases isLeaf with
    | true => simpa [markAll] using h
    | false =>
      simp only [Node.good, Bool.false_and, Bool.false_or, Bool.and_eq_true, Bool.or_eq_true,
        Bool.not_eq_true', Bool.not_false, Bool.true_and, Bool.true_or, and_true] at h
      obtain ⟨⟨hl, hr⟩, hc⟩ := h
      simp only [markAll, Node.good, Bool.false_and, Bool.false_or, ihl hl, ihr hr,
        markAll_IsLeaf, Node.leafValue?_isSome, Bool.not_false, Bool.true_and, Bool.true_or,
        Bool.and_true]
      cases sched <;> cases hli : l.IsLeaf <;> cases hri : r.IsLeaf <;> simp_all

theorem setLeaf_IsLeaf_mono (v : V) (t : Node V) (p : Path) (h : t.IsLeaf = true) :
    (t.setLeaf v p).IsLeaf = true := by
  cases t with
  | null => simp [Node.IsLeaf] at h
  | mk isLeaf v1 op l r sched =>
    cases p with
    | nil => rfl
    | cons d p => cases d <;> simpa [Node.setLeaf, Node.IsLeaf] using h

theorem good_setLeaf (v : V) (t : Node V) : ∀ p : Path, t.good = true →
    (t.get p).TaskScheduled = true → (t.setLeaf v p).good = true := by
  induction t with
  | null => intro p h; simp [Node.good] at h
  | mk isLeaf v1 op l r sched ihl ihr =>
    intro p h hm
    cases p with
    | nil =>
      simp only [Node.get, Node.TaskScheduled] at hm
      subst hm
      simp only [Node.setLeaf]
      cases isLeaf with
      | true => exact h
      | false =>
        simp only [Node.good, Bool.false_and, Bool.false_or, Bool.and_eq_true,
          Bool.or_eq_true, Bool.not_eq_true'] at h
        simp only [Node.good, Bool.true_and, Bool.and_eq_true, Bool.or_eq_true,
          Bool.not_eq_true']
        right
        simp_all
    | cons d p =>
      have hnl : ∀ n : Node V, (n.get p).TaskScheduled = true → n.notNil = true := by
        intro n hn
        cases n with
        | null => simp [Node.get_null, Node.TaskScheduled] at hn
        | mk _ _ _ _ _ _ => rfl
      cases d with
      | L =>
        simp only [Node.get, Node.child] at hm
        have hl := hnl l hm
        simp only [Node.good, hl, Bool.not_true, Bool.and_false, Bool.false_and,
          Bool.false_or, Bool.and_eq_true, Bool.or_eq_true, Bool.not_eq_true'] at h
        obtain ⟨⟨⟨hgl, hgr⟩, hc⟩, hs⟩ := h
        simp only [Node.setLeaf, Node.good, Bool.and_eq_true, Bool.or_eq_true,
          Bool.not_eq_true']
        right
        refine ⟨⟨⟨ihl p hgl hm, hgr⟩, ?_⟩, hs⟩
        rcases hc with hc | hc
        · exact Or.inl hc
        · exact Or.inr ⟨setLeaf_IsLeaf_mono v l p hc.1, hc.2⟩
      | R =>
        simp only [Node.get, Node.child] at hm
        have hr := hnl r hm
        simp only [Node.good, hr, Bool.not_true, Bool.and_false, Bool.false_and,
          Bool.false_or, Bool.and_eq_true, Bool.or_eq_true, Bool.not_eq_true'] at h
        obtain ⟨⟨⟨hgl, hgr⟩, hc⟩, hs⟩ := h
        simp only [Node.setLeaf, Node.good, Bool.and_eq_true, Bool.or_eq_true,
          Bool.not_eq_true']
        right
        refine ⟨⟨⟨hgl, ihr p hgr hm⟩, ?_⟩, hs⟩
        rcases hc with hc | hc
        · exact Or.inl hc
        · exact Or.inr ⟨hc.1, setLeaf_IsLeaf_mono v r p hc.2⟩

theorem internalCount_markAll (t : Node V) : (markAll t).internalCount = t.internalCount := by
  induction t with
  | null => rfl
  | mk isLeaf v op l r sched ihl ihr =>
    cases isLeaf with
    | true => rfl
    | false => simp [markAll, Node.internalCount, ihl, ihr]

theorem internalCount_of_IsLeaf (t : Node V) (h : t.IsLeaf = true) : t.internalCount = 0 := by
  cases t with
  | null => rfl
  | mk isLeaf v op l r sched =>
    simp only [Node.IsLeaf] at h
    subst h
    rfl

theorem good_IsLeaf_iff (t : Node V) (h : t.good = true) :
    t.IsLeaf = true ↔ t.internalCount = 0 := by
  cases t with
  | null => simp [Node.good] at h
  | mk isLeaf v op l r sched =>
    cases isLeaf with
    | true => simp [Node.IsLeaf, Node.internalCount]
    | false => simp [Node.IsLeaf, Node.internalCount]

/-- Below a Leaf of a stored tree there are only Leaves. -/
theorem good_below_leaf (t : Node V) : ∀ q : Path, t.good = true → t.IsLeaf = true →
    (t.get q).IsLeaf = true ∨ (t.get q).notNil = false := by
  induction t with
  | null => intro q h; simp [Node.good] at h
  | mk isLeaf v op l r sched ihl ihr =>
    intro q h hleaf
    simp only [Node.IsLeaf] at hleaf
    subst hleaf
    cases q with
    | nil => exact Or.inl rfl
    | cons d q =>
      simp only [Node.good, Bool.true_and, Bool.not_true, Bool.false_and, Bool.false_or,
        Bool.or_eq_true, Bool.and_eq_true, Bool.not_eq_true'] at h
      rcases h with ⟨hl, hr⟩ | ⟨⟨⟨hgl, hgr⟩, hc⟩, _⟩
      · right
        cases d with
        | L =>
          cases l with
          | null => simp [Node.get, Node.child, Node.get_null, Node.notNil]
          | mk _ _ _ _ _ _ => simp [Node.notNil] at hl
        | R =>
          cases r with
          | null => simp [Node.get, Node.child, Node.get_null, Node.notNil]
          | mk _ _ _ _ _ _ => simp [Node.notNil] at hr
      · cases d with
        | L => simpa [Node.get, Node.child] using ihl q hgl hc.1
        | R => simpa [Node.get, Node.child] using ihr q hgr hc.2

theorem notNil_of_TaskScheduled (n : Node V) (h : n.TaskScheduled = true) :
    n.notNil = true := by
  cases n with
  | null => simp [Node.TaskScheduled] at h
  | mk _ _ _ _ _ _ => rfl

/-- The collapse of an Internal node that has its marker set removes one Internal node. -/
theorem internalCount_setLeaf (v : V) (t : Node V) : ∀ p : Path, t.good = true →
    (t.get p).IsLeaf = false → (t.get p).TaskScheduled = true →
    (t.setLeaf v p).internalCount + 1 = t.internalCount := by
  induction t with
  | null => intro p h; simp [Node.good] at h
  | mk isLeaf v1 op l r sched ihl ihr =>
    intro p h hleaf hm
    cases p with
    | nil =>
      simp only [Node.get, Node.IsLeaf, Node.TaskScheduled] at hleaf hm
      subst hleaf hm
      simp only [Node.good, Bool.false_and, Bool.false_or, Bool.and_eq_true,
        Bool.or_eq_true, Bool.not_eq_true'] at h
      have hc : l.IsLeaf = true ∧ r.IsLeaf = true := by
        rcases h.1.2 with hc | hc
        · simp at hc
        · exact hc
      simp [Node.setLeaf, Node.internalCount, internalCount_of_IsLeaf l hc.1,
        internalCount_of_IsLeaf r hc.2]
    | cons d p =>
      cases d with
      | L =>
        simp only [Node.get, Node.child] at hleaf hm
        have hl := notNil_of_TaskScheduled _ hm
        have hln : l.notNil = true := by
          cases l with
          | null => simp [Node.get_null, Node.notNil] at hl
          | mk _ _ _ _ _ _ => rfl
        simp only [Node.good, hln, Bool.not_true, Bool.and_false, Bool.false_and,
          Bool.false_or, Bool.and_eq_true, Bool.or_eq_true, Bool.not_eq_true'] at h
        obtain ⟨⟨⟨hgl, hgr⟩, hc⟩, hs⟩ := h
        cases isLeaf with
        | true =>
          exfalso
          have hc2 : l.IsLeaf = true := by
            rcases hc with hc | hc
            · simp at hc
            · exact hc.1
          rcases good_below_leaf l p hgl hc2 with h1 | h1
          · rw [h1] at hleaf; exact Bool.noConfusion hleaf
          · rw [h1] at hl; exact Bool.noConfusion hl
        | false =>
          have := ihl p hgl hleaf hm
          simp only [Node.setLeaf, Node.internalCount]
          omega
      | R =>
        simp only [Node.get, Node.child] at hleaf hm
        have hr := notNil_of_TaskScheduled _ hm
        have hrn : r.notNil = true := by
          cases r with
          | null => simp [Node.get_null, Node.notNil] at hr
          | mk _ _ _ _ _ _ => rfl
        simp only [Node.good, hrn, Bool.not_true, Bool.and_false, Bool.false_and,
          Bool.false_or, Bool.and_eq_true, Bool.or_eq_true, Bool.not_eq_true'] at h
        obtain ⟨⟨⟨hgl, hgr⟩, hc⟩, hs⟩ := h
        cases isLeaf with
        | true =>
          exfalso
          have hc2 : r.IsLeaf = true := by
            rcases hc with hc | hc
            · simp at hc
            · exact hc.2
          rcases good_below_leaf r p hgr hc2 with h1 | h1
          · rw [h1] at hleaf; exact Bool.noConfusion hleaf
          · rw [h1] at hr; exact Bool.noConfusion hr
        | false =>
          have := ihr p hgr hleaf hm
          simp only [Node.setLeaf, Node.internalCount]
          omega

/-- A result for a node that is a Leaf already leaves the number of Internal nodes. -/
theorem internalCount_setLeaf_leaf (v : V) (t : Node V) : ∀ p : Path,
    (t.get p).IsLeaf = true → (t.setLeaf v p).internalCount = t.internalCount := by
  induction t with
  | null => intro p h; rfl
  | mk isLeaf v1 op l r sched ihl ihr =>
    intro p h
    cases p with
    | nil =>
      simp only [Node.get, Node.IsLeaf] at h
      subst h
      rfl
    | cons d p =>
      cases d with
      | L =>
        have := ihl p (by simpa [Node.get, Node.child] using h)
        cases isLeaf <;> simp [Node.setLeaf, Node.internalCount, this]
      | R =>
        have := ihr p (by simpa [Node.get, Node.child] using h)
        cases isLeaf <;> simp [Node.setLeaf, Node.internalCount, this]

/-- While the root of a stored tree is Internal, some Internal node has its marker set. -/
theorem exists_marked_internal (t : Node V) : t.good = true → markAll t = t →
    t.IsLeaf = false → ∃ p : Path, (t.get p).IsLeaf = false ∧ (t.get p).TaskScheduled = true := by
  induction t with
  | null => intro h; simp [Node.good] at h
  | mk isLeaf v op l r sched ihl ihr =>
    intro h hc hleaf
    simp only [Node.IsLeaf] at hleaf
    subst hleaf
    simp only [Node.good, Bool.false_and, Bool.false_or, Bool.and_eq_true,
      Bool.or_eq_true, Bool.not_eq_true'] at h
    obtain ⟨⟨⟨hgl, hgr⟩, _⟩, _⟩ := h
    simp only [markAll, Node.mk.injEq, true_and] at hc
    obtain ⟨hcl, hcr, hcs⟩ := hc
    cases hli : l.IsLeaf with
    | false =>
      obtain ⟨p, hp1, hp2⟩ := ihl hgl hcl hli
      exact ⟨Dir.L :: p, by simpa [Node.get, Node.child] using hp1,
        by simpa [Node.get, Node.child] using hp2⟩
    | true =>
      cases hri : r.IsLeaf with
      | false =>
        obtain ⟨p, hp1, hp2⟩ := ihr hgr hcr hri
        exact ⟨Dir.R :: p, by simpa [Node.get, Node.child] using hp1,
          by simpa [Node.get, Node.child] using hp2⟩
      | true =>
        refine ⟨[], rfl, ?_⟩
        simp only [Node.leafValue?_isSome, hli, hri, Bool.and_self, Bool.or_true] at hcs
        simp [Node.get, Node.TaskScheduled, ← hcs]

/-! ## The invariant of the stored trees -/

theorem Inv2_start (cfg : Config) (db : DataBase V) : Inv2 (NewOrchestrator cfg db) := by
  refine ⟨?_, ?_, ?_⟩ <;> simp [NewOrchestrator, Store.get]

/-- A task of the lookup table refers to a node that has its marker set. -/
theorem task_marked (o : Orchestrator V) (hinv : Inv1 o) (id : String) (task : Task V)
    (e : Expression V) (h1 : o.taskStore.get id = some task)
    (h2 : o.exprStore.get task.ExprID = some e) :
    (e.AST.get task.Node).TaskScheduled = true := by
  have hmem := Store.mem_of_get _ _ _ h1
  have hpos : 0 < taskRefs o task.ExprID task.Node := by
    simp only [taskRefs, List.countP_pos_iff]
    exact ⟨(id, task), hmem, by simp⟩
  rw [hinv.refs _ e h2 task.Node] at hpos
  cases hs : (e.AST.get task.Node).TaskScheduled with
  | true => rfl
  | false => simp [hs] at hpos

theorem Inv2_passOver (o : Orchestrator V) (x : String) (e : Expression V)
    (t : Node V) (st : String) (res : ResultPtr) (db : DataBase V) (hinv : Inv2 o)
    (hgood : t.good = true)
    (hdone : (markAll t).IsLeaf = true → (markAll t).TaskScheduled = true →
      st = "completed" ∧ res = .rootValue) :
    Inv2 (passOver o x e t st res db) := by
  refine ⟨?_, ?_, ?_⟩
  · intro y e1 hy
    by_cases hyx : y = x
    · subst hyx
      rw [passOver_get_self] at hy
      rw [← Option.some.inj hy]
      exact good_markAll t hgood
    · rw [passOver_get_other _ _ _ _ _ _ _ _ hyx] at hy
      exact hinv.good y e1 hy
  · intro y e1 hy
    by_cases hyx : y = x
    · subst hyx
      rw [passOver_get_self] at hy
      rw [← Option.some.inj hy]
      exact markAll_markAll t
    · rw [passOver_get_other _ _ _ _ _ _ _ _ hyx] at hy
      exact hinv.closed y e1 hy
  · intro y e1 hy
    by_cases hyx : y = x
    · subst hyx
      rw [passOver_get_self] at hy
      rw [← Option.some.inj hy]
      exact hdone
    · rw [passOver_get_other _ _ _ _ _ _ _ _ hyx] at hy
      exact hinv.done y e1 hy

theorem Inv2_Database (o : Orchestrator V) (db : DataBase V) (hinv : Inv2 o) :
    Inv2 { o with Database := db } :=
  ⟨hinv.good, hinv.closed, hinv.done⟩

theorem Inv2_GetTaskHandler (o : Orchestrator V) (hinv : Inv2 o) :
    Inv2 (GetTaskHandler o).1 := by
  rcases GetTaskHandler_cases o with h | ⟨task, rest, _, _, h⟩ | ⟨task, rest, e, _, he, h⟩
  · rw [h]; exact hinv
  · rw [h]; exact ⟨hinv.good, hinv.closed, hinv.done⟩
  · rw [h]
    have key : ∀ y e1, Store.get y (Store.set task.ExprID
        ({ e with Status := "completed" } : Expression V) o.exprStore) = some e1 →
        ∃ e0, o.exprStore.get y = some e0 ∧ e0.AST = e1.AST ∧ e0.Result = e1.Result ∧
          (e1.Status = e0.Status ∨ e1.Status = "completed") := by
      intro y e1 hy
      by_cases hyx : y = task.ExprID
      · subst hyx
        simp only [Store.get_set_self, Option.some.injEq] at hy
        exact ⟨e, he, by rw [← hy], by rw [← hy], Or.inr (by rw [← hy])⟩
      · simp only [Store.get_set_ne _ _ _ _ hyx] at hy
        exact ⟨e1, hy, rfl, rfl, Or.inl rfl⟩
    refine ⟨?_, ?_, ?_⟩
    · intro y e1 hy
      obtain ⟨e0, h0, ha, _, _⟩ := key y e1 hy
      rw [← ha]; exact hinv.good y e0 h0
    · intro y e1 hy
      obtain ⟨e0, h0, ha, _, _⟩ := key y e1 hy
      rw [← ha]; exact hinv.closed y e0 h0
    · intro y e1 hy hl hm
      obtain ⟨e0, h0, ha, hr, hs⟩ := key y e1 hy
      rw [← ha] at hl hm
      obtain ⟨h3, h4⟩ := hinv.done y e0 h0 hl hm
      refine ⟨?_, by rw [← hr, h4]⟩
      rcases hs with hs | hs
      · rw [hs, h3]
      · exact hs

theorem Inv2_CalculateHandler (ParseAST : String → Except String (Node V))
    (hparse : ∀ s t, ParseAST s = .ok t → t.parsed = true)
    (o : Orchestrator V) (hinv : Inv2 o) (userID : Int) (text : String) :
    Inv2 (CalculateHandler ParseAST o userID text).1 := by
  by_cases htext : text = ""
  · simpa [CalculateHandler, htext] using hinv
  · cases hp : ParseAST text with
    | error err =>
      obtain ⟨db, _, h⟩ := CalculateHandler_error ParseAST o userID text err hp
      rw [h]
      exact Inv2_Database o db hinv
    | ok t =>
      rw [CalculateHandler_ok ParseAST o userID text t htext hp]
      refine Inv2_passOver o _ _ t _ _ _ hinv (Node.parsed_good t (hparse _ _ hp)) ?_
      intro hl hm
      exfalso
      have h1 := markAll_TaskScheduled t []
      have h2 := Node.noMarker_get t (Node.parsed_noMarker t (hparse _ _ hp)) []
      rw [markAll_IsLeaf] at hl
      simp only [Node.get] at h1 h2 hm
      rw [hm, h2] at h1
      cases t with
      | null => simp [Node.IsLeaf] at hl
      | mk isLeaf v op l r sched =>
        simp only [Node.IsLeaf] at hl
        subst hl
        simp [Node.qualifies, Node.ready] at h1

theorem Inv2_scheduleStored (o : Orchestrator V) (hinv : Inv2 o) (x : String) :
    Inv2 (scheduleStored o x) := by
  cases he : o.exprStore.get x with
  | none => simpa [scheduleStored, he] using hinv
  | some e =>
    rw [scheduleStored_eq o x e he]
    refine Inv2_passOver o x e e.AST _ _ _ hinv (hinv.good x e he) ?_
    rw [hinv.closed x e he]
    exact hinv.done x e he

theorem Inv2_PostTaskHandler (o : Orchestrator V) (hinv1 : Inv1 o) (hinv : Inv2 o)
    (id : String) (v : V) : Inv2 (PostTaskHandler o id v).1 := by
  rcases PostTaskHandler_cases o id v with h | ⟨task, e0, hid, h1, h2⟩
  · rw [h]; exact hinv
  · rw [PostTaskHandler_ok o id v task e0 hid h1 h2]
    refine Inv2_passOver o _ e0 _ _ _ _ hinv
      (good_setLeaf v e0.AST task.Node (hinv.good _ e0 h2) (task_marked o hinv1 id task e0 h1 h2))
      ?_
    intro hl _
    simp [hl]

theorem Inv_start (cfg : Config) (db : DataBase V) : Inv (NewOrchestrator cfg db) :=
  ⟨Inv1_start cfg db, Inv2_start cfg db⟩

theorem Inv_step (ParseAST : String → Except String (Node V))
    (hparse : ∀ s t, ParseAST s = .ok t → t.parsed = true)
    (o : Orchestrator V) (hinv : Inv o) (a : Action V) : Inv (step ParseAST o a) := by
  have hnm : ∀ s t, ParseAST s = .ok t → t.noMarker = true :=
    fun s t h => Node.parsed_noMarker t (hparse s t h)
  refine ⟨Inv1_step ParseAST hnm o hinv.1 a, ?_⟩
  cases a with
  | submit userID text => exact Inv2_CalculateHandler ParseAST hparse o hinv.2 userID text
  | schedule x => exact Inv2_scheduleStored o hinv.2 x
  | pull => exact Inv2_GetTaskHandler o hinv.2
  | deliver id v => exact Inv2_PostTaskHandler o hinv.1 hinv.2 id v

theorem Inv_run (ParseAST : String → Except String (Node V))
    (hparse : ∀ s t, ParseAST s = .ok t → t.parsed = true)
    (acts : List (Action V)) : ∀ o : Orchestrator V, Inv o → Inv (run ParseAST o acts) := by
  induction acts with
  | nil => intro o h; exact h
  | cons a acts ih => intro o h; exact ih _ (Inv_step ParseAST hparse o h a)

/-! ## Progress -/

theorem pending_iff (o : Orchestrator V) (x id : String) :
    pending o x id = true ↔
      ∃ task e, o.taskStore.get id = some task ∧ o.exprStore.get x = some e ∧ id ≠ "" ∧
        task.ExprID = x ∧ (e.AST.get task.Node).IsLeaf = false := by
  unfold pending
  cases h1 : o.taskStore.get id with
  | none => simp
  | some task =>
    cases h2 : o.exprStore.get x with
    | none => simp
    | some e => simp [and_assoc]

theorem remaining_passOver (o : Orchestrator V) (y : String) (e : Expression V)
    (t : Node V) (st : String) (res : ResultPtr) (db : DataBase V) (x : String) :
    remaining (passOver o y e t st res db) x =
      if x = y then t.internalCount else remaining o x := by
  by_cases hxy : x = y
  · subst hxy
    simp [remaining, passOver_get_self, internalCount_markAll]
  · simp [remaining, passOver_get_other _ _ _ _ _ _ _ _ hxy, hxy]

theorem stored_passOver (o : Orchestrator V) (y : String) (e : Expression V)
    (t : Node V) (st : String) (res : ResultPtr) (db : DataBase V) (x : String)
    (h : ∃ e1, o.exprStore.get x = some e1) :
    ∃ e1, (passOver o y e t st res db).exprStore.get x = some e1 := by
  by_cases hxy : x = y
  · subst hxy
    exact ⟨_, passOver_get_self _ _ _ _ _ _ _⟩
  · rw [passOver_get_other _ _ _ _ _ _ _ _ hxy]
    exact h

/-- A stored expression stays stored. -/
theorem stored_step (ParseAST : String → Except String (Node V)) (o : Orchestrator V)
    (a : Action V) (x : String) (h : ∃ e, o.exprStore.get x = some e) :
    ∃ e, (step ParseAST o a).exprStore.get x = some e := by
  cases a with
  | submit userID text =>
    simp only [step]
    by_cases htext : text = ""
    · simpa [CalculateHandler, htext] using h
    · cases hp : ParseAST text with
      | error err =>
        obtain ⟨db, _, h1⟩ := CalculateHandler_error ParseAST o userID text err hp
        rw [h1]; exact h
      | ok t =>
        rw [CalculateHandler_ok ParseAST o userID text t htext hp]
        exact stored_passOver _ _ _ _ _ _ _ _ h
  | schedule y =>
    simp only [step]
    cases he : o.exprStore.get y with
    | none => simpa [scheduleStored, he] using h
    | some e =>
      rw [scheduleStored_eq o y e he]
      exact stored_passOver _ _ _ _ _ _ _ _ h
  | pull =>
    simp only [step]
    rcases GetTaskHandler_cases o with h1 | ⟨task, rest, _, _, h1⟩ | ⟨task, rest, e, _, he, h1⟩
    · rw [h1]; exact h
    · rw [h1]; exact h
    · rw [h1]
      by_cases hxy : x = task.ExprID
      · subst hxy
        exact ⟨_, Store.get_set_self _ _ _⟩
      · simp only [Store.get_set_ne _ _ _ _ hxy]
        exact h
  | deliver id v =>
    simp only [step]
    rcases PostTaskHandler_cases o id v with h1 | ⟨task, e0, hid, h1, h2⟩
    · rw [h1]; exact h
    · rw [PostTaskHandler_ok o id v task e0 hid h1 h2]
      exact stored_passOver _ _ _ _ _ _ _ _ h

/-- An action other than a delivery leaves the number of Internal nodes of `x`. -/
theorem remaining_step_other (ParseAST : String → Except String (Node V))
    (o : Orchestrator V) (hinv : Inv o) (a : Action V) (x : String)
    (hx : ∃ e, o.exprStore.get x = some e) (ha : ∀ id v, a ≠ .deliver id v) :
    remaining (step ParseAST o a) x = remaining o x := by
  obtain ⟨e, he⟩ := hx
  cases a with
  | submit userID text =>
    simp only [step]
    by_cases htext : text = ""
    · simp [CalculateHandler, htext]
    · cases hp : ParseAST text with
      | error err =>
        obtain ⟨db, _, h1⟩ := CalculateHandler_error ParseAST o userID text err hp
        rw [h1]; rfl
      | ok t =>
        rw [CalculateHandler_ok ParseAST o userID text t htext hp, remaining_passOver]
        have hne : x ≠ Itoa ((o.Database.lastExprID + 1 : Nat) : Int) := by
          intro hh
          rw [hh, Inv1_key_fresh o hinv.1] at he
          exact Option.noConfusion he
        rw [if_neg hne]
  | schedule y =>
    simp only [step]
    cases hy : o.exprStore.get y with
    | none => simp [scheduleStored, hy]
    | some e1 =>
      rw [scheduleStored_eq o y e1 hy, remaining_passOver]
      by_cases hxy : x = y
      · subst hxy
        simp [remaining, hy]
      · simp [hxy]
  | pull =>
    simp only [step]
    rcases GetTaskHandler_cases o with h1 | ⟨task, rest, _, _, h1⟩ | ⟨task, rest, e1, _, he1, h1⟩
    · rw [h1]
    · rw [h1]; rfl
    · rw [h1]
      by_cases hxy : x = task.ExprID
      · subst hxy
        simp [remaining, Store.get_set_self, he1]
      · simp [remaining, Store.get_set_ne _ _ _ _ hxy]
  | deliver id v => exact absurd rfl (ha id v)

/-- A delivery removes one Internal node of `x` when it is for a pending task of `x`, and
none otherwise. -/
theorem remaining_step_deliver (ParseAST : String → Except String (Node V))
    (o : Orchestrator V) (hinv : Inv o) (id : String) (v : V) (x : String) :
    remaining (step ParseAST o (.deliver id v)) x + (if pending o x id then 1 else 0) =
      remaining o x := by
  simp only [step]
  by_cases hp : pending o x id = true
  · obtain ⟨task, e, h1, h2, hid, hx, hleaf⟩ := (pending_iff o x id).1 hp
    subst hx
    rw [PostTaskHandler_ok o id v task e hid h1 h2, remaining_passOver]
    simp only [if_true, hp]
    rw [internalCount_setLeaf v e.AST task.Node (hinv.2.good _ e h2) hleaf
      (task_marked o hinv.1 id task e h1 h2)]
    simp [remaining, h2]
  · simp only [hp, if_false, Nat.add_zero, Bool.false_eq_true]
    rcases PostTaskHandler_cases o id v with h | ⟨task, e0, hid, h1, h2⟩
    · rw [h]
    · rw [PostTaskHandler_ok o id v task e0 hid h1 h2, remaining_passOver]
      by_cases hxy : x = task.ExprID
      · subst hxy
        simp only [if_true]
        have hleaf : (e0.AST.get task.Node).IsLeaf = true := by
          cases hl : (e0.AST.get task.Node).IsLeaf with
          | true => rfl
          | false => exact absurd ((pending_iff o _ id).2 ⟨task, e0, h1, h2, hid, rfl, hl⟩) hp
        rw [internalCount_setLeaf_leaf v e0.AST task.Node hleaf]
        simp [remaining, h2]
      · simp [hxy]

/-- Along a run the Internal nodes of `x` that are gone are as many as the results
delivered for pending tasks of `x`. -/
theorem remaining_run (ParseAST : String → Except String (Node V))
    (hparse : ∀ s t, ParseAST s = .ok t → t.parsed = true) (x : String)
    (acts : List (Action V)) : ∀ o : Orchestrator V, Inv o →
    (∃ e, o.exprStore.get x = some e) →
    remaining (run ParseAST o acts) x + pendingDeliveries ParseAST x o acts = remaining o x := by
  induction acts with
  | nil => intro o _ _; rfl
  | cons a acts ih =>
    intro o hinv hx
    have hinv1 := Inv_step ParseAST hparse o hinv a
    have hx1 := stored_step ParseAST o a x hx
    have h := ih (step ParseAST o a) hinv1 hx1
    have hrun : run ParseAST o (a :: acts) = run ParseAST (step ParseAST o a) acts := rfl
    rw [hrun]
    cases a with
    | deliver id v =>
      have h2 := remaining_step_deliver ParseAST o hinv id v x
      simp only [pendingDeliveries]
      omega
    | submit userID text =>
      have h2 := remaining_step_other ParseAST o hinv (.submit userID text) x hx
        (fun _ _ hh => Action.noConfusion hh)
      simp only [pendingDeliveries]
      omega
    | schedule y =>
      have h2 := remaining_step_other ParseAST o hinv (.schedule y) x hx
        (fun _ _ hh => Action.noConfusion hh)
      simp only [pendingDeliveries]
      omega
    | pull =>
      have h2 := remaining_step_other ParseAST o hinv .pull x hx
        (fun _ _ hh => Action.noConfusion hh)
      simp only [pendingDeliveries]
      omega

/-- While the root of a stored expression is Internal, one of its tasks is pending. -/
theorem exists_pending (o : Orchestrator V) (hinv : Inv o) (x : String)
    (e : Expression V) (he : o.exprStore.get x = some e) (hroot : e.AST.IsLeaf = false) :
    ∃ id, pending o x id = true := by
  obtain ⟨p, hp1, hp2⟩ := exists_marked_internal e.AST (hinv.2.good x e he)
    (hinv.2.closed x e he) hroot
  have hrefs := hinv.1.refs x e he p
  rw [hp2] at hrefs
  have hpos : 0 < taskRefs o x p := by rw [hrefs]; decide
  simp only [taskRefs, List.countP_pos_iff] at hpos
  obtain ⟨kt, hkt, hk⟩ := hpos
  simp only [decide_eq_true_eq] at hk
  have hget : o.taskStore.get kt.1 = some kt.2 :=
    Store.get_of_mem kt.1 kt.2 o.taskStore hinv.1.taskNodup hkt
  obtain ⟨n, _, hn⟩ := hinv.1.taskKeys kt hkt
  refine ⟨kt.1, (pending_iff o x kt.1).2 ⟨kt.2, e, hget, he, ?_, hk.1, ?_⟩⟩
  · rw [hn]; exact toString_nat_ne_empty n
  · rw [hk.2]; exact hp1

/-- The state after the submission of a text that parses to `t`. -/
theorem submit_state (ParseAST : String → Except String (Node V))
    (o : Orchestrator V) (userID : Int) (text : String) (t : Node V) (htext : text ≠ "")
    (hp : ParseAST text = .ok t) :
    ∃ e, (step ParseAST o (.submit userID text)).exprStore.get
        (Itoa ((o.Database.lastExprID + 1 : Nat) : Int)) = some e ∧ e.AST = markAll t := by
  simp only [step]
  rw [CalculateHandler_ok ParseAST o userID text t htext hp]
  exact ⟨_, passOver_get_self _ _ _ _ _ _ _, rfl⟩

theorem stored_run (ParseAST : String → Except String (Node V)) (x : String)
    (acts : List (Action V)) : ∀ o : Orchestrator V, (∃ e, o.exprStore.get x = some e) →
    ∃ e, (run ParseAST o acts).exprStore.get x = some e := by
  induction acts with
  | nil => intro o h; exact h
  | cons a acts ih => intro o h; exact ih _ (stored_step ParseAST o a x h)

/-- C7 (amended). Progress: after the submission of a text that parses to a tree `t` with
`N` Internal nodes, along every run of the orchestrator at most `N` results are delivered
for pending tasks of the expression, its root is a Leaf exactly when `N` such results have
been delivered, and as long as its root is not a Leaf one of its tasks is pending. -/
theorem progress_exactly_N (ParseAST : String → Except String (Node V))
    (hparse : ∀ s t, ParseAST s = .ok t → t.parsed = true)
    (cfg : Config) (db : DataBase V) (pre : List (Action V)) (userID : Int) (text : String)
    (t : Node V) (htext : text ≠ "") (hp : ParseAST text = .ok t) (acts : List (Action V)) :
    pendingDeliveries ParseAST
        (Itoa (((run ParseAST (NewOrchestrator cfg db) pre).Database.lastExprID + 1 : Nat) : Int))
        (step ParseAST (run ParseAST (NewOrchestrator cfg db) pre) (.submit userID text)) acts ≤
      t.internalCount ∧
    (rootIsLeaf
        (run ParseAST
          (step ParseAST (run ParseAST (NewOrchestrator cfg db) pre) (.submit userID text)) acts)
        (Itoa (((run ParseAST (NewOrchestrator cfg db) pre).Database.lastExprID + 1 : Nat) : Int))
        = true ↔
      pendingDeliveries ParseAST
        (Itoa (((run ParseAST (NewOrchestrator cfg db) pre).Database.lastExprID + 1 : Nat) : Int))
        (step ParseAST (run ParseAST (NewOrchestrator cfg db) pre) (.submit userID text)) acts =
      t.internalCount) ∧
    (rootIsLeaf
        (run ParseAST
          (step ParseAST (run ParseAST (NewOrchestrator cfg db) pre) (.submit userID text)) acts)
        (Itoa (((run ParseAST (NewOrchestrator cfg db) pre).Database.lastExprID + 1 : Nat) : Int))
        = false →
      ∃ id, pending
        (run ParseAST
          (step ParseAST (run ParseAST (NewOrchestrator cfg db) pre) (.submit userID text)) acts)
        (Itoa (((run ParseAST (NewOrchestrator cfg db) pre).Database.lastExprID + 1 : Nat) : Int))
        id = true) := by
  generalize hx : Itoa (((run ParseAST (NewOrchestrator cfg db) pre).Database.lastExprID + 1
    : Nat) : Int) = x
  have hinv0 := Inv_run ParseAST hparse pre _ (Inv_start cfg db)
  have hinv1 := Inv_step ParseAST hparse _ hinv0 (.submit userID text)
  obtain ⟨e1, he1, hast⟩ := submit_state ParseAST _ userID text t htext hp
  rw [hx] at he1
  have hrem1 : remaining (step ParseAST (run ParseAST (NewOrchestrator cfg db) pre)
      (.submit userID text)) x = t.internalCount := by
    simp [remaining, he1, hast, internalCount_markAll]
  have hrun := remaining_run ParseAST hparse x acts _ hinv1 ⟨e1, he1⟩
  rw [hrem1] at hrun
  have hinv2 := Inv_run ParseAST hparse acts _ hinv1
  obtain ⟨e2, he2⟩ := stored_run ParseAST x acts _ ⟨e1, he1⟩
  have hrem2 : remaining (run ParseAST (step ParseAST (run ParseAST (NewOrchestrator cfg db) pre)
      (.submit userID text)) acts) x = e2.AST.internalCount := by
    simp [remaining, he2]
  have hroot : rootIsLeaf (run ParseAST (step ParseAST
      (run ParseAST (NewOrchestrator cfg db) pre) (.submit userID text)) acts) x =
      e2.AST.IsLeaf := by
    simp [rootIsLeaf, he2]
  have hiff := good_IsLeaf_iff e2.AST (hinv2.2.good x e2 he2)
  rw [hrem2] at hrun
  refine ⟨by omega, ?_, ?_⟩
  · rw [hroot, hiff]; omega
  · rw [hroot]
    intro hl
    exact exists_pending _ hinv2 x e2 he2 hl

/-- Witness of C7: the two deliveries that complete `2+3*4`. -/
theorem progress_exactly_N_witness :
    (∀ s t, sampleParse s = .ok t → t.parsed = true) ∧ "2+3*4" ≠ "" ∧
    sampleParse "2+3*4" = .ok tree_2_plus_3_times_4 ∧
    pendingDeliveries sampleParse "1" scenarioA1 [.deliver "1" 12, .deliver "2" 14] ≤
      tree_2_plus_3_times_4.internalCount ∧
    (rootIsLeaf (run sampleParse scenarioA1 [.deliver "1" 12, .deliver "2" 14]) "1" = true ↔
      pendingDeliveries sampleParse "1" scenarioA1 [.deliver "1" 12, .deliver "2" 14] =
        tree_2_plus_3_times_4.internalCount) ∧
    (rootIsLeaf (run sampleParse scenarioA1 [.deliver "1" 12, .deliver "2" 14]) "1" = false →
      ∃ id, pending (run sampleParse scenarioA1 [.deliver "1" 12, .deliver "2" 14]) "1" id
        = true) :=
  ⟨sampleParse_parsed, by decide, rfl,
    progress_exactly_N sampleParse sampleParse_parsed sampleConfig ⟨[], 0⟩ [] 1 "2+3*4"
      tree_2_plus_3_times_4 (by decide) rfl [.deliver "1" 12, .deliver "2" 14]⟩

/-- C7 as stated fails: the tree of `2+3` has one Internal node, and with no result
delivered (scheduling passes only) its root is not a Leaf; it is one after one result. -/
theorem progress_bound_counterexample :
    sampleParse "2+3" = .ok (opNode "+" (numLeaf 2) (numLeaf 3)) ∧
    (opNode "+" (numLeaf 2) (numLeaf 3)).internalCount = 1 ∧
    rootIsLeaf (run sampleParse sampleStart [.submit 1 "2+3"]) "1" = false ∧
    run sampleParse sampleStart [.submit 1 "2+3", .schedule "1"] =
      run sampleParse sampleStart [.submit 1 "2+3"] ∧
    pendingDeliveries sampleParse "1" (run sampleParse sampleStart [.submit 1 "2+3"])
      [.schedule "1", .deliver "1" 5] = 1 ∧
    rootIsLeaf (run sampleParse sampleStart [.submit 1 "2+3", .schedule "1", .deliver "1" 5])
      "1" = true := by
  refine ⟨rfl, by decide, by decide, by decide, by decide, by decide⟩

/-! ## Order independence -/

theorem Node.child_get (t : Node V) (p : Path) (d : Dir) :
    (t.get p).child d = t.get (p ++ [d]) := by
  rw [Node.get_append]; rfl

theorem eval_markAll (f : String → V → V → V) (t : Node V) :
    (markAll t).eval f = t.eval f := by
  induction t with
  | null => rfl
  | mk isLeaf v op l r sched ihl ihr =>
    cases isLeaf with
    | true => rfl
    | false => simp [markAll, Node.eval, ihl, ihr]

theorem eval_of_IsLeaf (f : String → V → V → V) (t : Node V) (h : t.IsLeaf = true) :
    t.eval f = t.Value? := by
  cases t with
  | null => simp [Node.IsLeaf] at h
  | mk isLeaf v op l r sched =>
    simp only [Node.IsLeaf] at h
    subst h
    rfl

theorem eval_of_leafValue? (f : String → V → V → V) (t : Node V) (a : V)
    (h : t.leafValue? = some a) : t.eval f = some a := by
  have h1 := leafValue?_Value? t a h
  rw [eval_of_IsLeaf f t h1.2, h1.1]

/-- The value of an Internal node whose children are Leaves. -/
theorem eval_ready (f : String → V → V → V) (n : Node V) (a1 a2 : V)
    (hleaf : n.IsLeaf = false) (h1 : (n.child Dir.L).leafValue? = some a1)
    (h2 : (n.child Dir.R).leafValue? = some a2) :
    n.eval f = some (f n.Operator a1 a2) := by
  cases n with
  | null => simp [Node.child, Node.leafValue?] at h1
  | mk isLeaf v op l r sched =>
    simp only [Node.IsLeaf] at hleaf
    subst hleaf
    simp only [Node.child] at h1 h2
    simp [Node.eval, eval_of_leafValue? f l a1 h1, eval_of_leafValue? f r a2 h2, Node.Operator]

/-- A collapse to the value of the collapsed subtree leaves the value of the tree. -/
theorem eval_setLeaf (f : String → V → V → V) (v : V) (t : Node V) : ∀ p : Path,
    (t.get p).eval f = some v → (t.setLeaf v p).eval f = t.eval f := by
  induction t with
  | null => intro p h; rfl
  | mk isLeaf v1 op l r sched ihl ihr =>
    intro p h
    cases p with
    | nil =>
      simp only [Node.get] at h
      simp [Node.setLeaf, Node.eval, h]
    | cons d p =>
      cases d with
      | L =>
        have := ihl p (by simpa [Node.get, Node.child] using h)
        cases isLeaf <;> simp [Node.setLeaf, Node.eval, this]
      | R =>
        have := ihr p (by simpa [Node.get, Node.child] using h)
        cases isLeaf <;> simp [Node.setLeaf, Node.eval, this]

/-- A result equal to the value a Leaf already has leaves the tree as it is. -/
theorem setLeaf_same (v : V) (t : Node V) : ∀ p : Path, (t.get p).IsLeaf = true →
    (t.get p).Value? = some v → t.setLeaf v p = t := by
  induction t with
  | null => intro p _ _; rfl
  | mk isLeaf v1 op l r sched ihl ihr =>
    intro p h1 h2
    cases p with
    | nil =>
      simp only [Node.get, Node.IsLeaf, Node.Value?, Option.some.injEq] at h1 h2
      subst h1 h2
      rfl
    | cons d p =>
      cases d with
      | L =>
        have := ihl p (by simpa [Node.get, Node.child] using h1)
          (by simpa [Node.get, Node.child] using h2)
        simp [Node.setLeaf, this]
      | R =>
        have := ihr p (by simpa [Node.get, Node.child] using h1)
          (by simpa [Node.get, Node.child] using h2)
        simp [Node.setLeaf, this]

theorem leafValue?_markAll_get (t : Node V) (p : Path) :
    ((markAll t).get p).leafValue? = (t.get p).leafValue? := by
  rw [Node.leafValue?_eq, Node.leafValue?_eq, (markAll_data t p).1, (markAll_data t p).2.1]

theorem taskOK_markAll (f : String → V → V → V) (t : Node V) (task : Task V)
    (h : taskOK f t task) : taskOK f (markAll t) task := by
  unfold taskOK at h ⊢
  simp only [leafValue?_markAll_get, (markAll_data t task.Node).1,
    (markAll_data t task.Node).2.1, (markAll_data t task.Node).2.2.1]
  exact h

theorem qualifies_not_leaf (n : Node V) (h : n.qualifies = true) : n.IsLeaf = false := by
  cases n with
  | null => rfl
  | mk isLeaf v op l r sched =>
    cases isLeaf with
    | false => rfl
    | true => simp [Node.qualifies, Node.ready] at h

/-- A task emitted by a pass over `t` agrees with `t`. -/
theorem taskOK_emitted (f : String → V → V → V) (t : Node V) (cfg : Config)
    (eid uid : String) (k : Nat) (e : Emission V) (he : e ∈ emissions [] t) :
    taskOK f t (taskOf cfg eid uid k e) := by
  obtain ⟨h1, h2, h3, _, h5⟩ := mem_emissions t e he
  have hleaf := qualifies_not_leaf _ h5
  unfold taskOK
  simp only [taskOf]
  refine ⟨fun _ => ⟨?_, ?_, h3⟩, fun h => ?_⟩
  · rw [← Node.child_get]; exact h1
  · rw [← Node.child_get]; exact h2
  · rw [hleaf] at h; exact Bool.noConfusion h

theorem leafValue?_setLeaf_other (v : V) (t : Node V) (p q : Path) (h : q ≠ p) :
    ((t.setLeaf v p).get q).leafValue? = (t.get q).leafValue? := by
  rw [Node.leafValue?_eq, Node.leafValue?_eq, (setLeaf_other v t p q h).1,
    (setLeaf_other v t p q h).2]

/-- The tasks that agree with a tree agree with it after the collapse of an Internal node
to the value `f` computes for a task of that node. -/
theorem taskOK_setLeaf (f : String → V → V → V) (t : Node V) (task0 task : Task V)
    (h0 : taskOK f t task0) (hleaf : (t.get task0.Node).IsLeaf = false)
    (h : taskOK f t task) :
    taskOK f (t.setLeaf (f task0.Operation task0.Arg1 task0.Arg2) task0.Node) task := by
  obtain ⟨ha, hb, hc⟩ := h0.1 hleaf
  have hnn : (t.get task0.Node).notNil = true := by
    cases hn : t.get task0.Node with
    | null =>
      rw [← Node.child_get, hn] at ha
      simp [Node.child, Node.leafValue?] at ha
    | mk _ _ _ _ _ _ => rfl
  by_cases hq : task.Node = task0.Node
  · unfold taskOK
    rw [hq]
    have hs := setLeaf_self (f task0.Operation task0.Arg1 task0.Arg2) t task0.Node hnn
    refine ⟨fun hl => ?_, fun _ => ?_⟩
    · rw [hs.1] at hl; exact Bool.noConfusion hl
    · rw [hs.2]
      have h1 := h.1 (by rw [hq]; exact hleaf)
      rw [hq] at h1
      have e1 : task.Arg1 = task0.Arg1 := Option.some.inj (h1.1.symm.trans ha)
      have e2 : task.Arg2 = task0.Arg2 := Option.some.inj (h1.2.1.symm.trans hb)
      have e3 : task.Operation = task0.Operation := h1.2.2.symm.trans hc
      rw [e1, e2, e3]
  · have hso := setLeaf_other (f task0.Operation task0.Arg1 task0.Arg2) t task0.Node
      task.Node hq
    have hfr := setLeaf_frame (f task0.Operation task0.Arg1 task0.Arg2) t task0.Node task.Node
    unfold taskOK
    rw [hso.1, hso.2, hfr.2.1]
    refine ⟨fun hl => ?_, h.2⟩
    obtain ⟨h1, h2, h3⟩ := h.1 hl
    have hchild : ∀ (d : Dir) (a : V), (t.get (task.Node ++ [d])).leafValue? = some a →
        ((t.setLeaf (f task0.Operation task0.Arg1 task0.Arg2) task0.Node).get
          (task.Node ++ [d])).leafValue? = some a := by
      intro d a hd
      by_cases hp : task.Node ++ [d] = task0.Node
      · exfalso
        rw [hp] at hd
        have := (leafValue?_Value? _ _ hd).2
        rw [hleaf] at this
        exact Bool.noConfusion this
      · rw [leafValue?_setLeaf_other _ _ _ _ hp]; exact hd
    exact ⟨hchild _ _ h1, hchild _ _ h2, h3⟩

/-- The invariant of honest runs after a pass over a tree of `x` with the value of `t0`
that the tasks of `x` agree with. -/
theorem honestInv_passOver_self (f : String → V → V → V) (o : Orchestrator V) (x : String)
    (e : Expression V) (t : Node V) (st : String) (res : ResultPtr) (db : DataBase V)
    (t0 : Node V) (hinv : Inv1 o) (hev : t.eval f = t0.eval f)
    (hok : ∀ kt ∈ o.taskStore, kt.2.ExprID = x → taskOK f t kt.2) :
    honestInv f (passOver o x e t st res db) x t0 := by
  refine ⟨_, passOver_get_self _ _ _ _ _ _ _, by simp [eval_markAll, hev], ?_⟩
  intro kt hkt hx
  rw [passOver_taskStore o x e t st res db hinv.taskKeys] at hkt
  apply taskOK_markAll
  rcases List.mem_append.1 hkt with h | h
  · exact hok kt h hx
  · obtain ⟨t1, ht1, rfl⟩ := List.mem_map.1 h
    obtain ⟨e1, he1, k, _, _, rfl⟩ := mem_tasksOf _ _ _ _ _ _ ht1
    exact taskOK_emitted f t _ _ _ _ e1 he1

/-- The invariant of honest runs for `x` after a pass for another expression. -/
theorem honestInv_passOver_other (f : String → V → V → V) (o : Orchestrator V)
    (x y : String) (e : Expression V) (t : Node V) (st : String) (res : ResultPtr)
    (db : DataBase V) (t0 : Node V) (hinv : Inv1 o) (hid : e.ID = y) (hxy : x ≠ y)
    (h : honestInv f o x t0) : honestInv f (passOver o y e t st res db) x t0 := by
  obtain ⟨e1, he1, hev, hok⟩ := h
  refine ⟨e1, by rw [passOver_get_other _ _ _ _ _ _ _ _ hxy]; exact he1, hev, ?_⟩
  intro kt hkt hx
  rw [passOver_taskStore o y e t st res db hinv.taskKeys] at hkt
  rcases List.mem_append.1 hkt with h | h
  · exact hok kt h hx
  · exfalso
    obtain ⟨t1, ht1, rfl⟩ := List.mem_map.1 h
    obtain ⟨e2, _, k, _, _, rfl⟩ := mem_tasksOf _ _ _ _ _ _ ht1
    simp only [taskOf] at hx
    exact hxy (hx.symm.trans hid)

/-- The invariant of honest runs survives an action whose delivery, if it is one for a task
of `x`, carries the value `f` computes for the task. -/
theorem honestInv_step (ParseAST : String → Except String (Node V))
    (f : String → V → V → V) (o : Orchestrator V) (hinv : Inv o) (x : String) (t0 : Node V)
    (a : Action V) (h : honestInv f o x t0)
    (ha : ∀ id v, a = .deliver id v → ∀ task, o.taskStore.get id = some task →
      task.ExprID = x → v = f task.Operation task.Arg1 task.Arg2) :
    honestInv f (step ParseAST o a) x t0 := by
  obtain ⟨e, he, hev, hok⟩ := h
  have hself : ∀ (st : String) (res : ResultPtr) (db : DataBase V),
      honestInv f (passOver o x e e.AST st res db) x t0 :=
    fun st res db => honestInv_passOver_self f o x e e.AST st res db t0 hinv.1 hev hok
  cases a with
  | submit userID text =>
    simp only [step]
    by_cases htext : text = ""
    · have hsame : (CalculateHandler ParseAST o userID text).1 = o := by
        simp [CalculateHandler, htext]
      rw [hsame]; exact ⟨e, he, hev, hok⟩
    · cases hp : ParseAST text with
      | error err =>
        obtain ⟨db, _, h1⟩ := CalculateHandler_error ParseAST o userID text err hp
        rw [h1]; exact ⟨e, he, hev, hok⟩
      | ok t =>
        rw [CalculateHandler_ok ParseAST o userID text t htext hp]
        have hne : x ≠ Itoa ((o.Database.lastExprID + 1 : Nat) : Int) := by
          intro hh
          rw [hh, Inv1_key_fresh o hinv.1] at he
          exact Option.noConfusion he
        exact honestInv_passOver_other f o x _ _ t _ _ _ t0 hinv.1 rfl hne ⟨e, he, hev, hok⟩
  | schedule y =>
    simp only [step]
    cases hy : o.exprStore.get y with
    | none =>
      have hsame : scheduleStored o y = o := by simp [scheduleStored, hy]
      rw [hsame]; exact ⟨e, he, hev, hok⟩
    | some e1 =>
      rw [scheduleStored_eq o y e1 hy]
      by_cases hxy : x = y
      · subst hxy
        rw [he] at hy
        cases hy
        exact hself _ _ _
      · exact honestInv_passOver_other f o x y e1 _ _ _ _ t0 hinv.1
          (Inv1_stored_ID o hinv.1 y e1 hy) hxy ⟨e, he, hev, hok⟩
  | pull =>
    simp only [step]
    rcases GetTaskHandler_cases o with h1 | ⟨task, rest, _, _, h1⟩ | ⟨task, rest, e1, _, he1, h1⟩
    · rw [h1]; exact ⟨e, he, hev, hok⟩
    · rw [h1]; exact ⟨e, he, hev, hok⟩
    · rw [h1]
      by_cases hxy : x = task.ExprID
      · subst hxy
        rw [he] at he1
        cases he1
        exact ⟨_, Store.get_set_self _ _ _, hev, hok⟩
      · exact ⟨e, by simp only [Store.get_set_ne _ _ _ _ hxy]; exact he, hev, hok⟩
  | deliver id v =>
    simp only [step]
    rcases PostTaskHandler_cases o id v with h1 | ⟨task, e0, hid, h1, h2⟩
    · rw [h1]; exact ⟨e, he, hev, hok⟩
    · rw [PostTaskHandler_ok o id v task e0 hid h1 h2]
      by_cases hxy : x = task.ExprID
      · subst hxy
        rw [he] at h2
        cases h2
        have hv := ha id v rfl task h1 rfl
        have htask : taskOK f e.AST task := hok (id, task) (Store.mem_of_get _ _ _ h1) rfl
        cases hleaf : (e.AST.get task.Node).IsLeaf with
        | true =>
          have hval := htask.2 hleaf
          rw [← hv] at hval
          rw [setLeaf_same v e.AST task.Node hleaf hval]
          exact hself _ _ _
        | false =>
          obtain ⟨c1, c2, c3⟩ := htask.1 hleaf
          have hnode : (e.AST.get task.Node).eval f = some v := by
            rw [eval_ready f _ task.Arg1 task.Arg2 hleaf (by rw [Node.child_get]; exact c1)
              (by rw [Node.child_get]; exact c2), c3, hv]
          refine honestInv_passOver_self f o _ e _ _ _ _ t0 hinv.1 ?_ ?_
          · rw [eval_setLeaf f v e.AST task.Node hnode]; exact hev
          · intro kt hkt hx
            rw [hv]
            exact taskOK_setLeaf f e.AST task kt.2 htask hleaf (hok kt hkt hx)
      · exact honestInv_passOver_other f o x _ e0 _ _ _ _ t0 hinv.1
          (Inv1_stored_ID o hinv.1 _ e0 h2) hxy ⟨e, he, hev, hok⟩

theorem honestInv_run (ParseAST : String → Except String (Node V))
    (hparse : ∀ s t, ParseAST s = .ok t → t.parsed = true)
    (f : String → V → V → V) (x : String) (t0 : Node V) (acts : List (Action V)) :
    ∀ o : Orchestrator V, Inv o → honestInv f o x t0 → honest ParseAST f x o acts →
      honestInv f (run ParseAST o acts) x t0 := by
  induction acts with
  | nil => intro o _ h _; exact h
  | cons a acts ih =>
    intro o hinv h hh
    have hinv1 := Inv_step ParseAST hparse o hinv a
    cases a with
    | deliver id v =>
      simp only [honest] at hh
      refine ih _ hinv1 (honestInv_step ParseAST f o hinv x t0 _ h ?_) hh.2
      intro id1 v1 heq task ht hx
      cases heq
      exact hh.1 task ht hx
    | submit userID text =>
      simp only [honest] at hh
      exact ih _ hinv1 (honestInv_step ParseAST f o hinv x t0 _ h
        (fun _ _ heq => Action.noConfusion heq)) hh
    | schedule y =>
      simp only [honest] at hh
      exact ih _ hinv1 (honestInv_step ParseAST f o hinv x t0 _ h
        (fun _ _ heq => Action.noConfusion heq)) hh
    | pull =>
      simp only [honest] at hh
      exact ih _ hinv1 (honestInv_step ParseAST f o hinv x t0 _ h
        (fun _ _ heq => Action.noConfusion heq)) hh

/-- The invariant of honest runs holds right after the submission. -/
theorem honestInv_submit (ParseAST : String → Except String (Node V))
    (f : String → V → V → V) (o : Orchestrator V) (hinv : Inv o) (userID : Int)
    (text : String) (t : Node V) (htext : text ≠ "") (hp : ParseAST text = .ok t) :
    honestInv f (step ParseAST o (.submit userID text))
      (Itoa ((o.Database.lastExprID + 1 : Nat) : Int)) t := by
  simp only [step]
  rw [CalculateHandler_ok ParseAST o userID text t htext hp]
  refine honestInv_passOver_self f o _ _ t _ _ _ t hinv.1 rfl ?_
  intro kt hkt hx
  exfalso
  obtain ⟨e2, he2⟩ := hinv.1.taskExpr kt hkt
  rw [hx, Inv1_key_fresh o hinv.1] at he2
  exact Option.noConfusion he2

/-- The root value of a completed expression in an honest run is the value of the
submitted tree. -/
theorem honest_root_value (ParseAST : String → Except String (Node V))
    (hparse : ∀ s t, ParseAST s = .ok t → t.parsed = true)
    (f : String → V → V → V) (o : Orchestrator V) (hinv : Inv o) (userID : Int)
    (text : String) (t : Node V) (htext : text ≠ "") (hp : ParseAST text = .ok t)
    (acts : List (Action V))
    (hh : honest ParseAST f (Itoa ((o.Database.lastExprID + 1 : Nat) : Int))
      (step ParseAST o (.submit userID text)) acts)
    (hl : rootIsLeaf (run ParseAST (step ParseAST o (.submit userID text)) acts)
      (Itoa ((o.Database.lastExprID + 1 : Nat) : Int)) = true) :
    rootValue (run ParseAST (step ParseAST o (.submit userID text)) acts)
      (Itoa ((o.Database.lastExprID + 1 : Nat) : Int)) = t.eval f := by
  have hinv1 := Inv_step ParseAST hparse o hinv (.submit userID text)
  obtain ⟨e, he, hev, _⟩ := honestInv_run ParseAST hparse f _ t acts _ hinv1
    (honestInv_submit ParseAST f o hinv userID text t htext hp) hh
  simp only [rootIsLeaf, he] at hl
  simp only [rootValue, he]
  rw [← hev, eval_of_IsLeaf f e.AST hl]

theorem honest_deliver (ParseAST : String → Except String (Node V))
    (f : String → V → V → V) (x : String) (o : Orchestrator V) (id : String) (v : V)
    (acts : List (Action V)) (task : Task V) (hget : o.taskStore.get id = some task)
    (hv : v = f task.Operation task.Arg1 task.Arg2)
    (hrest : honest ParseAST f x (step ParseAST o (.deliver id v)) acts) :
    honest ParseAST f x o (.deliver id v :: acts) := by
  refine ⟨?_, hrest⟩
  intro task1 h1 _
  rw [hget] at h1
  cases h1
  exact hv

/-- C8. Order independence: after the submission of a text that parses to `t`, any two
runs in which every result delivered for a task of the expression is the value `f` computes
from the operator and the operands of the task, and which both end with the root a Leaf,
end with the same root value, the value of `t` under `f`; so the order in which pending
results are delivered does not matter. -/
theorem order_independence (ParseAST : String → Except String (Node V))
    (hparse : ∀ s t, ParseAST s = .ok t → t.parsed = true)
    (f : String → V → V → V) (cfg : Config) (db : DataBase V) (pre : List (Action V))
    (userID : Int) (text : String) (t : Node V) (htext : text ≠ "")
    (hp : ParseAST text = .ok t) (acts1 acts2 : List (Action V))
    (h1 : honest ParseAST f
      (Itoa (((run ParseAST (NewOrchestrator cfg db) pre).Database.lastExprID + 1 : Nat) : Int))
      (step ParseAST (run ParseAST (NewOrchestrator cfg db) pre) (.submit userID text)) acts1)
    (h2 : honest ParseAST f
      (Itoa (((run ParseAST (NewOrchestrator cfg db) pre).Database.lastExprID + 1 : Nat) : Int))
      (step ParseAST (run ParseAST (NewOrchestrator cfg db) pre) (.submit userID text)) acts2)
    (hl1 : rootIsLeaf
      (run ParseAST
        (step ParseAST (run ParseAST (NewOrchestrator cfg db) pre) (.submit userID text)) acts1)
      (Itoa (((run ParseAST (NewOrchestrator cfg db) pre).Database.lastExprID + 1 : Nat) : Int))
      = true)
    (hl2 : rootIsLeaf
      (run ParseAST
        (step ParseAST (run ParseAST (NewOrchestrator cfg db) pre) (.submit userID text)) acts2)
      (Itoa (((run ParseAST (NewOrchestrator cfg db) pre).Database.lastExprID + 1 : Nat) : Int))
      = true) :
    rootValue
        (run ParseAST
          (step ParseAST (run ParseAST (NewOrchestrator cfg db) pre) (.submit userID text)) acts1)
        (Itoa (((run ParseAST (NewOrchestrator cfg db) pre).Database.lastExprID + 1 : Nat) : Int))
      = rootValue
        (run ParseAST
          (step ParseAST (run ParseAST (NewOrchestrator cfg db) pre) (.submit userID text)) acts2)
        (Itoa (((run ParseAST (NewOrchestrator cfg db) pre).Database.lastExprID + 1 : Nat) : Int)) ∧
    rootValue
        (run ParseAST
          (step ParseAST (run ParseAST (NewOrchestrator cfg db) pre) (.submit userID text)) acts1)
        (Itoa (((run ParseAST (NewOrchestrator cfg db) pre).Database.lastExprID + 1 : Nat) : Int))
      = t.eval f := by
  have hinv0 := Inv_run ParseAST hparse pre _ (Inv_start cfg db)
  have e1 := honest_root_value ParseAST hparse f _ hinv0 userID text t htext hp acts1 h1 hl1
  have e2 := honest_root_value ParseAST hparse f _ hinv0 userID text t htext hp acts2 h2 hl2
  exact ⟨e1.trans e2.symm, e1⟩

/-- Witness of C8: `(2+3)*(4+5)` with the results of the two `+` tasks delivered in either
order, then the result of `*`. -/
theorem order_independence_witness :
    (∀ s t, sampleParse s = .ok t → t.parsed = true) ∧ "(2+3)*(4+5)" ≠ "" ∧
    sampleParse "(2+3)*(4+5)" = .ok tree_two_ready ∧
    pending scenarioTwoReady "1" "1" = true ∧ pending scenarioTwoReady "1" "2" = true ∧
    honest sampleParse sampleEval "1" scenarioTwoReady
      [.deliver "1" 5, .deliver "2" 9, .deliver "3" 45] ∧
    honest sampleParse sampleEval "1" scenarioTwoReady
      [.deliver "2" 9, .deliver "1" 5, .deliver "3" 45] ∧
    rootIsLeaf (run sampleParse scenarioTwoReady
      [.deliver "1" 5, .deliver "2" 9, .deliver "3" 45]) "1" = true ∧
    rootIsLeaf (run sampleParse scenarioTwoReady
      [.deliver "2" 9, .deliver "1" 5, .deliver "3" 45]) "1" = true ∧
    rootValue (run sampleParse scenarioTwoReady
        [.deliver "1" 5, .deliver "2" 9, .deliver "3" 45]) "1" =
      rootValue (run sampleParse scenarioTwoReady
        [.deliver "2" 9, .deliver "1" 5, .deliver "3" 45]) "1" ∧
    rootValue (run sampleParse scenarioTwoReady
        [.deliver "1" 5, .deliver "2" 9, .deliver "3" 45]) "1" =
      tree_two_ready.eval sampleEval :=
  have ha : honest sampleParse sampleEval "1" scenarioTwoReady
      [.deliver "1" 5, .deliver "2" 9, .deliver "3" 45] :=
    honest_deliver _ _ _ _ _ _ _ (sampleTask "1" "+" 2 3 [Dir.L]) (by decide) (by decide)
      (honest_deliver _ _ _ _ _ _ _ (sampleTask "2" "+" 4 5 [Dir.R]) (by decide) (by decide)
        (honest_deliver _ _ _ _ _ _ _ (sampleTask "3" "*" 5 9 []) (by decide) (by decide)
          trivial))
  have hb : honest sampleParse sampleEval "1" scenarioTwoReady
      [.deliver "2" 9, .deliver "1" 5, .deliver "3" 45] :=
    honest_deliver _ _ _ _ _ _ _ (sampleTask "2" "+" 4 5 [Dir.R]) (by decide) (by decide)
      (honest_deliver _ _ _ _ _ _ _ (sampleTask "1" "+" 2 3 [Dir.L]) (by decide) (by decide)
        (honest_deliver _ _ _ _ _ _ _ (sampleTask "3" "*" 5 9 []) (by decide) (by decide)
          trivial))
  ⟨sampleParse_parsed, by decide, rfl, by decide, by decide, ha, hb, by decide, by decide,
    order_independence sampleParse sampleParse_parsed sampleEval sampleConfig ⟨[], 0⟩ [] 1
      "(2+3)*(4+5)" tree_two_ready (by decide) rfl
      [.deliver "1" 5, .deliver "2" 9, .deliver "3" 45]
      [.deliver "2" 9, .deliver "1" 5, .deliver "3" 45] ha hb (by decide) (by decide)⟩

/-! ## Duplicate results -/

theorem setLeaf_IsLeaf_of_leaf (v : V) (t : Node V) (p : Path)
    (h : (t.get p).IsLeaf = true) : (t.setLeaf v p).IsLeaf = t.IsLeaf := by
  cases t with
  | null => rfl
  | mk isLeaf v1 op l r sched =>
    cases p with
    | nil =>
      simp only [Node.get, Node.IsLeaf] at h
      subst h
      rfl
    | cons d p => cases d <;> rfl

/-- A result for a node that is a Leaf already leaves nothing to emit. -/
theorem markAll_setLeaf_leaf (v : V) (t : Node V) : ∀ p : Path, markAll t = t →
    (t.get p).IsLeaf = true → markAll (t.setLeaf v p) = t.setLeaf v p := by
  induction t with
  | null => intro p _ _; rfl
  | mk isLeaf v1 op l r sched ihl ihr =>
    intro p hc h
    cases p with
    | nil => rfl
    | cons d p =>
      cases isLeaf with
      | true => cases d <;> rfl
      | false =>
        simp only [markAll, Node.mk.injEq, true_and] at hc
        obtain ⟨hcl, hcr, hcs⟩ := hc
        cases d with
        | L =>
          have hl : (l.get p).IsLeaf = true := by simpa [Node.get, Node.child] using h
          simp only [Node.setLeaf, markAll, ihl p hcl hl, hcr, Node.leafValue?_isSome,
            setLeaf_IsLeaf_of_leaf v l p hl]
          simp only [Node.leafValue?_isSome] at hcs
          rw [hcs]
        | R =>
          have hr : (r.get p).IsLeaf = true := by simpa [Node.get, Node.child] using h
          simp only [Node.setLeaf, markAll, ihr p hcr hr, hcl, Node.leafValue?_isSome,
            setLeaf_IsLeaf_of_leaf v r p hr]
          simp only [Node.leafValue?_isSome] at hcs
          rw [hcs]

/-- In a stored tree a Leaf root above a node with a marker has its marker set. -/
theorem good_root_marked (t : Node V) (p : Path) (hg : t.good = true)
    (hl : t.IsLeaf = true) (hm : (t.get p).TaskScheduled = true) :
    t.TaskScheduled = true := by
  cases t with
  | null => simp [Node.good] at hg
  | mk isLeaf v op l r sched =>
    simp only [Node.IsLeaf] at hl
    subst hl
    cases p with
    | nil => exact hm
    | cons d p =>
      simp only [Node.good, Bool.true_and, Bool.not_true, Bool.false_and, Bool.false_or,
        Bool.or_eq_true, Bool.and_eq_true, Bool.not_eq_true'] at hg
      rcases hg with ⟨h1, h2⟩ | ⟨_, hs⟩
      · exfalso
        have hnn := notNil_of_TaskScheduled _ hm
        cases d with
        | L =>
          cases l with
          | null => simp [Node.get, Node.child, Node.get_null, Node.notNil] at hnn
          | mk _ _ _ _ _ _ => simp [Node.notNil] at h1
        | R =>
          cases r with
          | null => simp [Node.get, Node.child, Node.get_null, Node.notNil] at hnn
          | mk _ _ _ _ _ _ => simp [Node.notNil] at h2
      · exact hs

/-- C6 (amended). A second result for a task is not rejected: in every state the
orchestrator reaches, a delivery for a task whose node is a Leaf already (its result has
been applied) is accepted like the first one; it emits no task and leaves the queue, the
lookup table, the counter, the status and the result pointer as they are, and it overwrites
the value of the node of the task with the delivered value, which is also what is
persisted as the result when the node is the root. -/
theorem duplicate_result_reapplied (ParseAST : String → Except String (Node V))
    (hparse : ∀ s t, ParseAST s = .ok t → t.parsed = true)
    (cfg : Config) (db : DataBase V) (acts : List (Action V)) (id : String) (v : V)
    (task : Task V) (e : Expression V) (uid eid : Int) (hid : id ≠ "")
    (htask : (run ParseAST (NewOrchestrator cfg db) acts).taskStore.get id = some task)
    (hexpr : (run ParseAST (NewOrchestrator cfg db) acts).exprStore.get task.ExprID = some e)
    (hleaf : (e.AST.get task.Node).IsLeaf = true)
    (huid : Atoi e.UserID = .ok uid) (heid : Atoi e.ID = .ok eid) :
    (PostTaskHandler (run ParseAST (NewOrchestrator cfg db) acts) id v).2 = .accepted ∧
    (PostTaskHandler (run ParseAST (NewOrchestrator cfg db) acts) id v).1 =
      { run ParseAST (NewOrchestrator cfg db) acts with
        exprStore := (run ParseAST (NewOrchestrator cfg db) acts).exprStore.set task.ExprID
          { e with AST := e.AST.setLeaf v task.Node }
        Database := (run ParseAST (NewOrchestrator cfg db) acts).Database.UpdateExpression
          { UserID := uid, ID := eid, Expression := e.Expr, Status := e.Status,
            Result := Expression.resultValue { e with AST := e.AST.setLeaf v task.Node } } } ∧
    ((e.AST.setLeaf v task.Node).get task.Node).IsLeaf = true ∧
    ((e.AST.setLeaf v task.Node).get task.Node).Value? = some v := by
  generalize ho : run ParseAST (NewOrchestrator cfg db) acts = o at htask hexpr ⊢
  have hinv : Inv o := by
    rw [← ho]; exact Inv_run ParseAST hparse acts _ (Inv_start cfg db)
  have hmark := task_marked o hinv.1 id task e htask hexpr
  have hclosed := markAll_setLeaf_leaf v e.AST task.Node (hinv.2.closed _ e hexpr) hleaf
  have hem : emissions [] (e.AST.setLeaf v task.Node) = [] := by
    rw [← hclosed]; exact emissions_markAll _ _
  have hself := setLeaf_self v e.AST task.Node (notNil_of_TaskScheduled _ hmark)
  refine ⟨?_, ?_, hself.1, hself.2⟩
  · simp only [PostTaskHandler, hid, htask, hexpr, if_false, ScheduleTasks_eq, hclosed]
    cases hT : e.AST.setLeaf v task.Node with
    | null =>
      exfalso
      have := hself.1
      rw [hT, Node.get_null] at this
      exact Bool.noConfusion this
    | mk isLeaf v1 op l r sched => cases isLeaf <;> simp [huid, heid]
  · simp only [PostTaskHandler, hid, htask, hexpr, if_false, ScheduleTasks_eq, hclosed, hem,
      emitAll_nil]
    cases hT : e.AST.setLeaf v task.Node with
    | null =>
      exfalso
      have := hself.1
      rw [hT, Node.get_null] at this
      exact Bool.noConfusion this
    | mk isLeaf v1 op l r sched =>
      cases isLeaf with
      | false => simp [huid, heid, Store.set_set, Expression.resultValue]
      | true =>
        have hroot : e.AST.IsLeaf = true := by
          rw [← setLeaf_IsLeaf_of_leaf v e.AST task.Node hleaf, hT]; rfl
        obtain ⟨hs, hr⟩ := hinv.2.done _ e hexpr hroot
          (good_root_marked e.AST task.Node (hinv.2.good _ e hexpr) hroot hmark)
        simp [huid, heid, Store.set_set, Expression.resultValue, hs, hr]

/-- Witness of C6 (amended): a second result, 15, for the task of the root of `2+3*4`
after the result 14. -/
theorem duplicate_result_reapplied_witness :
    (∀ s t, sampleParse s = .ok t → t.parsed = true) ∧
    run sampleParse sampleStart [.submit 1 "2+3*4", .deliver "1" 12, .deliver "2" 14] =
      scenarioA3 ∧
    (PostTaskHandler scenarioA3 "2" 15).2 = .accepted ∧
    (PostTaskHandler scenarioA3 "2" 15).1 =
      { scenarioA3 with
        exprStore := scenarioA3.exprStore.set "1"
          { ID := "1", Expr := "2+3*4", UserID := "1", Status := "completed",
            Result := .rootValue,
            AST := .mk true 15 "+" (numLeaf 2) (.mk true 12 "*" (numLeaf 3) (numLeaf 4) true)
              true }
        Database := scenarioA3.Database.UpdateExpression
          { UserID := 1, ID := 1, Expression := "2+3*4", Status := "completed",
            Result := some 15 } } :=
  have h := duplicate_result_reapplied sampleParse sampleParse_parsed sampleConfig ⟨[], 0⟩
    [.submit 1 "2+3*4", .deliver "1" 12, .deliver "2" 14] "2" 15
    (sampleTask "2" "+" 2 12 [])
    { ID := "1", Expr := "2+3*4", UserID := "1", Status := "completed", Result := .rootValue,
      AST := .mk true 14 "+" (numLeaf 2) (.mk true 12 "*" (numLeaf 3) (numLeaf 4) true) true }
    1 1 (by decide) (by decide) (by decide) (by decide) rfl rfl
  ⟨sampleParse_parsed, by decide, h.1, h.2.1⟩

/-- C6 as stated fails: after the result 14 for the task of the root of `2+3*4` has been
applied, a second delivery for the same task with the value 15 is accepted, and the root
value and the result of the expression, in memory and in the database, become 15. -/
theorem duplicate_result_counterexample :
    scenarioA3 = (PostTaskHandler scenarioA2 "2" 14).1 ∧
    rootValue scenarioA3 "1" = some 14 ∧
    (scenarioA3.Database.GetExpressionByID 1 1).map (fun r => r.Result) = some (some 14) ∧
    (PostTaskHandler scenarioA3 "2" 15).2 = .accepted ∧
    rootValue (PostTaskHandler scenarioA3 "2" 15).1 "1" = some 15 ∧
    ((PostTaskHandler scenarioA3 "2" 15).1.exprStore.get "1").map
      (fun e => e.resultValue) = some (some 15) ∧
    ((PostTaskHandler scenarioA3 "2" 15).1.Database.GetExpressionByID 1 1).map
      (fun r => r.Result) = some (some 15) := by
  refine ⟨rfl, by decide, by decide, by decide, by decide, by decide, by decide⟩

/-! ## Unknown task -/

/-- C11 (amended). Unknown task: for every task identifier that is not a key of the lookup
table, `PostTaskHandler` changes nothing of the state (queue, lookup table, expressions,
trees, database); it answers 404 `Task not found` when the identifier is not empty and 422
`Invalid Body` when it is empty. -/
theorem PostTaskHandler_unknown_task (o : Orchestrator V) (id : String) (v : V)
    (h : o.taskStore.get id = none) :
    (PostTaskHandler o id v).1 = o ∧
    (id ≠ "" →
      (PostTaskHandler o id v).2 = .error 404 "\x7b\"error\":\"Task not found\"\x7d") ∧
    (id = "" →
      (PostTaskHandler o id v).2 = .error 422 "\x7b\"error\":\"Invalid Body\"\x7d") := by
  refine ⟨?_, ?_, ?_⟩
  · by_cases hid : id = ""
    · simp [PostTaskHandler, hid]
    · simp [PostTaskHandler, hid, h]
  · intro hid
    simp [PostTaskHandler, hid, h]
  · intro hid
    simp [PostTaskHandler, hid]

/-- Witness of C11 (amended): the identifier `7` in Scenario A, where the lookup table has
the keys `1` and `2`. -/
theorem PostTaskHandler_unknown_task_witness :
    scenarioA2.taskStore.get "7" = none ∧
    (PostTaskHandler scenarioA2 "7" 5).1 = scenarioA2 ∧
    ("7" ≠ "" →
      (PostTaskHandler scenarioA2 "7" 5).2 =
        .error 404 "\x7b\"error\":\"Task not found\"\x7d") ∧
    ("7" = "" →
      (PostTaskHandler scenarioA2 "7" 5).2 =
        .error 422 "\x7b\"error\":\"Invalid Body\"\x7d") :=
  ⟨by decide, PostTaskHandler_unknown_task scenarioA2 "7" 5 (by decide)⟩

/-- C11 as stated fails for the empty identifier: it is not a key of the lookup table, and
`PostTaskHandler` answers 422 `Invalid Body`, not 404 `Task not found`. -/
theorem PostTaskHandler_empty_id_counterexample :
    scenarioA2.taskStore.get "" = none ∧
    (PostTaskHandler scenarioA2 "" 5).2 =
      .error 422 "\x7b\"error\":\"Invalid Body\"\x7d" ∧
    (PostTaskHandler scenarioA2 "" 5).2 ≠
      .error 404 "\x7b\"error\":\"Task not found\"\x7d" := by
  refine ⟨by decide, by decide, by decide⟩

/-! ## The queue of the work distributor -/

theorem tasksOf_map_Node (cfg : Config) (eid uid : String) (es : List (Emission V)) :
    ∀ c : Nat, (tasksOf cfg eid uid c es).map (fun t => t.Node) = es.map fun e => e.path := by
  induction es with
  | nil => intro c; rfl
  | cons e es ih => intro c; simp [tasksOf, taskOf, ih (c + 1)]

theorem emittedNodes_eq (o : Orchestrator V) (expr : Expression V) :
    emittedNodes o expr = (emissions [] expr.AST).map fun e => e.path := by
  simp only [emittedNodes]
  rw [ScheduleTasks_TaskQueue, List.drop_left, tasksOf_map_Node]

theorem get_foldl_set_ne (k : String) (ts : List (Task V)) : ∀ m : Store (Task V),
    (∀ t ∈ ts, t.ID ≠ k) →
      Store.get k (ts.foldl (fun m t => Store.set t.ID t m) m) = Store.get k m := by
  induction ts with
  | nil => intro m _; rfl
  | cons t ts ih =>
    intro m h
    simp only [List.foldl_cons]
    rw [ih _ (fun t1 ht1 => h t1 (List.mem_cons_of_mem _ ht1))]
    exact Store.get_set_ne _ _ _ _ (fun hk => h t (List.mem_cons_self _ _) hk.symm)

/-- Every task of a pass is in the lookup table under its identifier after the pass. -/
theorem recorded_tasksOf (cfg : Config) (eid uid : String) (es : List (Emission V)) :
    ∀ (c : Nat) (m : Store (Task V)) (t : Task V), t ∈ tasksOf cfg eid uid c es →
      Store.get t.ID ((tasksOf cfg eid uid c es).foldl (fun m t => Store.set t.ID t m) m) =
        some t := by
  induction es with
  | nil => intro c m t h; simp [tasksOf] at h
  | cons e es ih =>
    intro c m t h
    simp only [tasksOf, List.mem_cons] at h
    simp only [tasksOf, List.foldl_cons]
    rcases h with h | h
    · subst h
      rw [get_foldl_set_ne]
      · exact Store.get_set_self _ _ _
      · intro t1 ht1 hid
        obtain ⟨e1, _, k, hk, _, rfl⟩ := mem_tasksOf _ _ _ _ _ _ ht1
        have : k = c + 1 := toString_nat_injective _ _ hid
        omega
    · exact ih (c + 1) _ t h

theorem GetTaskHandler_head (o : Orchestrator V) (task : Task V) (rest : List (Task V))
    (hq : o.TaskQueue = task :: rest) :
    (GetTaskHandler o).2 = .task task ∧ (GetTaskHandler o).1.TaskQueue = rest ∧
    (GetTaskHandler o).1.taskStore = o.taskStore := by
  unfold GetTaskHandler
  rw [hq]
  cases he : o.exprStore.get task.ExprID <;> simp [he]

theorem GetTaskHandler_empty (o : Orchestrator V) (hq : o.TaskQueue = []) :
    GetTaskHandler o = (o, .error 404 "\x7b\"error\":\"No task available\"\x7d") := by
  unfold GetTaskHandler
  rw [hq]

theorem pulls_empty (k : Nat) : ∀ o : Orchestrator V, o.TaskQueue = [] →
    pulls k o = List.replicate k (.error 404 "\x7b\"error\":\"No task available\"\x7d") := by
  induction k with
  | zero => intro o _; rfl
  | succ k ih =>
    intro o hq
    simp only [pulls, GetTaskHandler_empty o hq, List.replicate_succ]
    rw [ih o hq]

theorem pulls_queue (q : List (Task V)) : ∀ (o : Orchestrator V) (k : Nat),
    o.TaskQueue = q →
      pulls (q.length + k) o =
        q.map Response.task ++
          List.replicate k (.error 404 "\x7b\"error\":\"No task available\"\x7d") := by
  induction q with
  | nil => intro o k hq; simpa using pulls_empty k o hq
  | cons task rest ih =>
    intro o k hq
    obtain ⟨h1, h2, _⟩ := GetTaskHandler_head o task rest hq
    have hlen : (task :: rest).length + k = (rest.length + k) + 1 := by
      simp only [List.length_cons]; omega
    rw [hlen]
    simp only [pulls, h1, List.map_cons, List.cons_append]
    rw [ih _ k h2]

/-- C12. FIFO queue: `ScheduleTasks` keeps the entries of the queue and appends its new
tasks, each of which is then in the lookup table under its identifier; `GetTaskHandler`
answers `No task available` on an empty queue and changes nothing, and on a non-empty queue
answers the head, leaves the rest in order and leaves the lookup table as it is; so
successive pulls answer the queued tasks in the order of the queue, each once, and then
`No task available`; and the tasks of one pass are queued left subtree first, then right
subtree, then the node itself. -/
theorem queue_is_FIFO :
    (∀ (o : Orchestrator V) (expr : Expression V),
      (ScheduleTasks o expr).1.TaskQueue.take o.TaskQueue.length = o.TaskQueue ∧
      ∀ t ∈ (ScheduleTasks o expr).1.TaskQueue.drop o.TaskQueue.length,
        (ScheduleTasks o expr).1.taskStore.get t.ID = some t) ∧
    (∀ o : Orchestrator V, o.TaskQueue = [] →
      GetTaskHandler o = (o, .error 404 "\x7b\"error\":\"No task available\"\x7d")) ∧
    (∀ (o : Orchestrator V) (task : Task V) (rest : List (Task V)),
      o.TaskQueue = task :: rest →
      (GetTaskHandler o).2 = .task task ∧ (GetTaskHandler o).1.TaskQueue = rest ∧
      (GetTaskHandler o).1.taskStore = o.taskStore) ∧
    (∀ (o : Orchestrator V) (k : Nat),
      pulls (o.TaskQueue.length + k) o =
        o.TaskQueue.map Response.task ++
          List.replicate k (.error 404 "\x7b\"error\":\"No task available\"\x7d")) ∧
    (∀ (o : Orchestrator V) (expr : Expression V) (v : V) (op : String) (l r : Node V)
        (sched : Bool),
      emittedNodes o { expr with AST := .mk false v op l r sched } =
        (emittedNodes o { expr with AST := l }).map (List.cons Dir.L) ++
          (emittedNodes o { expr with AST := r }).map (List.cons Dir.R) ++
          (if (Node.mk false v op l r sched).qualifies then [[]] else [])) := by
  refine ⟨?_, GetTaskHandler_empty, GetTaskHandler_head, fun o k => pulls_queue _ o k rfl, ?_⟩
  · intro o expr
    rw [ScheduleTasks_TaskQueue]
    refine ⟨by simp, ?_⟩
    intro t ht
    rw [List.drop_left] at ht
    rw [ScheduleTasks_eq, emitAll_eq]
    exact recorded_tasksOf _ _ _ _ _ _ t ht
  · intro o expr v op l r sched
    simp only [emittedNodes_eq, emissions, List.nil_append, List.map_append]
    rw [emissions_shift l [Dir.L], emissions_shift r [Dir.R]]
    simp only [List.map_map]
    congr 1
    cases hl : l.leafValue? <;> cases hr : r.leafValue? <;> cases sched <;>
      simp [Node.qualifies, Node.ready, Node.TaskScheduled, hl, hr]

/-- Witness of C12: in Scenario A the queue holds the task of `*`, then the task of `+`;
three pulls answer them in that order and then `No task available`. -/
theorem queue_is_FIFO_witness :
    scenarioA2.TaskQueue = [sampleTask "1" "*" 3 4 [Dir.R], sampleTask "2" "+" 2 12 []] ∧
    (GetTaskHandler scenarioA2).2 = .task (sampleTask "1" "*" 3 4 [Dir.R]) ∧
    (GetTaskHandler scenarioA2).1.TaskQueue = [sampleTask "2" "+" 2 12 []] ∧
    (GetTaskHandler scenarioA2).1.taskStore = scenarioA2.taskStore ∧
    pulls (scenarioA2.TaskQueue.length + 1) scenarioA2 =
      scenarioA2.TaskQueue.map Response.task ++
        List.replicate 1 (.error 404 "\x7b\"error\":\"No task available\"\x7d") :=
  ⟨by decide,
    ((queue_is_FIFO (V := Int)).2.2.1 scenarioA2 (sampleTask "1" "*" 3 4 [Dir.R])
      [sampleTask "2" "+" 2 12 []] (by decide)).1,
    ((queue_is_FIFO (V := Int)).2.2.1 scenarioA2 (sampleTask "1" "*" 3 4 [Dir.R])
      [sampleTask "2" "+" 2 12 []] (by decide)).2.1,
    ((queue_is_FIFO (V := Int)).2.2.1 scenarioA2 (sampleTask "1" "*" 3 4 [Dir.R])
      [sampleTask "2" "+" 2 12 []] (by decide)).2.2,
    (queue_is_FIFO (V := Int)).2.2.2.1 scenarioA2 1⟩

/-! ## Configuration -/

/-- The value `strconv.Atoi` returns without error is the value `ConfigFromEnv` reads. -/
theorem AtoiValue_of_Atoi (s : String) (v : Int) (h : Atoi s = .ok v) : AtoiValue s = v := by
  unfold Atoi at h
  unfold AtoiValue
  simp only at h ⊢
  generalize (if s.toList.head? = some '-' ∨ s.toList.head? = some '+' then s.toList.tail
    else s.toList) = ds at h ⊢
  by_cases hsyn : (ds.isEmpty || !ds.all Char.isDigit) = true
  · rw [if_pos hsyn] at h
    cases h
  · rw [if_neg hsyn] at h ⊢
    generalize (if s.toList.head? = some '-' then -(digitsValue 0 ds : Int)
      else (digitsValue 0 ds : Int)) = v0 at h ⊢
    by_cases hrange : v0 < -(2 : Int) ^ 63 ∨ (2 : Int) ^ 63 - 1 < v0
    · rw [if_pos hrange] at h
      cases h
    · rw [if_neg hrange] at h
      rw [not_or] at hrange
      rw [if_neg hrange.1, if_neg hrange.2]
      exact Except.ok.inj h

theorem AtoiValue_empty : AtoiValue "" = 0 := by decide

/-- What one time field of `ConfigFromEnv` is, for the text `s` of its variable. -/
theorem time_field (s : String) :
    (∀ v : Int, Atoi s = .ok v → v ≠ 0 → (if AtoiValue s = 0 then 10 else AtoiValue s) = v) ∧
    (s = "" → (if AtoiValue s = 0 then (10 : Int) else AtoiValue s) = 10) ∧
    (Atoi s = .ok 0 → (if AtoiValue s = 0 then (10 : Int) else AtoiValue s) = 10) := by
  refine ⟨?_, ?_, ?_⟩
  · intro v hv hne
    rw [AtoiValue_of_Atoi s v hv, if_neg hne]
  · intro hs
    rw [hs, AtoiValue_empty]; rfl
  · intro hv
    rw [AtoiValue_of_Atoi s 0 hv]; rfl

/-- C13 (amended). `ConfigFromEnv`: for every environment, `Addr` is `PORT` when `PORT` is
not empty and `8080` otherwise, and each of the four times is the integer value of its
variable when the variable is set to a valid integer other than 0, and the default 10 when
the variable is unset or set to a valid integer that is 0. -/
theorem ConfigFromEnv_fields (Getenv : String → String) :
    (ConfigFromEnv Getenv).Addr = (if Getenv "PORT" ≠ "" then Getenv "PORT" else "8080") ∧
    ((∀ v : Int, Atoi (Getenv "TIME_ADDITION_MS") = .ok v → v ≠ 0 →
        (ConfigFromEnv Getenv).TimeAddition = v) ∧
      (Getenv "TIME_ADDITION_MS" = "" → (ConfigFromEnv Getenv).TimeAddition = 10) ∧
      (Atoi (Getenv "TIME_ADDITION_MS") = .ok 0 → (ConfigFromEnv Getenv).TimeAddition = 10)) ∧
    ((∀ v : Int, Atoi (Getenv "TIME_SUBTRACTION_MS") = .ok v → v ≠ 0 →
        (ConfigFromEnv Getenv).TimeSubtraction = v) ∧
      (Getenv "TIME_SUBTRACTION_MS" = "" → (ConfigFromEnv Getenv).TimeSubtraction = 10) ∧
      (Atoi (Getenv "TIME_SUBTRACTION_MS") = .ok 0 →
        (ConfigFromEnv Getenv).TimeSubtraction = 10)) ∧
    ((∀ v : Int, Atoi (Getenv "TIME_MULTIPLICATIONS_MS") = .ok v → v ≠ 0 →
        (ConfigFromEnv Getenv).TimeMultiplications = v) ∧
      (Getenv "TIME_MULTIPLICATIONS_MS" = "" →
        (ConfigFromEnv Getenv).TimeMultiplications = 10) ∧
      (Atoi (Getenv "TIME_MULTIPLICATIONS_MS") = .ok 0 →
        (ConfigFromEnv Getenv).TimeMultiplications = 10)) ∧
    ((∀ v : Int, Atoi (Getenv "TIME_DIVISIONS_MS") = .ok v → v ≠ 0 →
        (ConfigFromEnv Getenv).TimeDivisions = v) ∧
      (Getenv "TIME_DIVISIONS_MS" = "" → (ConfigFromEnv Getenv).TimeDivisions = 10) ∧
      (Atoi (Getenv "TIME_DIVISIONS_MS") = .ok 0 →
        (ConfigFromEnv Getenv).TimeDivisions = 10)) := by
  refine ⟨?_, time_field _, time_field _, time_field _, time_field _⟩
  simp only [ConfigFromEnv]
  by_cases h : Getenv "PORT" = "" <;> simp [h]

/-- Witness of C13 (amended): the custom values of `TestConfigFromEnv`. -/
theorem ConfigFromEnv_fields_witness :
    (ConfigFromEnv sampleEnv).Addr = "9090" ∧
    Atoi (sampleEnv "TIME_ADDITION_MS") = .ok 20 ∧ (20 : Int) ≠ 0 ∧
    (ConfigFromEnv sampleEnv).TimeAddition = 20 ∧
    (ConfigFromEnv sampleEnv).TimeSubtraction = 30 ∧
    (ConfigFromEnv sampleEnv).TimeMultiplications = 40 ∧
    (ConfigFromEnv sampleEnv).TimeDivisions = 50 ∧
    zeroEnv "TIME_SUBTRACTION_MS" = "" ∧
    (ConfigFromEnv zeroEnv).TimeSubtraction = 10 :=
  ⟨(ConfigFromEnv_fields sampleEnv).1, rfl, by decide,
    (ConfigFromEnv_fields sampleEnv).2.1.1 20 rfl (by decide),
    (ConfigFromEnv_fields sampleEnv).2.2.1.1 30 rfl (by decide),
    (ConfigFromEnv_fields sampleEnv).2.2.2.1.1 40 rfl (by decide),
    (ConfigFromEnv_fields sampleEnv).2.2.2.2.1 50 rfl (by decide),
    rfl, (ConfigFromEnv_fields zeroEnv).2.2.1.2.1 rfl⟩

/-- C13 as stated fails for the text `0`: it is a valid integer, with value 0, and the
time read from it is the default 10. -/
theorem ConfigFromEnv_zero_counterexample :
    zeroEnv "TIME_ADDITION_MS" = "0" ∧ Atoi "0" = .ok 0 ∧
    (ConfigFromEnv zeroEnv).TimeAddition = 10 ∧
    (ConfigFromEnv zeroEnv).TimeAddition ≠ 0 := by
  refine ⟨rfl, rfl, by decide, by decide⟩

/-! ## Status of an expression -/

/-- C14. What a pull does to the status: `GetTaskHandler` on a non-empty queue writes the
status `completed` into the stored expression of the task it hands out, whatever its tree
is.  After the submission of `2+3*4` and one pull the expression is `completed` with an
Internal root and no result, and after the result 12 for the task of `*` that status is
persisted with no result while the root is still Internal. -/
theorem GetTaskHandler_marks_completed :
    (∀ (o : Orchestrator V) (task : Task V) (rest : List (Task V)) (e : Expression V),
      o.TaskQueue = task :: rest → o.exprStore.get task.ExprID = some e →
      (GetTaskHandler o).1.exprStore.get task.ExprID =
        some { e with Status := "completed" }) ∧
    ((scenarioA1.exprStore.get "1").map (fun e => (e.Status, e.AST.IsLeaf, e.resultValue)) =
        some ("pending", false, none) ∧
      ((run sampleParse sampleStart [.submit 1 "2+3*4", .pull]).exprStore.get "1").map
          (fun e => (e.Status, e.AST.IsLeaf, e.resultValue)) =
        some ("completed", false, none) ∧
      ((run sampleParse sampleStart
          [.submit 1 "2+3*4", .pull, .deliver "1" 12]).Database.GetExpressionByID 1 1).map
          (fun r => (r.Status, r.Result)) =
        some ("completed", none) ∧
      rootIsLeaf (run sampleParse sampleStart [.submit 1 "2+3*4", .pull, .deliver "1" 12])
        "1" = false) := by
  refine ⟨?_, by decide, by decide, by decide, by decide⟩
  intro o task rest e hq he
  unfold GetTaskHandler
  rw [hq]
  simp [he, Store.get_set_self]

/-- Witness of C14: the pull of the task of `*` right after the submission of `2+3*4`. -/
theorem GetTaskHandler_marks_completed_witness :
    scenarioA1.TaskQueue = [sampleTask "1" "*" 3 4 [Dir.R]] ∧
    scenarioA1.exprStore.get "1" =
      some { ID := "1", Expr := "2+3*4", UserID := "1", Status := "pending", Result := .nil,
             AST := .mk false 0 "+" (numLeaf 2)
               (.mk false 0 "*" (numLeaf 3) (numLeaf 4) true) false } ∧
    (GetTaskHandler scenarioA1).1.exprStore.get "1" =
      some { ID := "1", Expr := "2+3*4", UserID := "1", Status := "completed", Result := .nil,
             AST := .mk false 0 "+" (numLeaf 2)
               (.mk false 0 "*" (numLeaf 3) (numLeaf 4) true) false } :=
  ⟨by decide, by decide,
    (GetTaskHandler_marks_completed (V := Int)).1 scenarioA1 (sampleTask "1" "*" 3 4 [Dir.R]) []
      { ID := "1", Expr := "2+3*4", UserID := "1", Status := "pending", Result := .nil,
        AST := .mk false 0 "+" (numLeaf 2) (.mk false 0 "*" (numLeaf 3) (numLeaf 4) true) false }
      (by decide) (by decide)⟩

/-! ## Registration and login -/

theorem SelectUser_after_insert (d : UserTable) (login : String) (u : User)
    (hnone : d.SelectUser login = none) (hu : u.Login = login) :
    (List.find? (fun x : User => decide (x.Login = login)) (d.users ++ [u])) = some u := by
  simp only [UserTable.SelectUser] at hnone
  rw [List.find?_append, hnone]
  simp [hu]

theorem any_false_of_SelectUser_none (d : UserTable) (login : String)
    (hnone : d.SelectUser login = none) :
    d.users.any (fun u => decide (u.Login = login)) = false := by
  simp only [UserTable.SelectUser, List.find?_eq_none] at hnone
  rw [List.any_eq_false]
  exact hnone

/-- C15. What `LoginHandler` and the registration do.  For an existing user `LoginHandler`
answers 401 `Invalid credentials` exactly when `CheckCorPass` is true, and hands out the
token exactly when it is false.  `RegisterHandler` stores the hash of the hash of the
password.  With a bcrypt that matches a hash with its password only, the user registered
with `secret` gets a token with `secret` and with `wrong`, and is refused with the first
hash of `secret`. -/
theorem LoginHandler_check_inverted :
    (∀ (b : Bcrypt) (GenJWT : Int → Except String String) (d : UserTable)
        (login password : String) (user : User), d.SelectUser login = some user →
      (LoginHandler b GenJWT d login password =
          .error 401 "\x7b\"error\":\"Invalid credentials\"\x7d" ↔
        CheckCorPass b password user.Password = true) ∧
      (∀ token, GenJWT user.ID = .ok token →
        (LoginHandler b GenJWT d login password = .token token user.ID user.Login ↔
          CheckCorPass b password user.Password = false))) ∧
    (∀ (b : Bcrypt) (d : UserTable) (login password salt1 salt2 h1 h2 : String),
      login ≠ "" → password ≠ "" → d.SelectUser login = none →
      b.GenerateFromPassword password salt1 = .ok h1 →
      b.GenerateFromPassword h1 salt2 = .ok h2 →
      (RegisterHandler b d login password salt1 salt2).1.SelectUser login =
        some { ID := ((d.lastUserID + 1 : Nat) : Int), Login := login, Password := h2 }) ∧
    (sampleUsers.SelectUser "alice" =
        some { ID := 1, Login := "alice", Password := "s2$s1$secret" } ∧
      CheckCorPass sampleBcrypt "secret" "s1$secret" = true ∧
      LoginHandler sampleBcrypt sampleJWT sampleUsers "alice" "secret" =
        .token "token-1" 1 "alice" ∧
      LoginHandler sampleBcrypt sampleJWT sampleUsers "alice" "wrong" =
        .token "token-1" 1 "alice" ∧
      LoginHandler sampleBcrypt sampleJWT sampleUsers "alice" "s1$secret" =
        .error 401 "\x7b\"error\":\"Invalid credentials\"\x7d") := by
  refine ⟨?_, ?_, by decide, by decide, by decide, by decide, by decide⟩
  · intro b GenJWT d login password user hsel
    constructor
    · cases hc : CheckCorPass b password user.Password with
      | true => simp [LoginHandler, hsel, hc]
      | false =>
        cases hj : GenJWT user.ID <;> simp [LoginHandler, hsel, hc, hj]
    · intro token hj
      cases hc : CheckCorPass b password user.Password <;>
        simp [LoginHandler, hsel, hc, hj]
  · intro b d login password salt1 salt2 h1 h2 hl hp hnone hg1 hg2
    have hany := any_false_of_SelectUser_none d login hnone
    simp only [RegisterHandler, hl, hp, or_self, if_false, HashPass, hg1,
      UserTable.InsertUser, hg2, hany, Bool.false_eq_true]
    exact SelectUser_after_insert d login _ hnone rfl

/-- Witness of C15: the login of `alice` with the password `wrong`, for which `CheckCorPass`
is false. -/
theorem LoginHandler_check_inverted_witness :
    sampleUsers.SelectUser "alice" =
      some { ID := 1, Login := "alice", Password := "s2$s1$secret" } ∧
    CheckCorPass sampleBcrypt "wrong" "s2$s1$secret" = false ∧
    (LoginHandler sampleBcrypt sampleJWT sampleUsers "alice" "wrong" =
        .error 401 "\x7b\"error\":\"Invalid credentials\"\x7d" ↔
      CheckCorPass sampleBcrypt "wrong" "s2$s1$secret" = true) ∧
    (LoginHandler sampleBcrypt sampleJWT sampleUsers "alice" "wrong" =
        .token "token-1" 1 "alice" ↔
      CheckCorPass sampleBcrypt "wrong" "s2$s1$secret" = false) :=
  ⟨by decide, by decide,
    (LoginHandler_check_inverted.1 sampleBcrypt sampleJWT sampleUsers "alice" "wrong"
      { ID := 1, Login := "alice", Password := "s2$s1$secret" } (by decide)).1,
    (LoginHandler_check_inverted.1 sampleBcrypt sampleJWT sampleUsers "alice" "wrong"
      { ID := 1, Login := "alice", Password := "s2$s1$secret" } (by decide)).2 "token-1" rfl⟩

end FinalCalc
